import Mathlib

/-!
# tencent-go/pkg : the RPC core (package `rpc`, with `errx`, `types`)

A shallow embedding of the discovery cache, URL resolution, registration
key layout, wire helpers and port-listener dispatch of `src/rpc`, followed by
theorems about them.

Conventions of the embedding
* Go `string` is `Str`, a list of characters; Go `int` and `time.Duration`
  are `Int`, with 64-bit wrap-around applied where the source does arithmetic.
* Go `map[string]V` is a function `Str → Option V` (`none` = key absent).
* A Go run-time abort (nil dereference, index out of range, `panic`) is the
  outer `none` of an `Option` result.
* `(*T, errx.Error)` results are `Except errx.impl T`.
-/

set_option autoImplicit false

/-- Go `string`. -/
abbrev Str := List Char

/-! ## Go standard library pieces used by the source -/

namespace strings

/-- Go `strings.Split(s, sep)` for a one-character separator. -/
def Split (s : Str) (sep : Char) : List Str := s.splitOn sep

/-- Go `strings.Join(parts, sep)` for a one-character separator. -/
def Join (parts : List Str) (sep : Char) : Str := [sep].intercalate parts

/-- Go `strings.Trim(s, cutset)` for a one-character cutset. -/
def Trim (s : Str) (c : Char) : Str := (s.dropWhile (· == c)).rdropWhile (· == c)

end strings

namespace strconv

/-- Largest Go `int` (64-bit platforms). -/
def maxInt : Int := 9223372036854775807

/-- Smallest Go `int` (64-bit platforms). -/
def minInt : Int := -9223372036854775808

/-- The character of a decimal digit `d < 10`. -/
def digitChar (d : Nat) : Char := Char.ofNat (48 + d)

/-- Decimal digits of `n`, most significant first, pushed in front of `acc`. -/
def fmtNatAux : Nat → Nat → Str → Str
  | 0, _, acc => acc
  | fuel + 1, n, acc =>
    if n < 10 then digitChar n :: acc
    else fmtNatAux fuel (n / 10) (digitChar (n % 10) :: acc)

/-- Decimal representation of a natural number. -/
def fmtNat (n : Nat) : Str := fmtNatAux (n + 1) n []

/-- Go `%d` / `strconv.Itoa`: optional minus sign, then the decimal digits. -/
def Itoa : Int → Str
  | Int.ofNat n => fmtNat n
  | Int.negSucc n => '-' :: fmtNat (n + 1)

/-- Value of a digit string read left to right, starting from `a`. -/
def digitsVal (a : Nat) (s : Str) : Nat :=
  s.foldl (fun a c => a * 10 + (c.toNat - 48)) a

/-- Go `strconv.Atoi`: `[+-]?[0-9]+` within the range of `int`, else an error. -/
def Atoi (s : Str) : Option Int :=
  match s with
  | [] => none
  | c :: r =>
    let ds : Str := if c = '-' ∨ c = '+' then r else c :: r
    if ds = [] then none
    else if ds.all Char.isDigit then
      let v : Int := if c = '-' then -(digitsVal 0 ds : Int) else (digitsVal 0 ds : Int)
      if minInt ≤ v ∧ v ≤ maxInt then some v else none
    else none

end strconv

/-! ## package errx -/

namespace errx

/-- Go `errx.Type`, a string type. -/
abbrev ErrType := Str

def TypeInternal : ErrType := "internal".toList
def TypeNotFound : ErrType := "not_found".toList
def TypeValidation : ErrType := "validation".toList
def TypeAuthentication : ErrType := "authentication".toList
def TypeAuthorization : ErrType := "authorization".toList
def TypeTimeout : ErrType := "timeout".toList
def TypeBusiness : ErrType := "business".toList

/-- The error value `errx.impl` as seen through `Error()`, `Code()` and
`Type()`. The cause chain and the captured stack frames are diagnostic only
and are not part of the embedding. -/
structure impl where
  msg : Str
  code : Int
  typ : ErrType
  deriving DecidableEq, Repr

/-- The package variable `rootError`. -/
def rootError : impl := { msg := [], code := 0, typ := TypeInternal }

/-- Go `errx.Define`. -/
def Define : impl := rootError

def impl.WithMsg (i : impl) (s : Str) : impl := { i with msg := s }
def impl.WithCode (i : impl) (code : Int) : impl := { i with code := code }
def impl.WithType (i : impl) (t : ErrType) : impl := { i with typ := t }
def impl.Err (i : impl) : impl := i

/-- Go `impl.AppendMsg`. -/
def impl.AppendMsg (i : impl) (appendMsg : Str) : impl :=
  if i.msg = [] then { i with msg := appendMsg }
  else { i with msg := appendMsg ++ ": ".toList ++ i.msg }

/-- Go `errx.New` (and `errx.Newf` once the message is formatted). -/
def New (msg : Str) : impl := (Define.WithMsg msg).Err

/-- The package variable `errx.NotFound`. -/
def NotFound : impl := (Define.WithType TypeNotFound).WithMsg "not found".toList

/-- The package variable `errx.Internal`. -/
def Internal : impl := Define.WithMsg "internal error".toList

/-- Go `errx.Wrap(e)` for a foreign (non-errx, non-context) error with text `text`. -/
def Wrap (text : Str) : impl := { msg := text, code := 0, typ := TypeInternal }

end errx

/-! ## package rpc : data model -/

namespace rpc

/-- Go `time.Duration` units, in nanoseconds. -/
def Second : Int := 1000000000

def defaultServerTimeout : Int := 10 * Second
def defaultClientTimeout : Int := 8 * Second

/-- The constant `etcdPrefix`. -/
def etcdPrefix : Str := "/rpc-services".toList

/-- Go `rpc.Config` (the fields read by the embedded code). -/
structure Config where
  ServiceDomainSuffix : Str
  RpcServiceName : Str
  Namespace : Str
  RpcServerPort : Int

/-- Go `rpc.options`. The coordination client is a bare handle. -/
structure options where
  serviceName : Str
  path : Str
  port : Int
  timeout : Int
  etcd : Option Nat
  description : Str
  deriving DecidableEq

/-- Go `rpc.onlineService`. -/
structure onlineService where
  serviceName : Str
  port : Int
  path : Str
  namespace_ : Str
  deriving DecidableEq, Repr

/-- Go `rpc.discover` (the lock is not part of the sequential embedding). -/
structure discover where
  onlineServicesByPath : Str → Option (List onlineService)

/-- Go `(*discover).find`. -/
def discover.find (d : discover) (path : Str) (serviceName : Str) : List onlineService × Bool :=
  match d.onlineServicesByPath path with
  | none => ([], false)
  | some list =>
    if serviceName ≠ [] then
      let filtered := list.foldl
        (fun (filtered : List onlineService) item =>
          if item.serviceName = serviceName then filtered ++ [item] else filtered) []
      (filtered, decide (0 < filtered.length))
    else (list, true)

/-- The loop of `getURL`: the short in-cluster URL of the first candidate in the
caller's namespace, or the empty string when the loop ends without a `break`. -/
def getURL.loop (ns : Str) : List onlineService → Str
  | [] => []
  | s :: rest =>
    if s.namespace_ = ns then
      "http://".toList ++ s.serviceName ++ ":".toList ++ strconv.Itoa s.port ++ "/".toList
        ++ s.serviceName ++ "/".toList ++ s.path
    else getURL.loop ns rest

/-- Go `rpc.getURL`, given the discovery cache it loads and the configuration
it reads. The outer `none` is the index-out-of-range abort of `services[0]`. -/
def getURL (d : discover) (config : Config) (o : options) : Option (Except errx.impl Str) :=
  match d.find o.path o.serviceName with
  | (_, false) =>
    some (.error (errx.New ("rpc service ".toList ++ o.path ++ " not found".toList)))
  | (services, true) =>
    let url := getURL.loop config.Namespace services
    if url = [] then
      match services with
      | [] => none
      | s :: _ =>
        some (.ok ("http://".toList ++ s.serviceName ++ ".".toList ++ s.namespace_
          ++ ".svc.".toList ++ config.ServiceDomainSuffix ++ ":".toList ++ strconv.Itoa s.port
          ++ "/".toList ++ s.serviceName ++ "/".toList ++ s.path))
    else some (.ok url)

end rpc

/-! ## package rpc : registration layout and the discovery cache -/

namespace rpc

/-- Go `parseEtcdDataItem`; `(nil, false)` is `none`. -/
def parseEtcdDataItem (key value : Str) : Option onlineService :=
  let keyParts := strings.Split (strings.Trim key '/') '/'
  if keyParts.length < 4 then none
  else
    let keyParts := (keyParts.take (keyParts.length - 1)).drop 1
    let valueParts := strings.Split value ','
    if valueParts.length ≠ 2 then none
    else
      let serviceName := keyParts.headD []
      let path := strings.Join (keyParts.drop 1) '/'
      let ns := valueParts.headD []
      match strconv.Atoi (valueParts.getD 1 []) with
      | none => none
      | some port =>
        some { serviceName := serviceName, path := path, namespace_ := ns, port := port }

/-- Go `getMethodEtcdValue`: `fmt.Sprintf("%s,%d", namespace, port)`. -/
def getMethodEtcdValue (ns : Str) (port : Int) : Str :=
  ns ++ ",".toList ++ strconv.Itoa port

/-- The handler key `fmt.Sprintf("/%s/%s", serviceName, o.path)` of `serve`. -/
def serve.path (serviceName path : Str) : Str :=
  "/".toList ++ serviceName ++ "/".toList ++ path

/-- The registration key `fmt.Sprintf("%s%s/%s", etcdPrefix, path, PodName)` of `serve`. -/
def serve.key (serviceName path podName : Str) : Str :=
  etcdPrefix ++ serve.path serviceName path ++ "/".toList ++ podName

/-- One key/value pair of an etcd range response. -/
structure KeyValue where
  Key : Str
  Value : Str
  deriving DecidableEq

/-- The etcd `GetResponse` (the field the source reads). -/
structure GetResponse where
  Kvs : List KeyValue

/-- The body of the `for _, kv := range res.Kvs` loop of `reload`. -/
def reload.step (byPath : Str → Option (List onlineService)) (kv : KeyValue) :
    Str → Option (List onlineService) :=
  if kv.Key ≠ [] ∧ kv.Value ≠ [] then
    match parseEtcdDataItem kv.Key kv.Value with
    | some s =>
      fun p => if p = s.path then some ((byPath s.path).getD [] ++ [s]) else byPath p
    | none => byPath
  else byPath

/-- The `reload` closure of `newDiscover`, applied to the pair `(res, err)` that
`etcd.Get` returned. A non-nil `err` is only logged; `res.Kvs` on a nil `res`
is a nil-pointer dereference, the outer `none`. -/
def reload (_d : discover) (res : Option GetResponse) (_err : Option Str) : Option discover :=
  match res with
  | none => none
  | some r => some { onlineServicesByPath := r.Kvs.foldl reload.step (fun _ => none) }

/-! ## package rpc : timeouts -/

/-- Go `int64` wrap-around of an arithmetic result. -/
def wrapInt64 (x : Int) : Int := (x + 9223372036854775808) % 18446744073709551616 - 9223372036854775808

/-- The timeout normalisation at the head of `call`: the duration passed to
`ctxx.WithTimeout`, or `none` when no deadline is derived. -/
def call.timeout (timeout : Int) : Option Int :=
  let timeout := if timeout = 0 then defaultClientTimeout else timeout
  if timeout > 0 then some timeout else none

/-- The timeout normalisation of `serve`: the value handed to `newHttpHandler`. -/
def serve.timeout (timeout : Int) : Int :=
  let timeout := if timeout > 0 then wrapInt64 (timeout + Second * 2) else timeout
  if timeout = 0 then defaultServerTimeout else timeout

/-- The `if timeout > 0` guard of `newHttpHandler`: the duration passed to
`ctxx.WithTimeout` for the handler context, or `none` when no deadline is set. -/
def newHttpHandler.timeout (timeout : Int) : Option Int :=
  if timeout > 0 then some timeout else none

end rpc

/-! ## net/http values as the source uses them -/

namespace http

/-- Raw body bytes. -/
abbrev Bytes := List UInt8

/-- Go `http.Header`, one value per key; keys are written in the spelling the
source uses (Go compares them case-insensitively). -/
abbrev Header := List (Str × Str)

/-- Go `Header.Get`: the value stored for `key`, or the empty string. -/
def Header.Get : Header → Str → Str
  | [], _ => []
  | (k, v) :: rest, key => if k = key then v else Header.Get rest key

/-- Go `Header.Set`: replaces the value stored for `key`. -/
def Header.Set (h : Header) (key value : Str) : Header :=
  (key, value) :: h.filter (fun kv => kv.1 ≠ key)

/-- Go `*http.Request` (the fields read by the embedded code). -/
structure Request where
  URLPath : Str
  Header : Header
  ContentLength : Int
  Body : Bytes

/-- Go `*http.Response` (the fields read by the embedded code). -/
structure Response where
  StatusCode : Int
  ContentLength : Int
  Body : Bytes
  Header : Header := []
  deriving DecidableEq

/-- Go `http.ResponseWriter`: the status line once written, the headers and
the bytes written so far. -/
structure ResponseWriter where
  status : Option Int
  header : Header
  body : Bytes
  deriving DecidableEq

/-- A writer nothing has been written to. -/
def ResponseWriter.fresh : ResponseWriter := { status := none, header := [], body := [] }

/-- Go `ResponseWriter.WriteHeader`: the first call fixes the status, later
calls are superfluous and ignored. -/
def ResponseWriter.WriteHeader (w : ResponseWriter) (code : Int) : ResponseWriter :=
  match w.status with
  | some _ => w
  | none => { w with status := some code }

/-- Go `ResponseWriter.Write`: an implicit `WriteHeader(200)` when no status was
written, then the bytes are appended. -/
def ResponseWriter.Write (w : ResponseWriter) (bs : Bytes) : ResponseWriter :=
  { (w.WriteHeader 200) with body := body (w.WriteHeader 200) ++ bs }

/-- The response a client receives for what a handler wrote. `ContentLength` is
the body length when the server announced it and `-1` when it did not. -/
def ResponseWriter.response (w : ResponseWriter) (announced : Bool) : Response :=
  { StatusCode := w.status.getD 200
    ContentLength := if announced then (w.body.length : Int) else -1
    Body := w.body
    Header := w.header }

/-- Go `http.HandlerFunc`. -/
abbrev HandlerFunc := ResponseWriter → Request → ResponseWriter

def StatusOK : Int := 200
def StatusUnauthorized : Int := 401
def StatusForbidden : Int := 403
def StatusNotFound : Int := 404
def StatusBadGateway : Int := 502

end http

/-! ## package types, package ctxx -/

namespace ctxx

/-- Go `ctxx.Metadata`. -/
structure Metadata where
  TraceID : Int
  Operator : Str
  Caller : Str
  Locale : Str
  deriving DecidableEq

end ctxx

/-! ## package rpc : wire helpers -/

namespace rpc

open http

/-- The msgpack encoder and decoder for values of one Go type (with the `json`
struct tag), an external library: `Except.error` carries the library's error
text. -/
structure Codec (α : Type) where
  enc : α → Except Str Bytes
  dec : Bytes → Except Str α

/-- A Go type used as request or response payload: its zero value, the result
of `types.IsNilValue` on its values, and its msgpack codec. -/
structure WireType (α : Type) where
  zero : α
  IsNilValue : α → Bool
  codec : Codec α

/-- Go `rpc.ErrorDetail`. -/
structure ErrorDetail where
  Message : Str
  Type_ : errx.ErrType
  Code : Int
  deriving DecidableEq

/-- Go `rpc.WriteError`. A failed encoding is logged and nothing more is written. -/
def WriteError (E : Codec ErrorDetail) (w : ResponseWriter) (err : errx.impl) : ResponseWriter :=
  let w :=
    if err.typ = errx.TypeAuthorization then w.WriteHeader StatusForbidden
    else if err.typ = errx.TypeAuthentication then w.WriteHeader StatusUnauthorized
    else if err.typ = errx.TypeNotFound then w.WriteHeader StatusNotFound
    else w.WriteHeader StatusBadGateway
  let detail : ErrorDetail := { Message := err.msg, Type_ := err.typ, Code := err.code }
  match E.enc detail with
  | .error _ => w
  | .ok bs => w.Write bs

/-- Go `rpc.WriteSuccess`; `data = none` is the nil pointer. -/
def WriteSuccess {α : Type} (T : WireType α) (w : ResponseWriter) (data : Option α) :
    ResponseWriter × Option errx.impl :=
  let w := w.WriteHeader StatusOK
  match data with
  | some x =>
    match T.codec.enc x with
    | .error e => (w, some (errx.Wrap e).Err)
    | .ok bs => (w.Write bs, none)
  | none => (w, none)

/-- Go `rpc.ReadRequestBody`. -/
def ReadRequestBody {α : Type} (T : WireType α) (r : Request) : Except errx.impl α :=
  if T.IsNilValue T.zero then .ok T.zero
  else if r.ContentLength = 0 then .error (errx.New "request content length is zero".toList)
  else
    match T.codec.dec r.Body with
    | .error e => .error (errx.Wrap e).Err
    | .ok v => .ok v

/-- Go `rpc.NewRequestBody`; `none` is the nil reader (no body). -/
def NewRequestBody {α : Type} (T : WireType α) (value : α) : Except errx.impl (Option Bytes) :=
  if !T.IsNilValue value then
    match T.codec.enc value with
    | .error e => .error (errx.Wrap e).Err
    | .ok buf => .ok (some buf)
  else .ok none

/-- Go `rpc.WriteRequestHeader`. -/
def WriteRequestHeader (ctx : ctxx.Metadata) (r : Request) : Request :=
  let h := r.Header
  let h := h.Set "rpc-trace-id".toList (strconv.Itoa ctx.TraceID)
  let h := h.Set "rpc-caller".toList ctx.Caller
  let h := h.Set "rpc-operator".toList ctx.Operator
  let h := h.Set "rpc-locale".toList ctx.Locale
  let h := h.Set "Content-Type".toList "application/msgpack".toList
  { r with Header := h }

/-- Go `rpc.ParseResponse`. -/
def ParseResponse {α : Type} (E : Codec ErrorDetail) (T : WireType α) (resp : Response) :
    Except errx.impl α :=
  if resp.StatusCode ≥ 400 then
    match E.dec resp.Body with
    | .error e => .error (errx.Wrap e).Err
    | .ok detail =>
      .error (((errx.Define.WithMsg detail.Message).WithType detail.Type_).WithCode detail.Code).Err
  else if T.IsNilValue T.zero then .ok T.zero
  else if resp.ContentLength = 0 then .error (errx.New "response content length is zero".toList)
  else
    match T.codec.dec resp.Body with
    | .error e => .error (errx.Wrap e).Err
    | .ok v => .ok v

end rpc

/-! ## package rpc : port listener, registration, client call -/

namespace rpc

open http

/-- Go `env.BaseConfig` (the field read by `serve`). -/
structure BaseConfig where
  PodName : Str

/-- Go `rpc.httpServer` (the lock is not part of the sequential embedding). -/
structure httpServer where
  handlers : Str → Option HandlerFunc

/-- Go `(*httpServer).addMethodHandler`. -/
def httpServer.addMethodHandler (s : httpServer) (path : Str) (handler : HandlerFunc) :
    Except errx.impl httpServer :=
  match s.handlers path with
  | some _ =>
    .error (errx.New ("handler for path ".toList ++ path ++ " already exists".toList))
  | none => .ok { handlers := fun p => if p = path then some handler else s.handlers p }

/-- The lookup key computed at the head of `(*httpServer).ServeHTTP`. -/
def httpServer.ServeHTTP.key (r : Request) : Str :=
  let key := r.URLPath
  let serviceName := r.Header.Get "rpc-service-name".toList
  if serviceName ≠ [] then serviceName ++ "/".toList ++ key else key

/-- Go `(*httpServer).ServeHTTP`. -/
def httpServer.ServeHTTP (s : httpServer) (w : ResponseWriter) (r : Request) : ResponseWriter :=
  match s.handlers (httpServer.ServeHTTP.key r) with
  | some h => h w r
  | none => w.WriteHeader StatusNotFound

/-- What `serve` leaves behind: the listener with the handler attached, and the
key/value pair its registration task publishes on every lease rotation. -/
structure served where
  srv : httpServer
  port : Int
  key : Str
  value : Str

/-- Go `rpc.serve`. `httpServers` is the table of port listeners (a listener
without handlers for a port not yet opened), `newHttpHandler` the dispatch
function built from the typed handler for a given timeout. The outer `none`
is a process abort (`logrus.Panic`, `panic(err)`). -/
def serve (config : Config) (baseConfig : BaseConfig) (httpServers : Int → httpServer)
    (o : options) (newHttpHandler : Int → HandlerFunc) : Option served :=
  let serviceName := if o.serviceName = [] then config.RpcServiceName else o.serviceName
  if serviceName = [] then none
  else if o.path = [] then none
  else
    let port := if o.port = 0 then config.RpcServerPort else o.port
    let timeout := serve.timeout o.timeout
    let path := serve.path serviceName o.path
    let key := serve.key serviceName o.path baseConfig.PodName
    let value := getMethodEtcdValue config.Namespace port
    match (httpServers port).addMethodHandler path (newHttpHandler timeout) with
    | .error _ => none
    | .ok srv => some { srv := srv, port := port, key := key, value := value }

/-- The observable steps of a client call after URL resolution. -/
inductive Effect where
  | encodeBody
  | newRequest (url : Str)
  | send (url : Str)
  deriving DecidableEq

/-- The HTTP client side used by `call`: `http.NewRequestWithContext` for a
`POST` (given the context timeout, the URL and the body) and `httpClient.Do`. -/
structure Transport where
  NewRequest : Option Int → Str → Option Bytes → Except Str Request
  Do : Request → Except Str Response

/-- Go `rpc.call`, with the steps it has taken. The outer `none` of the result
is an abort inside `getURL`. -/
def call {α β : Type} (d : discover) (config : Config) (net : Transport)
    (E : Codec ErrorDetail) (I : WireType α) (O : WireType β)
    (o : options) (ctx : ctxx.Metadata) (cmd : α) :
    Option (Except errx.impl β) × List Effect :=
  let timeout := call.timeout o.timeout
  match getURL d config o with
  | none => (none, [])
  | some (.error err) => (some (.error err), [])
  | some (.ok url) =>
    match NewRequestBody I cmd with
    | .error err => (some (.error err), [Effect.encodeBody])
    | .ok body =>
      match net.NewRequest timeout url body with
      | .error e =>
        (some (.error ((errx.Wrap e).AppendMsg
            ("create request failed. target: ".toList ++ url)).Err),
          [Effect.encodeBody, Effect.newRequest url])
      | .ok req =>
        let req := WriteRequestHeader ctx req
        match net.Do req with
        | .error e =>
          (some (.error ((errx.Wrap e).AppendMsg "request rpc method failed".toList).Err),
            [Effect.encodeBody, Effect.newRequest url, Effect.send url])
        | .ok res =>
          (some (ParseResponse E O res),
            [Effect.encodeBody, Effect.newRequest url, Effect.send url])

end rpc

/-! ## Sample values -/

namespace sample

open rpc http

/-- The instance `{orders, orders/create, ns1, 28000}`. -/
def orders : onlineService :=
  { serviceName := "orders".toList, port := 28000, path := "orders/create".toList,
    namespace_ := "ns1".toList }

/-- The same method advertised from namespace `ns2`. -/
def ordersNs2 : onlineService := { orders with namespace_ := "ns2".toList }

/-- A cache holding `orders` under its path. -/
def cache : discover :=
  { onlineServicesByPath := fun p => if p = "orders/create".toList then some [orders] else none }

/-- A cache holding the `ns2` instance before the `ns1` one. -/
def cache2 : discover :=
  { onlineServicesByPath := fun p =>
      if p = "orders/create".toList then some [ordersNs2, orders] else none }

/-- A caller configured with namespace `ns1`. -/
def config : Config :=
  { ServiceDomainSuffix := "cluster.local".toList, RpcServiceName := "localhost".toList,
    Namespace := "ns1".toList, RpcServerPort := 28000 }

/-- The descriptor of `orders/create` under service name `orders`. -/
def method : options :=
  { serviceName := "orders".toList, path := "orders/create".toList, port := 28000,
    timeout := 0, etcd := none, description := [] }

/-- A descriptor whose path nobody advertises. -/
def missing : options := { method with path := "orders/cancel".toList }

/-- A handler that answers 200 with one byte. -/
def handler : HandlerFunc := fun w _ => (w.WriteHeader StatusOK).Write [1]

/-- A request for the handler key of `method`, without the `rpc-service-name` header. -/
def request : Request :=
  { URLPath := "/orders/orders/create".toList, Header := [], ContentLength := 0, Body := [] }

/-- The same request carrying `rpc-service-name: orders`. -/
def requestNamed : Request :=
  { request with Header := [("rpc-service-name".toList, "orders".toList)] }

end sample

/-! ## The URL forms in the words of the specification -/

namespace spec

open rpc

/-- Spec: `http://<serviceName>:<port>/<serviceName>/<path>`. -/
def inClusterURL (s : onlineService) : Str :=
  "http://".toList ++ (s.serviceName ++ (":".toList ++ (strconv.Itoa s.port ++ ("/".toList
    ++ (s.serviceName ++ ("/".toList ++ s.path))))))

/-- Spec: `http://<serviceName>.<namespace>.svc.<domainSuffix>:<port>/<serviceName>/<path>`. -/
def crossNamespaceURL (domainSuffix : Str) (s : onlineService) : Str :=
  "http://".toList ++ (s.serviceName ++ (".".toList ++ (s.namespace_ ++ (".svc.".toList
    ++ (domainSuffix ++ (":".toList ++ (strconv.Itoa s.port ++ ("/".toList
    ++ (s.serviceName ++ ("/".toList ++ s.path))))))))))

end spec

/-! ## Sample codecs and transport -/

namespace sample

open rpc http

/-- A length-prefixed test encoding of a string of fewer than 256 one-byte characters. -/
def encStr (s : Str) : Except Str Bytes :=
  if s.length < 256 ∧ s.all (fun c => decide (c.toNat < 256)) then
    .ok (UInt8.ofNat s.length :: s.map (fun c => UInt8.ofNat c.toNat))
  else .error "string not encodable".toList

/-- Reads back one string written by `encStr`, returning the bytes after it. -/
def decStr : Bytes → Except Str (Str × Bytes)
  | [] => .error "unexpected end of input".toList
  | n :: rest =>
    if n.toNat ≤ rest.length then
      .ok ((rest.take n.toNat).map (fun b => Char.ofNat b.toNat), rest.drop n.toNat)
    else .error "unexpected end of input".toList

/-- A test codec for `ErrorDetail`: message, type, then a one-byte code. -/
def errorDetailCodec : Codec ErrorDetail :=
  { enc := fun d =>
      match encStr d.Message, encStr d.Type_ with
      | .ok m, .ok t =>
        if 0 ≤ d.Code ∧ d.Code < 256 then .ok (m ++ t ++ [UInt8.ofNat d.Code.toNat])
        else .error "code not encodable".toList
      | .error e, _ => .error e
      | _, .error e => .error e
    dec := fun bs =>
      match decStr bs with
      | .error e => .error e
      | .ok (m, r) =>
        match decStr r with
        | .error e => .error e
        | .ok (t, [c]) => .ok { Message := m, Type_ := t, Code := (c.toNat : Int) }
        | .ok _ => .error "trailing bytes".toList }

/-- An ordinary payload type: a small number sent as one byte. -/
def small : WireType Nat :=
  { zero := 0
    IsNilValue := fun _ => false
    codec :=
      { enc := fun n => if n < 256 then .ok [UInt8.ofNat n] else .error "too large".toList
        dec := fun bs =>
          match bs with
          | [b] => .ok b.toNat
          | _ => .error "one byte expected".toList } }

/-- The marker type `types.Nil`: `IsNilValue` holds of its values. -/
def nil : WireType Unit :=
  { zero := ()
    IsNilValue := fun _ => true
    codec := { enc := fun _ => .ok [128], dec := fun _ => .ok () } }

/-- A transport that builds every request and answers 200 with one byte. -/
def net : Transport :=
  { NewRequest := fun _ url body =>
      .ok { URLPath := url, Header := [], ContentLength := ((body.getD []).length : Int),
            Body := body.getD [] }
    Do := fun _ => .ok { StatusCode := 200, ContentLength := 1, Body := [7] } }

/-- A caller context. -/
def ctx : ctxx.Metadata :=
  { TraceID := 42, Operator := "system".toList, Caller := "pod-0".toList, Locale := [] }

/-- A handler's not-found error. -/
def notFound : errx.impl := errx.NotFound.WithMsg "order 7 not found".toList

end sample

/-! ## Response headers, request metadata -/

namespace http

/-- Go `w.Header().Set(key, value)`: the header map of a response is sent with
the status line, so a change made after `WriteHeader` has no effect on it. -/
def ResponseWriter.HeaderSet (w : ResponseWriter) (key value : Str) : ResponseWriter :=
  match w.status with
  | some _ => w
  | none => { w with header := w.header.Set key value }

/-- Go `w.Header().Add(key, value)`, with the same rule. -/
def ResponseWriter.HeaderAdd (w : ResponseWriter) (key value : Str) : ResponseWriter :=
  match w.status with
  | some _ => w
  | none => { w with header := w.header ++ [(key, value)] }

/-- Go `w.Header().Del(key)`, with the same rule. -/
def ResponseWriter.HeaderDel (w : ResponseWriter) (key : Str) : ResponseWriter :=
  match w.status with
  | some _ => w
  | none => { w with header := w.header.filter (fun kv => kv.1 ≠ key) }

end http

namespace strconv

/-- Go `strconv.ParseInt(s, 10, 64)`: the same language and range as `Atoi`
on a 64-bit platform. -/
def ParseInt (s : Str) : Option Int := Atoi s

end strconv

namespace types

/-- Go `types.NewIDFromString`: the parsed id, or `0` with an error. -/
def NewIDFromString (str : Str) : Int × Option errx.impl :=
  match strconv.ParseInt str with
  | some i => (i, none)
  | none => (0, some (errx.Wrap "strconv.ParseInt: parsing failed".toList).Err)

end types

namespace ctxx

/-- What `FillDefaults` reads from outside the metadata: the id `types.NewID()`
would generate and the configured pod name. -/
structure Ambient where
  newID : Int
  PodName : Str

/-- Go `(*Metadata).FillDefaults`. -/
def Metadata.FillDefaults (a : Ambient) (m : Metadata) : Metadata :=
  let m := if m.TraceID = 0 then { m with TraceID := a.newID } else m
  let m :=
    if m.Caller = [] then
      let caller := if a.PodName = [] then "unknown".toList else a.PodName
      { m with Caller := caller }
    else m
  if m.Operator = [] then { m with Operator := "system".toList } else m

/-- Go `ctxx.WithMetadata`: the metadata carried by the new context. -/
def WithMetadata (a : Ambient) (metadata : Metadata) : Metadata :=
  metadata.FillDefaults a

end ctxx

/-! ## package rpc : server dispatch -/

namespace rpc

open http

/-- Go `readMetadataFromHeaders`. -/
def readMetadataFromHeaders (headers : Header) : ctxx.Metadata :=
  { TraceID := (types.NewIDFromString (headers.Get "rpc-trace-id".toList)).1
    Operator := headers.Get "rpc-operator".toList
    Caller := headers.Get "rpc-caller".toList
    Locale := headers.Get "rpc-locale".toList }

/-- Go `rpc.Context` as `contextWrapper` implements it: the request metadata,
the timeout bounding the context (if any), the request and the writer. -/
structure Context where
  metadata : ctxx.Metadata
  timeout : Option Int
  r : Request
  w : ResponseWriter

/-- Go `rpc.Handler[I, O]`: the `(*O, errx.Error)` it returns, and the writer
as the handler leaves it (it can reach it through `HttpWriter`). -/
abbrev Handler (α β : Type) := Context → α → ResponseWriter × Option β × Option errx.impl

/-- The tail of the closure of `newHttpHandler` from `handler(cw, *input)` on. -/
def newHttpHandler.invoke {α β : Type} (E : Codec ErrorDetail) (O : WireType β)
    (handler : Handler α β) (ctx : Context) (input : α) : ResponseWriter :=
  match handler ctx input with
  | (w, _, some err) => WriteError E w err
  | (w, output, none) => (WriteSuccess O w output).1

/-- The closure returned by Go `newHttpHandler`, with the inputs on which it
invoked the typed handler. `validate` is the validator
`validation.GetOrCreateValidator` found for the input type (`none` when
`shouldValidate` is false). -/
def newHttpHandler.run {α β : Type} (a : ctxx.Ambient) (E : Codec ErrorDetail)
    (I : WireType α) (O : WireType β) (validate : Option (α → Option errx.impl))
    (handler : Handler α β) (timeout : Int) (w : ResponseWriter) (req : Request) :
    ResponseWriter × List α :=
  let w := w.HeaderSet "Content-Type".toList "application/msgpack".toList
  let ctx : Context :=
    { metadata := ctxx.WithMetadata a (readMetadataFromHeaders req.Header)
      timeout := newHttpHandler.timeout timeout, r := req, w := w }
  match ReadRequestBody I req with
  | .error err => (WriteError E w err, [])
  | .ok input =>
    match validate with
    | some v =>
      match v input with
      | some err => (WriteError E w err, [])
      | none => (newHttpHandler.invoke E O handler ctx input, [input])
    | none => (newHttpHandler.invoke E O handler ctx input, [input])

/-- Go `newHttpHandler`. -/
def newHttpHandler {α β : Type} (a : ctxx.Ambient) (E : Codec ErrorDetail)
    (I : WireType α) (O : WireType β) (validate : Option (α → Option errx.impl))
    (handler : Handler α β) (timeout : Int) : HandlerFunc :=
  fun w req => (newHttpHandler.run a E I O validate handler timeout w req).1

end rpc

/-! ## package rpc : gateway -/

namespace rpc

open http

/-- Go `rpc.Route` as `*route` implements it (the reflected input and output
types are carried by name). -/
structure Route where
  inputType : Str
  outputType : Str
  path : Str
  description : Str
  handler : HandlerFunc

/-- Go `rpc.Group`. -/
structure Group where
  Description : Str
  Path : Str
  Routes : List Route

/-- Go `rpc.Interceptor`: its boolean verdict, and the writer as it leaves it. -/
abbrev Interceptor := ResponseWriter → Request → Route → Group → ResponseWriter × Bool

/-- Go `rpc.pathRoute`. -/
structure pathRoute where
  route : Route
  group : Group

/-- Go `rpc.gateway`; the `sync.Map` is a finite map from paths. -/
structure gateway where
  groups : List Group
  interceptors : List Interceptor
  routeByPath : Str → Option pathRoute

/-- One pass of the inner loop of `NewGateway`: `LoadOrStore` of the resolved
path, `none` being `panic("duplicate route " + path)`. `pathJoin` is Go
`path.Join`. -/
def NewGateway.store (pathJoin : List Str → Str) (group : Group)
    (tbl : Option (Str → Option pathRoute)) (r : Route) : Option (Str → Option pathRoute) :=
  match tbl with
  | none => none
  | some t =>
    let path := pathJoin ["/".toList, group.Path, r.path]
    match t path with
    | some _ => none
    | none => some (fun q => if q = path then some { route := r, group := group } else t q)

/-- Go `rpc.NewGateway`; `none` is the abort on a duplicate route. -/
def NewGateway (pathJoin : List Str → Str) (groups : List Group)
    (interceptors : List Interceptor) : Option gateway :=
  (groups.foldl (fun tbl group => group.Routes.foldl (NewGateway.store pathJoin group) tbl)
      (some (fun _ => none))).map
    (fun t => { groups := groups, interceptors := interceptors, routeByPath := t })

/-- What `gateway.ServeHTTP` invoked, in order. -/
inductive GatewayEvent where
  | interceptor (index : Nat) (verdict : Bool)
  | route (path : Str)
  deriving DecidableEq

/-- The `for _, in := range g.interceptors` loop of `gateway.ServeHTTP` from
position `i` on, followed by `matchedRoute.route.ServeHTTP` when no interceptor
returned false. -/
def gateway.ServeHTTP.chain (r : Request) (m : pathRoute) :
    List Interceptor → Nat → ResponseWriter → ResponseWriter × List GatewayEvent
  | [], _, w => (m.route.handler w r, [GatewayEvent.route m.route.path])
  | i :: rest, k, w =>
    match i w r m.route m.group with
    | (w1, false) => (w1, [GatewayEvent.interceptor k false])
    | (w1, true) =>
      ((gateway.ServeHTTP.chain r m rest (k + 1) w1).1,
        GatewayEvent.interceptor k true :: (gateway.ServeHTTP.chain r m rest (k + 1) w1).2)

/-- Go `(*gateway).ServeHTTP`, with what it invoked. -/
def gateway.ServeHTTP.run (E : Codec ErrorDetail) (g : gateway) (w : ResponseWriter)
    (r : Request) : ResponseWriter × List GatewayEvent :=
  match g.routeByPath r.URLPath with
  | none =>
    (WriteError E w
      (errx.NotFound.WithMsg ("path [".toList ++ r.URLPath ++ "] not found".toList)).Err, [])
  | some matchedRoute => gateway.ServeHTTP.chain r matchedRoute g.interceptors 0 w

/-- Go `(*gateway).ServeHTTP`. -/
def gateway.ServeHTTP (E : Codec ErrorDetail) (g : gateway) : HandlerFunc :=
  fun w r => (gateway.ServeHTTP.run E g w r).1

/-- The handler closure of Go `ProxyRoute`. `GetURL` is the result of
`met.GetURL()`; when that call aborts nothing is written. -/
def ProxyRoute.handler (E : Codec ErrorDetail) (net : Transport)
    (GetURL : Option (Except errx.impl Str)) : HandlerFunc :=
  fun w r =>
    match GetURL with
    | none => w
    | some (.error err) => WriteError E w err
    | some (.ok u) =>
      match net.NewRequest none u (some r.Body) with
      | .error e => WriteError E w (errx.Wrap e).Err
      | .ok req =>
        match net.Do req with
        | .error e => WriteError E w (errx.Wrap e).Err
        | .ok res =>
          let w := res.Header.foldl (fun w kv => w.HeaderAdd kv.1 kv.2) w
          let w := w.WriteHeader res.StatusCode
          if res.StatusCode ≥ 500 then
            let w := w.HeaderDel "Content-Length".toList
            WriteError E w errx.Internal.Err
          else w.Write res.Body

/-! ## package rpc : method descriptors -/

/-- Go `rpc.method[I, O]`. -/
structure method where
  options : options
  deriving DecidableEq

/-- Go `(*method).WithTimeout`: the receiver after the call and the descriptor
returned. `o := s.options` copies the struct, the assignment changes the copy. -/
def method.WithTimeout (s : method) (d : Int) : method × method :=
  let o := s.options
  let o := { o with timeout := d }
  (s, { options := o })

/-- Go `(*method).WithPort`. -/
def method.WithPort (s : method) (p : Int) : method × method :=
  let o := s.options
  let o := { o with port := p }
  (s, { options := o })

/-- Go `(*method).WithEtcd`. -/
def method.WithEtcd (s : method) (c : Option Nat) : method × method :=
  let o := s.options
  let o := { o with etcd := c }
  (s, { options := o })

/-- Go `(*method).WithServiceName`. -/
def method.WithServiceName (s : method) (serviceName : Str) : method × method :=
  let o := s.options
  let o := { o with serviceName := serviceName }
  (s, { options := o })

/-- Go `(*method).WithDescription`. -/
def method.WithDescription (s : method) (description : Str) : method × method :=
  let o := s.options
  let o := { o with description := description }
  (s, { options := o })

end rpc

/-! ## package util : debouncer -/

namespace util

/-- Go `util.debouncer` on a time line of nanosecond instants. `timer` is the
field `d.timer`: `none` is nil (no goroutine started), `some none` a timer
that is not pending (it has fired), `some (some t)` a timer pending with
expiry `t`. `runs` lists the instants at which `fn` ran. -/
structure debouncer where
  delay : Int
  timer : Option (Option Int)
  runs : List Int
  deriving DecidableEq

/-- Go `util.NewDebouncer`. -/
def NewDebouncer (delay : Int) : debouncer := { delay := delay, timer := none, runs := [] }

/-- Time passes up to `now` with no call: a pending timer whose expiry has been
reached delivers on `timer.C`, and the goroutine started by `Trigger` receives
it and runs `fn`. -/
def debouncer.elapse (d : debouncer) (now : Int) : debouncer :=
  match d.timer with
  | some (some t) => if t ≤ now then { d with timer := some none, runs := d.runs ++ [t] } else d
  | _ => d

/-- Go `(*debouncer).Trigger`, called at instant `now`. -/
def debouncer.Trigger (d : debouncer) (now : Int) : debouncer :=
  match d.timer with
  | none => { d with timer := some (some (now + d.delay)) }
  | some _ => { d with timer := some (some (now + d.delay)) }

/-- A sequence of `Trigger` calls at the given instants, time passing in between. -/
def debouncer.burst (d : debouncer) : List Int → debouncer
  | [] => d
  | t :: ts => debouncer.burst ((d.elapse t).Trigger t) ts

/-- Time passes with no further call until a pending timer has fired. -/
def debouncer.settle (d : debouncer) : debouncer :=
  match d.timer with
  | some (some t) => d.elapse t
  | _ => d

end util

/-! ## Sample values for dispatch and the gateway -/

namespace errx

/-- The package variable `errx.Validation`. -/
def Validation : impl := (Define.WithType TypeValidation).WithMsg "validation failed".toList

/-- The package variable `errx.Authentication`. -/
def Authentication : impl :=
  (Define.WithType TypeAuthentication).WithMsg "unauthenticated".toList

end errx

namespace sample

open rpc http

/-- The surroundings of a server pod. -/
def ambient : ctxx.Ambient := { newID := 7001, PodName := "pod-0".toList }

/-- A validator for the one-byte payload: at most 100. -/
def validate : Nat → Option errx.impl :=
  fun n => if n ≤ 100 then none else some errx.Validation

/-- A typed handler that returns its input. -/
def echo : Handler Nat Nat := fun ctx n => (ctx.w, some n, none)

/-- A request whose body decodes to 200. -/
def bigRequest : Request :=
  { URLPath := "/orders/orders/create".toList, Header := [], ContentLength := 1, Body := [200] }

/-- An interceptor that lets every request pass. -/
def pass : Interceptor := fun w _ _ _ => (w, true)

/-- An interceptor that answers 401 and vetoes. -/
def deny : Interceptor := fun w _ _ _ => (w.WriteHeader StatusUnauthorized, false)

/-- A hosted route `create`. -/
def createRoute : Route :=
  { inputType := "Nat".toList, outputType := "Nat".toList, path := "create".toList,
    description := [], handler := handler }

/-- The route table entry of `createRoute` in a group `/orders`. -/
def createEntry : pathRoute :=
  { route := createRoute, group := { Description := [], Path := "/orders".toList, Routes := [createRoute] } }

end sample

namespace spec

open rpc

/-- Spec: the global table flattens every group's path prefix with each of its
routes' paths, `path.Join("/", group.Path, route.Path())`; these are the
entries, group by group and route by route. -/
def resolved (pathJoin : List Str → Str) : List Group → List (Str × pathRoute)
  | [] => []
  | g :: gs =>
    g.Routes.map (fun r => (pathJoin ["/".toList, g.Path, r.path], { route := r, group := g }))
      ++ resolved pathJoin gs

end spec

namespace spec

open rpc

/-- The `LoadOrStore` of one table entry followed by the duplicate check, on an
entry given by its resolved path. -/
def insert (tbl : Option (Str → Option pathRoute)) (e : Str × pathRoute) :
    Option (Str → Option pathRoute) :=
  match tbl with
  | none => none
  | some t =>
    match t e.1 with
    | some _ => none
    | none => some (fun q => if q = e.1 then some e.2 else t q)

end spec

namespace sample

open rpc http

/-- Collapses runs of `/` into one. -/
def squeeze : Str → Str
  | [] => []
  | [c] => [c]
  | c :: d :: rest => if c = '/' ∧ d = '/' then squeeze (d :: rest) else c :: squeeze (d :: rest)

/-- A stand-in for Go `path.Join` that agrees with it on elements without `.`
or `..` segments and without a trailing `/`: the non-empty elements joined by
`/`, with runs of `/` collapsed. -/
def pathJoin (elems : List Str) : Str :=
  squeeze (strings.Join (elems.filter (fun e => e ≠ [])) '/')

/-- A group `/orders` holding the route `create`. -/
def ordersGroup : Group := { Description := [], Path := "/orders".toList, Routes := [createRoute] }

/-- A transport whose upstream answers with the given status and body. -/
def upstream (status : Int) (body : Bytes) : Transport :=
  { NewRequest := fun _ url b =>
      .ok { URLPath := url, Header := [], ContentLength := ((b.getD []).length : Int),
            Body := b.getD [] }
    Do := fun _ => .ok { StatusCode := status, ContentLength := (body.length : Int), Body := body } }

/-- The URL a proxy route resolved. -/
def url : Option (Except errx.impl Str) :=
  some (.ok "http://orders:28000/orders/orders/create".toList)

end sample

/-! ## package rpc : descriptor construction, reload in steps -/

namespace strings

/-- Go `unicode.IsSpace`. -/
def isSpace (c : Char) : Bool :=
  c = '\t' || c = '\n' || c.toNat = 11 || c.toNat = 12 || c = '\r' || c = ' '
    || c.toNat = 0x85 || c.toNat = 0xA0 || c.toNat = 0x1680
    || (0x2000 ≤ c.toNat && c.toNat ≤ 0x200A)
    || c.toNat = 0x2028 || c.toNat = 0x2029 || c.toNat = 0x202F || c.toNat = 0x205F
    || c.toNat = 0x3000

/-- Go `strings.TrimSpace`. -/
def TrimSpace (s : Str) : Str := (s.dropWhile isSpace).rdropWhile isSpace

end strings

namespace rpc

/-- Go `pathPattern.MatchString` for `^[a-zA-Z0-9-_/{}]*$`. -/
def pathPattern.MatchString (s : Str) : Bool :=
  s.all (fun c => c.isAlphanum || c = '-' || c = '_' || c = '/' || c = '{' || c = '}')

/-- Go `rpc.NewMethod`; `none` is `logrus.Panicf`. -/
def NewMethod (path : Str) : Option method :=
  let path := strings.Trim path '/'
  let path := strings.TrimSpace path
  if !pathPattern.MatchString path then none
  else
    some { options := { serviceName := [], path := path, port := 0, timeout := 0, etcd := none,
                        description := [] } }

/-- A run of the `reload` closure on a fetched response, step by step: the map
readers see (`d.onlineServicesByPath`, guarded by `d.mu`), the local `byPath`,
the pairs not yet visited, and whether the assignment has been made. -/
structure reload.Run where
  shared : Str → Option (List onlineService)
  byPath : Str → Option (List onlineService)
  rest : List KeyValue
  committed : Bool

/-- The run at `byPath := map[string][]*onlineService{}`. -/
def reload.Run.start (d : discover) (res : GetResponse) : reload.Run :=
  { shared := d.onlineServicesByPath, byPath := fun _ => none, rest := res.Kvs,
    committed := false }

/-- One step: one pass of the loop over `res.Kvs`, then the assignment
`d.onlineServicesByPath = byPath` made while holding the write lock. -/
def reload.Run.next (s : reload.Run) : reload.Run :=
  match s.rest with
  | kv :: rest => { s with byPath := reload.step s.byPath kv, rest := rest }
  | [] => if s.committed then s else { s with shared := s.byPath, committed := true }

/-- The run after `n` steps. -/
def reload.Run.after (s : reload.Run) : Nat → reload.Run
  | 0 => s
  | n + 1 => reload.Run.after s.next n

/-- What a `find` that takes the read lock at this point of the run returns. -/
def reload.Run.find (s : reload.Run) (path serviceName : Str) : List onlineService × Bool :=
  discover.find { onlineServicesByPath := s.shared } path serviceName

end rpc

/-! ## package reflect, as package validation uses it -/

namespace reflect

/-- Go `reflect.Kind`, in the order of its constants. -/
inductive Kind where
  | Invalid | Bool | Int | Int8 | Int16 | Int32 | Int64
  | Uint | Uint8 | Uint16 | Uint32 | Uint64 | Uintptr
  | Float32 | Float64 | Complex64 | Complex128
  | Array | Chan | Func | Interface | Map | Ptr | Slice | String | Struct | UnsafePointer
  deriving DecidableEq, Repr

/-- The numeric value of a kind constant. -/
def Kind.toNat : Kind → Nat
  | .Invalid => 0 | .Bool => 1 | .Int => 2 | .Int8 => 3 | .Int16 => 4 | .Int32 => 5
  | .Int64 => 6 | .Uint => 7 | .Uint8 => 8 | .Uint16 => 9 | .Uint32 => 10 | .Uint64 => 11
  | .Uintptr => 12 | .Float32 => 13 | .Float64 => 14 | .Complex64 => 15 | .Complex128 => 16
  | .Array => 17 | .Chan => 18 | .Func => 19 | .Interface => 20 | .Map => 21 | .Ptr => 22
  | .Slice => 23 | .String => 24 | .Struct => 25 | .UnsafePointer => 26

/-- Go `Kind.String`, the name of a kind. -/
def Kind.name : Kind → Str
  | .Invalid => "invalid".toList | .Bool => "bool".toList | .Int => "int".toList
  | .Int8 => "int8".toList | .Int16 => "int16".toList | .Int32 => "int32".toList
  | .Int64 => "int64".toList | .Uint => "uint".toList | .Uint8 => "uint8".toList
  | .Uint16 => "uint16".toList | .Uint32 => "uint32".toList | .Uint64 => "uint64".toList
  | .Uintptr => "uintptr".toList | .Float32 => "float32".toList | .Float64 => "float64".toList
  | .Complex64 => "complex64".toList | .Complex128 => "complex128".toList
  | .Array => "array".toList | .Chan => "chan".toList | .Func => "func".toList
  | .Interface => "interface".toList | .Map => "map".toList | .Ptr => "ptr".toList
  | .Slice => "slice".toList | .String => "string".toList | .Struct => "struct".toList
  | .UnsafePointer => "unsafe.Pointer".toList

/-- What package validation asks of a type through `Implements` and
`ConvertibleTo`. -/
structure Traits where
  validatable : Bool := false
  zeroChecker : Bool := false
  enum : Bool := false
  decimal : Bool := false
  time : Bool := false
  deriving DecidableEq, Repr

mutual
/-- Go `reflect.Type`, for the kinds validation distinguishes. -/
inductive RType where
  | basic (kind : Kind) (name : Str) (traits : Traits)
  | ptr (elem : RType)
  | slice (elem : RType)
  | array (elem : RType)
  | map (key : RType) (elem : RType)
  | struct (name : Str) (traits : Traits) (fields : List StructField)
/-- Go `reflect.StructField`: name, exported, anonymous, the key/value pairs of
its tag, and its type. -/
inductive StructField where
  | mk (Name : Str) (exported : Bool) (Anonymous : Bool) (Tag : List (Str × Str))
      (Type_ : RType)
end

/-- Go `Type.Kind`. -/
def RType.Kind : RType → Kind
  | .basic k _ _ => k
  | .ptr _ => .Ptr
  | .slice _ => .Slice
  | .array _ => .Array
  | .map _ _ => .Map
  | .struct _ _ _ => .Struct

/-- Go `Type.Name` (empty for unnamed composite types). -/
def RType.Name : RType → Str
  | .basic _ n _ => n
  | .struct n _ _ => n
  | _ => []

/-- The traits of a type (none for unnamed composite types). -/
def RType.traits : RType → Traits
  | .basic _ _ t => t
  | .struct _ t _ => t
  | _ => {}

/-- Go `StructTag.Get`. -/
def TagGet : List (Str × Str) → Str → Str
  | [], _ => []
  | (k, v) :: rest, key => if k = key then v else TagGet rest key

/-- Go `reflect.Value`. A nil slice or map is `none`; `named` is a value of a
named type with methods: the result of its `IsZero` method if it implements
`ZeroChecker`, the result of its `Validate` method if it implements
`Validatable`, and the underlying value. Floats carry their bit pattern. -/
inductive Value where
  | invalid
  | bool (b : Bool)
  | int (kind : Kind) (v : Int)
  | uint (kind : Kind) (v : Nat)
  | float (kind : Kind) (bits : Nat)
  | string (s : Str)
  | ptr (elem : Option Value)
  | slice (elems : Option (List Value))
  | array (elems : List Value)
  | map (entries : Option (List (Value × Value)))
  | struct (fields : List Value)
  | named (isZero : Option Bool) (validate : Option (Option errx.impl)) (v : Value)

/-- Go `Value.Kind`. -/
def Value.Kind : Value → Kind
  | .invalid => .Invalid
  | .bool _ => .Bool
  | .int k _ => k
  | .uint k _ => k
  | .float k _ => k
  | .string _ => .String
  | .ptr _ => .Ptr
  | .slice _ => .Slice
  | .array _ => .Array
  | .map _ => .Map
  | .struct _ => .Struct
  | .named _ _ v => Value.Kind v

/-- The value under the method wrappers. -/
def Value.under : Value → Value
  | .named _ _ v => Value.under v
  | v => v

mutual
/-- Go `Value.IsZero` (on a valid value). -/
def Value.IsZero : Value → Bool
  | .invalid => true
  | .bool b => !b
  | .int _ v => v = 0
  | .uint _ v => v = 0
  | .float _ bits => bits = 0
  | .string s => s = []
  | .ptr e => e.isNone
  | .slice e => e.isNone
  | .array es => Value.allZero es
  | .map e => e.isNone
  | .struct fs => Value.allZero fs
  | .named _ _ v => Value.IsZero v
/-- All values of a list are zero. -/
def Value.allZero : List Value → Bool
  | [] => true
  | v :: rest => Value.IsZero v && Value.allZero rest
end

/-- Go `Value.Int`: the value for the signed integer kinds, an abort (`none`)
for every other kind. -/
def Value.Int : Value → Option Int
  | .int _ v => some v
  | .named _ _ v => Value.Int v
  | _ => none

/-- Go `len` of a string: its length in bytes of UTF-8. -/
def byteLen (s : Str) : Nat := (s.map Char.utf8Size).sum

/-- Go `Value.Len`: defined for strings, slices, arrays and maps, an abort
(`none`) for every other kind. -/
def Value.Len : Value → Option Nat
  | .string s => some (byteLen s)
  | .slice e => some (e.getD []).length
  | .array es => some es.length
  | .map e => some (e.getD []).length
  | .named _ _ v => Value.Len v
  | _ => none

/-- Go `fmt.Sprint(v.Interface())` for the kinds used as map keys here; other
kinds print as `?`. -/
def Value.Sprint : Value → Str
  | .string s => s
  | .int _ v => strconv.Itoa v
  | .uint _ v => strconv.Itoa (Int.ofNat v)
  | .bool b => if b then "true".toList else "false".toList
  | .named _ _ v => Value.Sprint v
  | _ => "?".toList

end reflect

/-! ## package validation : rules and the tag grammar -/

namespace strings

/-- Go `strings.ReplaceAll(s, c, "")` for a one-character `c`. -/
def removeAll (s : Str) (c : Char) : Str := s.filter (fun x => x ≠ c)

/-- Go `strings.HasPrefix`. -/
def HasPrefix (s p : Str) : Bool := p.isPrefixOf s

/-- Go `strings.HasSuffix`. -/
def HasSuffix (s p : Str) : Bool := p.isSuffixOf s

/-- Go `strings.Index`: the first index at which `sub` occurs in `s`. -/
def Index : Str → Str → Option Nat
  | [], sub => if sub = [] then some 0 else none
  | c :: rest, sub =>
    if sub.isPrefixOf (c :: rest) then some 0 else (Index rest sub).map (· + 1)

/-- Go `strings.Contains`. -/
def Contains (s sub : Str) : Bool := (Index s sub).isSome

/-- Go `strings.TrimLeft(s, c)` for a one-character cutset. -/
def TrimLeft (s : Str) (c : Char) : Str := s.dropWhile (· == c)

end strings

namespace validation

/-- What package validation takes from outside the repository: whether
`decimal.NewFromString`, `strconv.ParseFloat`, `time.Parse(RFC3339, ·)` and
`regexp.Compile` accept a text, `Regexp.MatchString` for a compiled pattern, and
the verdict of the decimal, float, time and enum checks on a value. -/
structure External where
  parseDecimal : Str → Bool
  parseFloat : Str → Bool
  parseTime : Str → Bool
  regexCompile : Str → Bool
  regexMatch : Str → Str → Bool
  decimalInRange : Option Str → Option Str → reflect.Value → Option (Option errx.impl)
  floatInRange : Option Str → Option Str → reflect.Value → Option (Option errx.impl)
  timeInRange : Option Str → Option Str → reflect.Value → Option (Option errx.impl)
  enumContains : reflect.Value → Option (Option errx.impl)

/-- Go `validation.Rule`; a compiled pattern is carried by its source. -/
inductive Rule where
  | mk (Required : Option Bool) (Label : Option Str) (Min : Option Str) (Max : Option Str)
      (Pattern : Option Str) (Dive : Option Rule) (MapKey : Option Rule)

/-- The zero value `Rule{}`. -/
def Rule.zero : Rule := .mk none none none none none none none

def Rule.Required : Rule → Option Bool
  | .mk r _ _ _ _ _ _ => r
def Rule.Label : Rule → Option Str
  | .mk _ l _ _ _ _ _ => l
def Rule.Min : Rule → Option Str
  | .mk _ _ m _ _ _ _ => m
def Rule.Max : Rule → Option Str
  | .mk _ _ _ m _ _ _ => m
def Rule.Pattern : Rule → Option Str
  | .mk _ _ _ _ p _ _ => p
def Rule.Dive : Rule → Option Rule
  | .mk _ _ _ _ _ d _ => d
def Rule.MapKey : Rule → Option Rule
  | .mk _ _ _ _ _ _ k => k

def Rule.SetRequired : Rule → Bool → Rule
  | .mk _ l mn mx p d k, required => .mk (some required) l mn mx p d k
def Rule.SetLabel : Rule → Str → Rule
  | .mk r _ mn mx p d k, label => .mk r (some label) mn mx p d k
def Rule.SetMin : Rule → Str → Rule
  | .mk r l _ mx p d k, min => .mk r l (some min) mx p d k
def Rule.SetMax : Rule → Str → Rule
  | .mk r l mn _ p d k, max => .mk r l mn (some max) p d k
def Rule.SetPattern : Rule → Str → Rule
  | .mk r l mn mx _ d k, pattern => .mk r l mn mx (some pattern) d k
def Rule.SetDive : Rule → Rule → Rule
  | .mk r l mn mx p _ k, dive => .mk r l mn mx p (some dive) k
def Rule.SetMapKey : Rule → Rule → Rule
  | .mk r l mn mx p d _, mapKey => .mk r l mn mx p d (some mapKey)

/-- The length of the run of `[a-z]` at the head of a string. -/
def lowerRun (s : Str) : Nat := (s.takeWhile Char.isLower).length

/-- Go `re1.MatchString` for `^[a-z]+$`. -/
def re1.MatchString (s : Str) : Bool := s ≠ [] && s.all Char.isLower

/-- Go `re2.FindStringIndex` for `^[a-z]+,`: the end of the match. -/
def re2.FindStringIndex (s : Str) : Option Nat :=
  if 0 < lowerRun s ∧ s.get? (lowerRun s) = some ',' then some (lowerRun s + 1) else none

/-- The index of the last occurrence of `c` in `s`. -/
def lastIndexOf (c : Char) : Str → Option Nat
  | [] => none
  | x :: rest =>
    match lastIndexOf c rest with
    | some i => some (i + 1)
    | none => if x = c then some 0 else none

/-- Go `re3.FindStringSubmatchIndex` for `^([a-z]+)='(.+)'(?:,[a-z]+)?`: the
indices `idxs[3]`, `idxs[4]`, `idxs[5]` (end of the key, start and end of the
value). The greedy `.+` runs to the last `'` of the first line. -/
def re3.FindStringSubmatchIndex (s : Str) : Option (Nat × Nat × Nat) :=
  if 0 < lowerRun s ∧ s.get? (lowerRun s) = some '=' ∧ s.get? (lowerRun s + 1) = some '\'' then
    match lastIndexOf '\'' ((s.drop (lowerRun s + 2)).takeWhile (fun c => c ≠ '\n')) with
    | some j => if 1 ≤ j then some (lowerRun s, lowerRun s + 2, lowerRun s + 2 + j) else none
    | none => none
  else none

/-- Go `re4.FindStringSubmatch` for `^([a-z]+)=(.+)$`: key and value. -/
def re4.FindStringSubmatch (s : Str) : Option (Str × Str) :=
  if 0 < lowerRun s ∧ s.get? (lowerRun s) = some '=' ∧ s.drop (lowerRun s + 1) ≠ []
      ∧ (s.drop (lowerRun s + 1)).all (fun c => c ≠ '\n') then
    some (s.take (lowerRun s), s.drop (lowerRun s + 1))
  else none

/-- Go `re4Option.FindStringIndex` for `,([a-z]+)`: the start of the match. -/
def re4Option.FindStringIndex : Str → Option Nat
  | [] => none
  | [_] => none
  | c :: d :: rest =>
    if c = ',' ∧ d.isLower then some 0
    else (re4Option.FindStringIndex (d :: rest)).map (· + 1)

/-- The first block of the loop body of `Rule.Parse`: key, value and remaining
text, before the `keys` adjustment; `none` is the `unknown key` error. -/
def Rule.Parse.token (waiting : Str) : Option (Str × Str × Str) :=
  if re1.MatchString waiting then some (waiting, [], [])
  else
    match re2.FindStringIndex waiting with
    | some e => some (waiting.take (e - 1), [], waiting.drop e)
    | none =>
      match re3.FindStringSubmatchIndex waiting with
      | some (i3, i4, i5) =>
        some (waiting.take i3, (waiting.drop i4).take (i5 - i4),
          strings.TrimLeft (waiting.drop (i5 + 1)) ',')
      | none =>
        match re4.FindStringSubmatch waiting with
        | some (key, value) =>
          match re4Option.FindStringIndex value with
          | some commaIdx => some (key, value.take commaIdx, value.drop (commaIdx + 1))
          | none => some (key, value, [])
        | none => none

/-- The `keys` adjustment of `Rule.Parse`: value and remaining text. -/
def Rule.Parse.keys (key value waiting : Str) : Str × Str :=
  if key = "keys".toList then
    match strings.Index waiting ",endkeys".toList with
    | none => (waiting, [])
    | some idx => (waiting.take idx, strings.TrimLeft (waiting.drop (idx + 8)) ',')
  else (value, waiting)

/-- The loop of Go `(*Rule).Parse` on the text still to parse, bounded by a
step count; the outer `none` is the bound running out. -/
def Rule.Parse.loop (ext : External) : Nat → Str → Rule → Str → Option (Except errx.impl Rule)
  | 0, _, _, _ => none
  | fuel + 1, tag, o, waiting =>
    if waiting = [] then some (.ok o)
    else
      match Rule.Parse.token waiting with
      | none =>
        some (.error (errx.New ("Invalid validate tag:".toList ++ tag
          ++ ", unknown key:".toList ++ waiting)))
      | some (key, value0, waiting0) =>
        let value := (Rule.Parse.keys key value0 waiting0).1
        let waiting := (Rule.Parse.keys key value0 waiting0).2
        if key = "required".toList then
          if value = [] ∨ value = "true".toList then
            Rule.Parse.loop ext fuel tag (o.SetRequired true) waiting
          else if value = "false".toList then
            Rule.Parse.loop ext fuel tag (o.SetRequired false) waiting
          else Rule.Parse.loop ext fuel tag o waiting
        else if key = "label".toList then Rule.Parse.loop ext fuel tag (o.SetLabel value) waiting
        else if key = "min".toList then Rule.Parse.loop ext fuel tag (o.SetMin value) waiting
        else if key = "max".toList then Rule.Parse.loop ext fuel tag (o.SetMax value) waiting
        else if key = "pattern".toList then
          if ext.regexCompile value then
            Rule.Parse.loop ext fuel tag (o.SetPattern value) waiting
          else
            some (.error (errx.New ("Invalid validate tag:".toList ++ tag
              ++ ", pattern:".toList ++ value)))
        else if key = "dive".toList then
          if waiting ≠ [] then
            match Rule.Parse.loop ext fuel waiting Rule.zero (strings.removeAll waiting ' ') with
            | none => none
            | some (.error err) => some (.error err)
            | some (.ok r) => some (.ok (o.SetDive r))
          else some (.ok (o.SetDive Rule.zero))
        else if key = "keys".toList then
          match Rule.Parse.loop ext fuel value Rule.zero (strings.removeAll value ' ') with
          | none => none
          | some (.error err) => some (.error err)
          | some (.ok r) => Rule.Parse.loop ext fuel tag (o.SetMapKey r) waiting
        else
          some (.error (errx.New ("Invalid validate tag:".toList ++ tag
            ++ ", unknown key:".toList ++ key)))

/-- Go `(*Rule).Parse`: the rule after parsing, or the error. The step bound
is one more than the length of the tag, each pass of the loop consuming text. -/
def Rule.Parse (ext : External) (o : Rule) (tag : Str) : Option (Except errx.impl Rule) :=
  Rule.Parse.loop ext (tag.length + 1) tag o (strings.removeAll tag ' ')

end validation

/-! ## package validation : validators and their builders -/

namespace validation

open reflect

/-- A `validation.Validator` closure, by the builder that made it and the
values it captured. -/
inductive Validator where
  | validatable
  | intRange (min max : Option Int)
  | decimalRange (min max : Option Str)
  | floatRange (min max : Option Str)
  | timeRange (min max : Option Str)
  | lengthRange (min max : Option Int)
  | pattern (src : Str)
  | enum
  deriving DecidableEq

/-- The message of a failed range check with bounds `mn` and `mx`. -/
def rangeMsg (what : Str) (mn mx : Option Int) : Str :=
  match mn, mx with
  | some a, some b =>
    what ++ " must be greater than or equal to ".toList ++ strconv.Itoa a
      ++ " and less than or equal to ".toList ++ strconv.Itoa b ++ ".".toList
  | some a, none => what ++ " must be greater than or equal to ".toList ++ strconv.Itoa a ++ ".".toList
  | none, some b => what ++ " must be less than or equal to ".toList ++ strconv.Itoa b ++ ".".toList
  | none, none => []

/-- Whether `v` lies outside the bounds that are set. -/
def outside (mn mx : Option Int) (v : Int) : Bool :=
  (match mn with | some a => decide (v < a) | none => false)
    || (match mx with | some b => decide (v > b) | none => false)

/-- Running a validator on a value: `some none` is a nil error, `none` a
run-time abort. -/
def Validator.run (ext : External) : Validator → Value → Option (Option errx.impl)
  | .validatable, value =>
    match value with
    | .named _ (some r) _ => some r
    | _ => some (some (errx.New "value is not validatable".toList))
  | .intRange mn mx, value =>
    match value.Int with
    | none => none
    | some v =>
      if outside mn mx v then
        some (some (errx.Validation.WithMsg (rangeMsg "value".toList mn mx)).Err)
      else some none
  | .decimalRange mn mx, value => ext.decimalInRange mn mx value
  | .floatRange mn mx, value => ext.floatInRange mn mx value
  | .timeRange mn mx, value => ext.timeInRange mn mx value
  | .lengthRange mn mx, value =>
    match value.Len with
    | none => none
    | some l =>
      if outside mn mx (Int.ofNat l) then
        some (some (errx.Validation.WithMsg (rangeMsg "value length".toList mn mx)).Err)
      else some none
  | .pattern src, value =>
    match value.under with
    | .string s =>
      if ext.regexMatch src s then some none
      else some (some (errx.Validation.WithMsg "format error".toList).Err)
    | _ => some (some (errx.Validation.WithMsg "format error".toList).Err)
  | .enum, value => ext.enumContains value

/-- Go `intRangeValidatorBuilder`. -/
def intRangeValidatorBuilder (typ : RType) (rule : Rule) : Option Validator :=
  if typ.Kind.toNat < Kind.Int.toNat ∨ typ.Kind.toNat > Kind.Uint64.toNat then none
  else
    match rule.Min, rule.Max with
    | none, none => none
    | some mn, none =>
      match strconv.ParseInt mn with
      | none => none
      | some a => some (.intRange (some a) none)
    | none, some mx =>
      match strconv.ParseInt mx with
      | none => none
      | some b => some (.intRange none (some b))
    | some mn, some mx =>
      match strconv.ParseInt mn, strconv.ParseInt mx with
      | some a, some b => some (.intRange (some a) (some b))
      | _, _ => none

/-- A bound that an external parser accepts, dropped otherwise. -/
def keptBound (accepts : Str → Bool) (b : Option Str) : Option Str :=
  match b with
  | some s => if accepts s then some s else none
  | none => none

/-- Go `decimalRangeValidatorBuilder`. -/
def decimalRangeValidatorBuilder (ext : External) (typ : RType) (rule : Rule) :
    Option Validator :=
  if !typ.traits.decimal then none
  else
    match keptBound ext.parseDecimal rule.Min, keptBound ext.parseDecimal rule.Max with
    | none, none => none
    | mn, mx => some (.decimalRange mn mx)

/-- Go `floatRangeValidatorBuilder`. -/
def floatRangeValidatorBuilder (ext : External) (typ : RType) (rule : Rule) :
    Option Validator :=
  if typ.Kind ≠ Kind.Float32 ∧ typ.Kind ≠ Kind.Float64 then none
  else if (match rule.Min with | some s => !ext.parseFloat s | none => false) then none
  else if (match rule.Max with | some s => !ext.parseFloat s | none => false) then none
  else
    match rule.Min, rule.Max with
    | none, none => none
    | mn, mx => some (.floatRange mn mx)

/-- Go `timeRangeValidatorBuilder`. -/
def timeRangeValidatorBuilder (ext : External) (typ : RType) (rule : Rule) : Option Validator :=
  if !typ.traits.time then none
  else
    match keptBound ext.parseTime rule.Min, keptBound ext.parseTime rule.Max with
    | none, none => none
    | mn, mx => some (.timeRange mn mx)

/-- Go `lengthRangeValidatorBuilder`. -/
def lengthRangeValidatorBuilder (typ : RType) (rule : Rule) : Option Validator :=
  if typ.Kind ≠ Kind.String ∧ typ.Kind ≠ Kind.Slice ∧ typ.Kind ≠ Kind.Array
      ∧ typ.Kind ≠ Kind.Map then none
  else
    match rule.Min, rule.Max with
    | none, none => none
    | some mn, none =>
      match strconv.Atoi mn with
      | none => none
      | some a => some (.lengthRange (some a) none)
    | none, some mx =>
      match strconv.Atoi mx with
      | none => none
      | some b => some (.lengthRange none (some b))
    | some mn, some mx =>
      match strconv.Atoi mn, strconv.Atoi mx with
      | some a, some b => some (.lengthRange (some a) (some b))
      | _, _ => none

/-- Go `patternValidatorBuilder`. -/
def patternValidatorBuilder (typ : RType) (rule : Rule) : Option Validator :=
  if typ.Kind ≠ Kind.String then none
  else
    match rule.Pattern with
    | none => none
    | some src => some (.pattern src)

/-- Go `enumValidatorBuilder`. -/
def enumValidatorBuilder (typ : RType) (_rule : Rule) : Option Validator :=
  if !typ.traits.enum then none else some .enum

/-- The validators that `defaultValidatorBuilders` yield for a type and rule,
in the order of the builders. -/
def defaultValidators (ext : External) (typ : RType) (rule : Rule) : List Validator :=
  [intRangeValidatorBuilder typ rule, decimalRangeValidatorBuilder ext typ rule,
    floatRangeValidatorBuilder ext typ rule, timeRangeValidatorBuilder ext typ rule,
    lengthRangeValidatorBuilder typ rule, patternValidatorBuilder typ rule,
    enumValidatorBuilder typ rule].filterMap id

end validation

/-! ## package validation : configurations -/

namespace validation

open reflect

/-- Go `validation.Config`. `mapKey` and `mapValue` are the two fields of
`mapConfig`, which is nil exactly when both are; `structFieldsConfig` is nil
exactly when it is empty; a field entry is `(Index, Config)`. -/
inductive Config where
  | mk (required : Bool) (label : Str) (mapKey : Option Config) (mapValue : Option Config)
      (arrayConfig : Option Config) (structFieldsConfig : List (Nat × Config))
      (validators : List Validator)

def Config.required : Config → Bool
  | .mk r _ _ _ _ _ _ => r
def Config.label : Config → Str
  | .mk _ l _ _ _ _ _ => l
def Config.mapKey : Config → Option Config
  | .mk _ _ k _ _ _ _ => k
def Config.mapValue : Config → Option Config
  | .mk _ _ _ v _ _ _ => v
def Config.arrayConfig : Config → Option Config
  | .mk _ _ _ _ a _ _ => a
def Config.structFieldsConfig : Config → List (Nat × Config)
  | .mk _ _ _ _ _ s _ => s
def Config.validators : Config → List Validator
  | .mk _ _ _ _ _ _ v => v

/-- Go `(*Config).hasValidators`. -/
def Config.hasValidators (c : Config) : Bool :=
  !c.validators.isEmpty || (c.mapKey.isSome || c.mapValue.isSome) || c.arrayConfig.isSome
    || !c.structFieldsConfig.isEmpty

/-- A result of configuration building: `none` is the step bound of tag parsing
running out, `.error` the Go error, `.ok none` the Go `(nil, false, nil)`. -/
abbrev Built (α : Type) := Option (Except errx.impl α)

/-- The deferred function of `CreateConfig`: a configuration that is neither
required nor has validators is dropped. -/
def CreateConfig.finish (r : Built Config) : Built (Option Config) :=
  match r with
  | none => none
  | some (.error err) => some (.error err)
  | some (.ok res) =>
    if !res.required && !res.hasValidators then some (.ok none) else some (.ok (some res))

/-- The rank of a label tag in `sortedTags`. -/
def tagRank (tag : Str) : Nat :=
  if tag = "query".toList then 0 else if tag = "path".toList then 1
  else if tag = "header".toList then 2 else if tag = "env".toList then 3
  else if tag = "json".toList then 4 else if tag = "form".toList then 5 else 99999

/-- The label tags in the order of their ranks (`sort.Slice` in
`CreateStructConfig`; tags of equal rank keep the order given). -/
def sortTags : List Str → List Str
  | [] => []
  | t :: rest => (sortTags rest).takeWhile (fun u => tagRank u < tagRank t) ++ t ::
      (sortTags rest).dropWhile (fun u => tagRank u < tagRank t)

/-- The scan of `CreateStructConfig` over the tags of one field: the first tag
whose field configuration is an error or is present decides. -/
def firstConfigured : List (Built (Option Config)) → Built (Option Config)
  | [] => some (.ok none)
  | none :: _ => none
  | some (.error err) :: _ => some (.error err)
  | some (.ok (some c)) :: _ => some (.ok (some c))
  | some (.ok none) :: rest => firstConfigured rest

/-- The label and requiredness that `CreateStructFieldConfig` takes from the
label tag before it parses the validate tag. -/
def labelRule (lTag : Str) : Rule :=
  if lTag ≠ [] then
    if strings.HasSuffix lTag ",omitempty".toList then
      if lTag.length - 10 > 0 then
        (Rule.zero.SetRequired false).SetLabel (lTag.take (lTag.length - 10))
      else Rule.zero.SetRequired false
    else Rule.zero.SetLabel lTag
  else Rule.zero

mutual
/-- Go `validation.CreateConfig`, with no custom validator builder registered.
Composite kinds are given by their own constructors of `RType`. -/
def CreateConfig (ext : External) :
    RType → Rule → Bool → List Str → Built (Option Config)
  | .ptr elem, rule, alwaysValidate, labelTags =>
    CreateConfig ext elem rule alwaysValidate labelTags
  | .basic kind name traits, rule, _, _ =>
    CreateConfig.finish
      (if traits.validatable then
        some (.ok (.mk (rule.Required.getD true) (rule.Label.getD []) none none none []
          [Validator.validatable]))
      else
        some (.ok (.mk (rule.Required.getD true) (rule.Label.getD []) none none none []
          (defaultValidators ext (.basic kind name traits) rule))))
  | .struct name traits fields, rule, alwaysValidate, labelTags =>
    CreateConfig.finish
      (if traits.validatable then
        some (.ok (.mk (rule.Required.getD true) (rule.Label.getD []) none none none []
          [Validator.validatable]))
      else
        match CreateStructConfig.fields ext fields 0 alwaysValidate labelTags with
        | none => none
        | some (.error err) => some (.error err)
        | some (.ok fs) =>
          some (.ok (.mk (rule.Required.getD true) (rule.Label.getD []) none none none fs
            (defaultValidators ext (.struct name traits fields) rule))))
  | .slice elem, rule, alwaysValidate, labelTags =>
    CreateConfig.finish
      (match CreateConfig ext elem (rule.Dive.getD Rule.zero) alwaysValidate labelTags with
        | none => none
        | some (.error err) => some (.error err)
        | some (.ok ac) =>
          some (.ok (.mk (rule.Required.getD true) (rule.Label.getD []) none none ac []
            (defaultValidators ext (.slice elem) rule))))
  | .array elem, rule, alwaysValidate, labelTags =>
    CreateConfig.finish
      (match CreateConfig ext elem (rule.Dive.getD Rule.zero) alwaysValidate labelTags with
        | none => none
        | some (.error err) => some (.error err)
        | some (.ok ac) =>
          some (.ok (.mk (rule.Required.getD true) (rule.Label.getD []) none none ac []
            (defaultValidators ext (.array elem) rule))))
  | .map key elem, rule, alwaysValidate, labelTags =>
    CreateConfig.finish
      (match CreateConfig ext key (rule.MapKey.getD Rule.zero) alwaysValidate labelTags with
        | none => none
        | some (.error err) => some (.error err)
        | some (.ok kc) =>
          match CreateConfig ext elem (rule.Dive.getD Rule.zero) alwaysValidate labelTags with
          | none => none
          | some (.error err) => some (.error err)
          | some (.ok vc) =>
            some (.ok (.mk (rule.Required.getD true) (rule.Label.getD []) kc vc none []
              (defaultValidators ext (.map key elem) rule))))
/-- The loop of Go `CreateStructConfig` over the fields from index `i` on. -/
def CreateStructConfig.fields (ext : External) :
    List StructField → Nat → Bool → List Str → Built (List (Nat × Config))
  | [], _, _, _ => some (.ok [])
  | field :: rest, i, alwaysValidate, labelTags =>
    match
      (if labelTags = [] then CreateStructFieldConfig ext field alwaysValidate []
       else firstConfigured
        ((sortTags labelTags).map (fun tag => CreateStructFieldConfig ext field alwaysValidate tag)))
    with
    | none => none
    | some (.error err) => some (.error err)
    | some (.ok fc) =>
      match CreateStructConfig.fields ext rest (i + 1) alwaysValidate labelTags with
      | none => none
      | some (.error err) => some (.error err)
      | some (.ok more) =>
        match fc with
        | some c => some (.ok ((i, c) :: more))
        | none => some (.ok more)
/-- Go `CreateStructFieldConfig`. -/
def CreateStructFieldConfig (ext : External) :
    StructField → Bool → Str → Built (Option Config)
  | .mk Name exported Anonymous Tag typ, alwaysValidate, labelTag =>
    if !exported then some (.ok none)
    else if (TagGet Tag "validate".toList).head? = some '-'
        ∨ strings.HasPrefix (TagGet Tag "validate".toList) "ignore".toList
        ∨ (if labelTag ≠ [] then TagGet Tag labelTag else []).head? = some '-' then
      some (.ok none)
    else if Anonymous then
      match typ with
      | .struct _ _ fields =>
        match CreateStructConfig.fields ext fields 0 alwaysValidate
            (if labelTag ≠ [] then [Name] else []) with
        | none => none
        | some (.error err) => some (.error err)
        | some (.ok fs) =>
          if fs.isEmpty then some (.ok none)
          else some (.ok (some (.mk false [] none none none fs [])))
      | other => some (.error (errx.New (other.Name ++ " is not a struct".toList)))
    else if !alwaysValidate ∧ TagGet Tag "validate".toList = []
        ∧ (if labelTag ≠ [] then TagGet Tag labelTag else []) = [] then
      some (.ok none)
    else
      match
        (if TagGet Tag "validate".toList ≠ [] then
          Rule.Parse ext (labelRule (if labelTag ≠ [] then TagGet Tag labelTag else []))
            (TagGet Tag "validate".toList)
         else some (.ok (labelRule (if labelTag ≠ [] then TagGet Tag labelTag else []))))
      with
      | none => none
      | some (.error err) => some (.error err)
      | some (.ok rule) =>
        CreateConfig ext typ (if rule.Label.isNone then rule.SetLabel Name else rule)
          alwaysValidate (if labelTag ≠ [] then [Name] else [])
end

/-- Go `CreateStructConfig`. -/
def CreateStructConfig (ext : External) (typ : RType) (alwaysValidate : Bool)
    (labelTags : List Str) : Built (List (Nat × Config)) :=
  match typ with
  | .struct _ _ fields => CreateStructConfig.fields ext fields 0 alwaysValidate labelTags
  | other => some (.error (errx.New (other.Name ++ " is not a struct".toList)))

end validation

/-! ## package validation : validating a value -/

namespace validation

open reflect

/-- Go `validation.isZero`. -/
def isZero (value : Value) : Bool :=
  match value with
  | .named (some z) _ _ => z
  | v => if v.Kind = Kind.Bool then false else v.IsZero

/-- Go `Value.IsNil`, on the kinds validation asks it of. -/
def IsNil : Value → Bool
  | .ptr e => e.isNone
  | .named _ _ v => IsNil v
  | _ => false

/-- Go `validation.dereference`. -/
def dereference : Value → Except errx.impl Value
  | .invalid => .error (errx.New "Value is not valid".toList)
  | .ptr none => .error (errx.New "Value is nil".toList)
  | .ptr (some v) => dereference v
  | .named z r v => if v.Kind = Kind.Ptr then dereference v else .ok (.named z r v)
  | v => .ok v

/-- A validation verdict: `some none` is a nil error, `none` a run-time abort. -/
abbrev Verdict := Option (Option errx.impl)

/-- The first verdict of a sequence of checks that is not a nil error. -/
def firstError {α : Type} (f : α → Verdict) : List α → Verdict
  | [] => some none
  | x :: rest =>
    match f x with
    | some none => firstError f rest
    | r => r

/-- The labels of `Validate`: the parent labels, followed by the label of the
configuration when it has one. -/
def labelsOf (label : Str) (parentLabels : List Str) : List Str :=
  if label ≠ [] then parentLabels ++ [label] else parentLabels

/-- The deferred function of `Validate`: an error is wrapped with the label
path when there is one. -/
def Validate.wrap (labels : List Str) (r : Verdict) : Verdict :=
  match r with
  | some (some err) =>
    if labels ≠ [] then
      some (some (err.AppendMsg
        ("Field '".toList ++ [ '.' ].intercalate labels ++ "'".toList)).Err)
    else some (some err)
  | other => other

/-- The values of a list with their indices, from `i` on. -/
def indexed {α : Type} : Nat → List α → List (Nat × α)
  | _, [] => []
  | i, x :: rest => (i, x) :: indexed (i + 1) rest

/-- The validators of a configuration, run in order. -/
def runAll (ext : External) (validators : List Validator) (value : Value) : Verdict :=
  firstError (fun v => Validator.run ext v value) validators

/-- The body of Go `(*Config).Validate` for a configuration with the given
`required`, `label` and `hasValidators()`, whose `runValidators` is `run`. -/
def Validate.body (required : Bool) (label : Str) (hasValidators : Bool)
    (run : Value → List Str → Verdict) (value : Value) (parentLabels : List Str) : Verdict :=
  Validate.wrap (labelsOf label parentLabels)
    (match value with
     | .invalid => some (some (errx.New "value is not valid".toList))
     | v =>
       if v.Kind = Kind.Ptr then
         if IsNil v then
           if required then
             some (some (errx.Validation.WithMsg "value is required".toList).Err)
           else some none
         else
           match dereference v with
           | .error err => some (some err)
           | .ok v1 => run v1 (labelsOf label parentLabels)
       else if required then
         if hasValidators then run v (labelsOf label parentLabels)
         else if isZero v then
           some (some (errx.Validation.WithMsg "value is required".toList).Err)
         else some none
       else if isZero v then some none
       else run v (labelsOf label parentLabels))

/-- A nested call `conf.Validate(value, labels...)`. -/
abbrev Check := Value → List Str → Verdict

/-- The body of Go `(*Config).runValidators` for a configuration with the given
validators, in which `keyCheck`, `valueCheck` and `elemCheck` are `Validate` of
`mapConfig.KeyConfig`, `mapConfig.ValueConfig` and `arrayConfig` (none for a
nil configuration) and `fieldsCheck` is the loop over `structFieldsConfig`.
Map entries are visited in the order given. -/
def runValidators.body (ext : External) (validators : List Validator)
    (keyCheck valueCheck elemCheck : Option Check) (fieldsCheck : List Value → List Str → Verdict)
    (value : Value) (labels : List Str) : Verdict :=
  match runAll ext validators value with
  | some none =>
    match
      (if (keyCheck.isSome || valueCheck.isSome) && value.Kind = Kind.Map then
        match value.under with
        | .map (some entries) =>
          firstError (fun (kv : Value × Value) =>
            match dereference kv.1 with
            | .error e => some (some e)
            | .ok k =>
              match
                (match keyCheck with
                 | some validate => validate kv.1 (labels ++ [k.Sprint])
                 | none => some none) with
              | some none =>
                (match valueCheck with
                 | some validate => validate kv.2 (labels ++ [k.Sprint])
                 | none => some none)
              | r => r) entries
        | _ => some none
       else some none) with
    | some none =>
      match
        (match elemCheck with
         | some validate =>
           if value.Kind = Kind.Slice ∨ value.Kind = Kind.Array then
             match value.under with
             | .slice (some elems) =>
               firstError (fun (iv : Nat × Value) =>
                 validate iv.2 (labels ++ [strconv.Itoa (Int.ofNat iv.1)])) (indexed 0 elems)
             | .array elems =>
               firstError (fun (iv : Nat × Value) =>
                 validate iv.2 (labels ++ [strconv.Itoa (Int.ofNat iv.1)])) (indexed 0 elems)
             | _ => some none
           else some none
         | none => some none) with
      | some none =>
        if value.Kind = Kind.Struct then
          match value.under with
          | .struct fields => fieldsCheck fields labels
          | _ => some none
        else some none
      | r => r
    | r => r
  | r => r

mutual
/-- Go `(*Config).runValidators`. -/
def Config.runValidators (ext : External) : Config → Value → List Str → Verdict
  | .mk _ _ mapKey mapValue arrayConfig structFieldsConfig validators =>
    runValidators.body ext validators (Config.check ext mapKey) (Config.check ext mapValue)
      (Config.check ext arrayConfig) (Config.validateFields ext structFieldsConfig)
/-- Go `(*Config).Validate` of a configuration nested in another one, none for
a nil configuration. -/
def Config.check (ext : External) : Option Config → Option Check
  | none => none
  | some conf =>
    some (Validate.body conf.required conf.label conf.hasValidators
      (Config.runValidators ext conf))
/-- The loop of `runValidators` over `structFieldsConfig`. -/
def Config.validateFields (ext : External) :
    List (Nat × Config) → List Value → List Str → Verdict
  | [], _, _ => some none
  | (index, conf) :: rest, fields, labels =>
    match fields.get? index with
    | none =>
      some (some (errx.New ("invalid struct field index: ".toList
        ++ strconv.Itoa (Int.ofNat index))))
    | some field =>
      match Validate.body conf.required conf.label conf.hasValidators
          (Config.runValidators ext conf) field labels with
      | some none => Config.validateFields ext rest fields labels
      | r => r
end

/-- Go `(*Config).Validate`. -/
def Config.Validate (ext : External) (c : Config) (value : Value) (parentLabels : List Str) :
    Verdict :=
  Validate.body c.required c.label c.hasValidators (c.runValidators ext) value parentLabels

end validation

/-! ## package validation : the cached entry point -/

namespace validation

open reflect

/-- Go `validation.options`; the label tags are a set, kept as a list. -/
structure options where
  alwaysValidate : Bool := false
  labelTags : List Str := []

/-- Go `AlwaysValidate`. -/
def AlwaysValidate (o : options) : options := { o with alwaysValidate := true }

/-- Go `WithLabelTag`. -/
def WithLabelTag (labelTag : Str) (o : options) : options :=
  if labelTag ∈ o.labelTags then o else { o with labelTags := o.labelTags ++ [labelTag] }

/-- The order of Go strings. -/
def strLess : Str → Str → Bool
  | _, [] => false
  | [], _ :: _ => true
  | a :: s, b :: t => a.toNat < b.toNat || (a = b && strLess s t)

/-- Go `sort.Strings`. -/
def sortStrings : List Str → List Str
  | [] => []
  | t :: rest => (sortStrings rest).takeWhile (fun u => strLess u t) ++ t ::
      (sortStrings rest).dropWhile (fun u => strLess u t)

/-- The type under the pointers (the loop `for typ.Kind() == reflect.Ptr`). -/
def elemType : RType → RType
  | .ptr elem => elemType elem
  | typ => typ

/-- The cache key of `getOrCreateConfig`. -/
def cacheKey (typ : RType) (o : options) : Str :=
  if o.labelTags ≠ [] then
    (elemType typ).Kind.name ++ ".".toList ++ (elemType typ).Name ++ ".".toList
      ++ [ '_' ].intercalate (sortStrings o.labelTags) ++ ".".toList
      ++ (if o.alwaysValidate then "true".toList else "false".toList)
  else
    (elemType typ).Kind.name ++ ".".toList ++ (elemType typ).Name ++ ".".toList
      ++ (if o.alwaysValidate then "true".toList else "false".toList)

/-- The options after every option function has been applied. -/
def applyOptions (opts : List (options → options)) : options :=
  opts.foldl (fun (o : options) (opt : options → options) => opt o) {}

/-- Go `getOrCreateConfig` on the cache `cachedConfig`: the configuration (or
none), or the error. An entry of the cache is `some none` for a stored nil. -/
def getOrCreateConfig (ext : External) (cachedConfig : Str → Option (Option Config))
    (typ : RType) (opts : List (options → options)) : Built (Option Config) :=
  match cachedConfig (cacheKey typ (applyOptions opts)) with
  | some res => some (.ok res)
  | none =>
    CreateConfig ext (elemType typ) Rule.zero (applyOptions opts).alwaysValidate
      (applyOptions opts).labelTags

/-- Go `ValidateStructWithCache`; `typ` is the type of `value`. -/
def ValidateStructWithCache (ext : External) (cachedConfig : Str → Option (Option Config))
    (typ : RType) (value : Value) (opts : List (options → options)) : Verdict :=
  match getOrCreateConfig ext cachedConfig typ opts with
  | none => none
  | some (.error err) => some (some err)
  | some (.ok none) => some none
  | some (.ok (some c)) => c.Validate ext value []

end validation

namespace sample

open reflect validation

/-- Outside services that accept every bound and pattern and pass every value. -/
def external : External :=
  { parseDecimal := fun _ => true, parseFloat := fun _ => true, parseTime := fun _ => true,
    regexCompile := fun _ => true, regexMatch := fun _ _ => true,
    decimalInRange := fun _ _ _ => some none, floatInRange := fun _ _ _ => some none,
    timeInRange := fun _ _ _ => some none, enumContains := fun _ => some none }

/-- An empty configuration cache. -/
def emptyCache : Str → Option (Option Config) := fun _ => none

def stringType : RType := .basic .String "string".toList {}
def intType : RType := .basic .Int "int".toList {}
def uintType : RType := .basic .Uint "uint".toList {}
def boolType : RType := .basic .Bool "bool".toList {}

/-- The type `time.Time`: three unexported fields, an `IsZero` method. -/
def timeType : RType :=
  .struct "Time".toList { zeroChecker := true, time := true }
    [.mk "wall".toList false false [] (.basic .Uint64 "uint64".toList {}),
     .mk "ext".toList false false [] (.basic .Int64 "int64".toList {}),
     .mk "loc".toList false false [] (.ptr (.struct "Location".toList {} []))]

/-- The value `time.Time{}`. -/
def zeroTime : Value :=
  .named (some true) none (.struct [.uint .Uint64 0, .int .Int64 0, .ptr none])

/-- A field tagged with a validate tag and a json tag. -/
def field (name : String) (vTag : String) (json : String) (typ : RType) : StructField :=
  .mk name.toList true false
    [("validate".toList, vTag.toList), ("json".toList, json.toList)] typ

/-- The test type `Address`. -/
def Address : RType :=
  .struct "Address".toList {}
    [field "Street" "required" "street" stringType, field "City" "required" "city" stringType]

/-- The test type `UserWithAddress`. -/
def UserWithAddress : RType :=
  .struct "UserWithAddress".toList {}
    [field "Name" "required" "name" stringType, field "Address" "dive" "address" Address]

/-- The value `&UserWithAddress{Name: "Zhang", Address: Address{}}`. -/
def userWithEmptyAddress : Value :=
  .ptr (some (.struct [.string "Zhang".toList, .struct [.string [], .string []]]))

/-- The test type `TimeTest`. -/
def TimeTest : RType :=
  .struct "TimeTest".toList {}
    [field "StartTime" "required" "start_time" timeType,
     field "EndTime" "required" "end_time" timeType]

/-- A struct with one required bool field. -/
def FlagTest : RType :=
  .struct "FlagTest".toList {} [field "Flag" "required" "flag" boolType]

/-- The test type `SliceTest`. -/
def SliceTest : RType :=
  .struct "SliceTest".toList {} [field "Tags" "dive,required,min=2" "tags" (.slice stringType)]

/-- A struct whose slice elements carry a label of their own. -/
def ItemsTest : RType :=
  .struct "ItemsTest".toList {}
    [field "Tags" "dive,label=item,required" "tags" (.slice stringType)]

/-- The test type `Cfg`. -/
def Cfg : RType :=
  .struct "Cfg".toList {}
    [field "Settings" "dive,keys,required,endkeys,required" "settings"
      (.map stringType stringType)]

/-- A struct with one unsigned field bounded from below. -/
def CountTest : RType :=
  .struct "CountTest".toList {} [field "Count" "min=1" "count" uintType]

/-- The json option of the tests. -/
def json : List (options → options) := [WithLabelTag "json".toList]

end sample

namespace reflect

/-- Go `StructField.IsExported`. -/
def StructField.IsExported : StructField → Bool
  | .mk _ exported _ _ _ => exported

end reflect

namespace spec

open reflect

/-- Spec: a field type that contributes no validator of its own to a field
tagged `required`: a basic type that is neither `Validatable` nor an enum, a
struct type of that sort without exported fields (such as `time.Time`), or a
pointer to such a type. -/
def contributesNoValidator : RType → Bool
  | .basic _ _ t => !t.validatable && !t.enum
  | .struct _ t fields => !t.validatable && !t.enum && fields.all (fun f => !f.IsExported)
  | .ptr e => contributesNoValidator e
  | _ => false

/-- Spec: a struct type with the single field `name` of type `typ`, tagged
with the validate tag `vTag` and the json tag `label`. -/
def oneField (structName name vTag label : Str) (typ : RType) : RType :=
  .struct structName {} [.mk name true false [("validate".toList, vTag), ("json".toList, label)] typ]

end spec

namespace spec

/-- Spec: the validate tag of an integer field bounded by `min=a`, `max=b` or
both, behind `required,` when `required` is set. -/
def rangeTag (required : Bool) (mn mx : Option Int) : Str :=
  (if required then "required,".toList else [])
    ++ (match mn, mx with
        | some a, some b => "min=".toList ++ strconv.Itoa a ++ ",max=".toList ++ strconv.Itoa b
        | some a, none => "min=".toList ++ strconv.Itoa a
        | none, some b => "max=".toList ++ strconv.Itoa b
        | none, none => [])

end spec

namespace spec

open reflect validation

/-- Spec: a container under `dive`: a non-nil slice, or a non-nil map with
string keys together with the configuration of its keys (none when the keys
carry no rule). -/
inductive Container where
  | slice (elems : List Value)
  | map (keyConfig : Option Config) (entries : List (Str × Value))

/-- The value of a container. -/
def Container.value : Container → Value
  | .slice elems => .slice (some elems)
  | .map _ entries => .map (some (entries.map (fun kv => (Value.string kv.1, kv.2))))

/-- The elements of a container, each with the text of its index or key. -/
def Container.entries : Container → List (Str × Value)
  | .slice elems => (indexed 0 elems).map (fun iv => (strconv.Itoa (Int.ofNat iv.1), iv.2))
  | .map _ entries => entries

/-- The configuration of the keys of a container. -/
def Container.keyConfig : Container → Option Config
  | .slice _ => none
  | .map keyConfig _ => keyConfig

/-- The configuration of a container whose elements are validated by
`elemConfig`. -/
def Container.config (required : Bool) (label : Str) (validators : List Validator)
    (elemConfig : Config) : Container → Config
  | .slice _ => .mk required label none none (some elemConfig) [] validators
  | .map keyConfig _ => .mk required label keyConfig (some elemConfig) none [] validators

end spec

namespace sample

open reflect validation

/-- A struct whose field `Inner` holds a struct with a slice field. -/
def NestedTest : RType :=
  .struct "NestedTest".toList {}
    [field "Inner" "dive" "inner"
      (.struct "Inner".toList {} [field "Tags" "dive,required,min=2" "tags" (.slice stringType)])]

/-- The configuration of the elements of `Tags` in `SliceTest`: required, at
least two bytes long. -/
def tagConfig : Config := .mk true [] none none none [] [.lengthRange (some 2) none]

/-- The configuration of the keys and of the values of `Settings` in `Cfg`:
required. -/
def requiredConfig : Config := .mk true [] none none none [] []

end sample

/-! ## package rest/api : groups, routes and the path trie -/

namespace api

/-- Go `api.Method`, a string type. -/
abbrev Method := Str

/-- An `api.Endpoint`, by what `parseRoutes` and `resetTrie` read of it. -/
structure Endpoint where
  path : Option Str
  method : Method
  deriving DecidableEq

/-- An `api.Node`: an endpoint, or a group with its path and children. -/
inductive Node where
  | endpoint (e : Endpoint)
  | group (path : Option Str) (children : List Node)

/-- Go `api.route` (the fields read by the embedded code). -/
structure route where
  endpoint : Endpoint
  path : Str
  pathChain : List Str
  deriving DecidableEq

/-- The path chain of `parseRoutes` after the segments of a node's path. -/
def parseRoutes.chain (p : Option Str) (pathChain : List Str) : List Str :=
  match p with
  | some s =>
    if s ≠ [] then pathChain ++ (strings.Split s '/').filter (fun x => x ≠ []) else pathChain
  | none => pathChain

mutual
/-- Go `parseRoutes`: the routes under a node, in order. -/
def parseRoutes : Node → List Str → List route
  | .endpoint e, pathChain =>
    [{ endpoint := e,
       path := '/' :: strings.Join (parseRoutes.chain e.path pathChain) '/',
       pathChain := parseRoutes.chain e.path pathChain }]
  | .group p children, pathChain => parseRoutes.children children (parseRoutes.chain p pathChain)
/-- The loop of `parseRoutes` over the children of a group. -/
def parseRoutes.children : List Node → List Str → List route
  | [], _ => []
  | child :: rest, pathChain => parseRoutes child pathChain ++ parseRoutes.children rest pathChain
end

/-- Go `api.pathTrieNode` without its `children`, which the trie carries. -/
structure pathTrieNode where
  paramKey : Str
  route : Option route

/-- The nodes reachable from a root `*pathTrieNode`, each under the key path
that leads to it: `children[key]` of the node at `π` is the node at
`π ++ [key]`, absent when the map has no such key. -/
abbrev Trie := List Str → Option pathTrieNode

/-- The trie of a fresh root `&pathTrieNode{}`. -/
def Trie.root : Trie := fun π => if π = [] then some { paramKey := [], route := none } else none

/-- The trie with the node at `π` replaced or created. -/
def Trie.set (t : Trie) (π : List Str) (n : pathTrieNode) : Trie :=
  fun q => if q = π then some n else t q

/-- The key of a path segment in `resetTrie`: `$` for a segment that starts
with `{`. -/
def resetTrie.key (p : Str) : Str := if strings.HasPrefix p "\x7b".toList then "$".toList else p

/-- The parameter name `p[1 : len(p)-1]` of a segment that starts with `{`,
empty for the other segments. -/
def resetTrie.paramKey (p : Str) : Str :=
  if strings.HasPrefix p "\x7b".toList then (p.drop 1).take (p.length - 2) else []

/-- The inner loop of `resetTrie` for the route `r`, from the node at `π` on,
and the final assignment of the route; `none` is an abort. -/
def resetTrie.insert (r : route) : List Str → List Str → Trie → Option Trie
  | [], π, t =>
    match t π with
    | some current =>
      if current.route.isSome then none else some (t.set π { current with route := some r })
    | none => none
  | p :: rest, π, t =>
    if p = [] then resetTrie.insert r rest π t
    else if strings.HasPrefix p "\x7b".toList ∧ p.length < 2 then none
    else
      match t (π ++ [resetTrie.key p]) with
      | none =>
        resetTrie.insert r rest (π ++ [resetTrie.key p])
          (t.set (π ++ [resetTrie.key p]) { paramKey := resetTrie.paramKey p, route := none })
      | some child =>
        if child.paramKey ≠ resetTrie.paramKey p then none
        else resetTrie.insert r rest (π ++ [resetTrie.key p]) t

/-- One pass of the outer loop of `resetTrie`: the route `r` enters the trie of
its method. -/
def resetTrie.add (methodTrie : Method → Option Trie) (r : route) :
    Option (Method → Option Trie) :=
  match resetTrie.insert r r.pathChain [] ((methodTrie r.endpoint.method).getD Trie.root) with
  | none => none
  | some t => some (fun m => if m = r.endpoint.method then some t else methodTrie m)

/-- The outer loop of `resetTrie`. -/
def resetTrie.build : List route → (Method → Option Trie) → Option (Method → Option Trie)
  | [], methodTrie => some methodTrie
  | r :: rest, methodTrie =>
    match resetTrie.add methodTrie r with
    | none => none
    | some next => resetTrie.build rest next

/-- Go `api.group`. `routes` is kept in the order of `parseRoutes`; `sortRoutes`
reorders it and `Match` does not read it. -/
structure group where
  path : Option Str
  children : List Node
  methodTrie : Option (Method → Option Trie)
  routes : List route

/-- Go `(*group).resetTrie`; `none` is an abort. -/
def group.resetTrie (g : group) : Option group :=
  if g.children.isEmpty then some { g with methodTrie := none, routes := [] }
  else if (parseRoutes (.group g.path g.children) []).isEmpty then
    some { g with methodTrie := none, routes := [] }
  else
    match resetTrie.build (parseRoutes (.group g.path g.children) []) (fun _ => none) with
    | none => none
    | some methodTrie =>
      some { g with methodTrie := some methodTrie,
                    routes := parseRoutes (.group g.path g.children) [] }

/-- Go `NewGroup`. -/
def NewGroup : group := { path := none, children := [], methodTrie := none, routes := [] }

/-- Go `(*group).WithPath`. -/
def group.WithPath (g : group) (path : Str) : Option group :=
  group.resetTrie { g with path := some path }

/-- Go `(*group).WithChildren` (no child is nil). -/
def group.WithChildren (g : group) (children : List Node) : Option group :=
  group.resetTrie { g with children := g.children ++ children }

/-- Go `map[string]string` with one entry written. -/
def setParam (pathParams : Str → Option Str) (key value : Str) : Str → Option Str :=
  fun k => if k = key then some value else pathParams k

/-- The loop of Go `(*group).Match` over the path segments, from the node at
`π` on; the result is the matched route and its path parameters. -/
def Match.loop (t : Trie) : List Str → List Str → (Str → Option Str) →
    Option (route × (Str → Option Str))
  | [], π, pathParams =>
    match t π with
    | some currentNode => currentNode.route.map (fun r => (r, pathParams))
    | none => none
  | segment :: rest, π, pathParams =>
    if segment = [] then Match.loop t rest π pathParams
    else
      match t (π ++ [segment]) with
      | some _ => Match.loop t rest (π ++ [segment]) pathParams
      | none =>
        match t (π ++ ["$".toList]) with
        | some paramNode =>
          Match.loop t rest (π ++ ["$".toList]) (setParam pathParams paramNode.paramKey segment)
        | none =>
          match t (π ++ ["*".toList]) with
          | some wildcardNode => wildcardNode.route.map (fun r => (r, pathParams))
          | none => none

/-- Go `(*group).Match`. -/
def group.Match (g : group) (method : Method) (path : Str) :
    Option (route × (Str → Option Str)) :=
  match g.methodTrie with
  | none => none
  | some methodTrie =>
    match methodTrie method with
    | none => none
    | some t => Match.loop t (strings.Split path '/') [] (fun _ => none)

end api

namespace spec

/-- Spec: the request path obtained from a route's path chain by replacing
each segment `{name}` with the segment `σ name`. -/
def requestPath (pathChain : List Str) (σ : Str → Str) : Str :=
  '/' :: strings.Join
    (pathChain.map (fun p =>
      if strings.HasPrefix p "\x7b".toList then σ (api.resetTrie.paramKey p) else p)) '/'

end spec

namespace sample

open api

/-- The endpoint `GET profile`. -/
def profile : Node := .endpoint { path := some "profile".toList, method := "GET".toList }

/-- The endpoint `GET me`. -/
def me : Node := .endpoint { path := some "me".toList, method := "GET".toList }

/-- The group `/users` with the routes `GET /users/{id}/profile` and
`GET /users/me`. -/
def users : Option group :=
  (NewGroup.WithPath "/users".toList).bind (fun g =>
    g.WithChildren [.group (some "\x7bid\x7d".toList) [profile], me])

/-- The route `GET /users/{id}/profile` of `users`. -/
def profileRoute : route :=
  { endpoint := { path := some "profile".toList, method := "GET".toList },
    path := "/users/\x7bid\x7d/profile".toList,
    pathChain := ["users".toList, "\x7bid\x7d".toList, "profile".toList] }

end sample

namespace api

/-- The route `r` is held by the trie `t` along the segments `chain` from the
node at `π` on: every segment that is not empty leads to a child under its key
whose `paramKey` is the parameter name of the segment, and the last node
carries `r`. -/
def Trie.Holds (t : Trie) (r : route) : List Str → List Str → Prop
  | [], π => ∃ n, t π = some n ∧ n.route = some r
  | p :: rest, π =>
    if p = [] then Trie.Holds t r rest π
    else (∃ n, t (π ++ [resetTrie.key p]) = some n ∧ n.paramKey = resetTrie.paramKey p)
      ∧ Trie.Holds t r rest (π ++ [resetTrie.key p])

/-- Every node of `t` is a node of `t1` with the same `paramKey`, and with the
same route if it carries one. -/
def Trie.Extends (t1 t : Trie) : Prop :=
  ∀ π n, t π = some n →
    ∃ n1, t1 π = some n1 ∧ n1.paramKey = n.paramKey ∧ ∀ x, n.route = some x → n1.route = some x

/-- Every key on the way to a node of `t` satisfies `S`. -/
def Trie.KeysIn (t : Trie) (S : Str → Prop) : Prop :=
  ∀ π n, t π = some n → ∀ k ∈ π, S k

end api

namespace validation

open reflect

/-- The cache `cachedConfig` after a call of Go `getOrCreateConfig`: an entry
that exists stays, an error stores nothing, and otherwise `LoadOrStore` puts
the new configuration (nil when there is none) under the key. -/
def getOrCreateConfig.cache (ext : External) (cachedConfig : Str → Option (Option Config))
    (typ : RType) (opts : List (options → options)) : Str → Option (Option Config) :=
  match cachedConfig (cacheKey typ (applyOptions opts)) with
  | some _ => cachedConfig
  | none =>
    match CreateConfig ext (elemType typ) Rule.zero (applyOptions opts).alwaysValidate
        (applyOptions opts).labelTags with
    | some (.ok c) =>
      fun key => if key = cacheKey typ (applyOptions opts) then some c else cachedConfig key
    | _ => cachedConfig

end validation

namespace sample

open reflect validation

/-- Another type named `ZeroTest`, whose field `Age` is tagged `min=5`. -/
def ZeroTestMin5 : RType :=
  .struct "ZeroTest".toList {} [field "Age" "min=5" "age" intType]

/-- The cache after `ZeroTestMin5` has been validated with the json option. -/
def cacheAfterMin5 : Str → Option (Option Config) :=
  getOrCreateConfig.cache external emptyCache ZeroTestMin5 json

/-- Another type named `TimeTest`, without fields. -/
def TimeTestBare : RType := .struct "TimeTest".toList {} []

/-- The cache after `TimeTestBare` has been validated with the json option. -/
def cacheAfterBare : Str → Option (Option Config) :=
  getOrCreateConfig.cache external emptyCache TimeTestBare json

end sample

/-! # Theorems -/

namespace rpc

open http

/-! ## Discovery: `find` -/

theorem foldl_append_if {α : Type} (p : α → Prop) [DecidablePred p] (l init : List α) :
    l.foldl (fun acc x => if p x then acc ++ [x] else acc) init
      = init ++ l.filter (fun x => decide (p x)) := by
  induction l generalizing init with
  | nil => simp
  | cons x xs ih =>
    by_cases hx : p x
    · simp [List.foldl, ih, hx, List.filter]
    · simp [List.foldl, ih, hx, List.filter]

/-- C9. For every cache state, path and service-name filter: with a non-empty
filter `find` returns the instances stored under the path whose serviceName
equals the filter, in stored order, and reports found exactly when that list is
non-empty; with an empty filter it returns the whole stored list and reports
found exactly when the path is a key of the cache. -/
theorem find_filters_in_order (d : discover) (path serviceName : Str) :
    d.find path serviceName =
      if serviceName = [] then
        ((d.onlineServicesByPath path).getD [], (d.onlineServicesByPath path).isSome)
      else
        (((d.onlineServicesByPath path).getD []).filter
            (fun s => decide (s.serviceName = serviceName)),
          decide (((d.onlineServicesByPath path).getD []).filter
            (fun s => decide (s.serviceName = serviceName)) ≠ [])) := by
  unfold discover.find
  cases hm : d.onlineServicesByPath path with
  | none => by_cases hs : serviceName = [] <;> simp [hs]
  | some list =>
    by_cases hs : serviceName = []
    · simp [hs]
    · simp only [hs, ne_eq, not_false_eq_true, if_true, if_false, Option.getD_some]
      rw [foldl_append_if (fun s : onlineService => s.serviceName = serviceName)]
      simp [List.length_pos]

end rpc

namespace rpc

/-! ## URL resolution: `getURL` -/

theorem getURL_loop_eq (ns : Str) (l : List onlineService) :
    getURL.loop ns l
      = ((l.find? (fun s => decide (s.namespace_ = ns))).map spec.inClusterURL).getD [] := by
  induction l with
  | nil => rfl
  | cons s rest ih =>
    by_cases h : s.namespace_ = ns
    · simp [getURL.loop, h, List.find?, spec.inClusterURL]
    · simp [getURL.loop, h, List.find?, ih]

theorem inClusterURL_ne_nil (s : onlineService) : spec.inClusterURL s ≠ [] := by
  simp [spec.inClusterURL]

/-- C1. When discovery returns a non-empty candidate list for the descriptor's
path, `getURL` returns the in-cluster URL of the first candidate (in list
order) whose namespace equals the caller's configured namespace if there is
one at any position, and otherwise the cross-namespace URL of the first
candidate. -/
theorem getURL_prefers_same_namespace (d : discover) (config : Config) (o : options)
    (services : List onlineService)
    (hfind : d.find o.path o.serviceName = (services, true)) (hne : services ≠ []) :
    getURL d config o = some (.ok
      (match services.find? (fun s => decide (s.namespace_ = config.Namespace)) with
       | some s => spec.inClusterURL s
       | none => spec.crossNamespaceURL config.ServiceDomainSuffix (services.head hne))) := by
  unfold getURL
  rw [hfind]
  simp only [getURL_loop_eq]
  cases hf : services.find? (fun s => decide (s.namespace_ = config.Namespace)) with
  | some s => simp [inClusterURL_ne_nil]
  | none =>
    cases services with
    | nil => exact absurd rfl hne
    | cons s rest => simp [spec.crossNamespaceURL]

/-- C1, at the instance `{orders, orders/create, ns1, 28000}` with caller
namespace `ns1`: the URL is `http://orders:28000/orders/orders/create`; and with
an `ns2` instance listed first the `ns1` instance is still the one chosen. -/
theorem getURL_prefers_same_namespace_witness :
    getURL sample.cache sample.config sample.method
        = some (.ok "http://orders:28000/orders/orders/create".toList)
      ∧ getURL sample.cache2 sample.config sample.method
        = some (.ok "http://orders:28000/orders/orders/create".toList) :=
  ⟨(getURL_prefers_same_namespace sample.cache sample.config sample.method [sample.orders]
      (by decide) (by decide)).trans (by rfl),
   (getURL_prefers_same_namespace sample.cache2 sample.config sample.method
      [sample.ordersNs2, sample.orders] (by decide) (by decide)).trans (by rfl)⟩

end rpc

namespace rpc

/-! ## Discovery: a failed fetch during `reload` -/

/-- C2 (the code at a failed fetch). With `orders` cached, a reload whose
`etcd.Get` returned `(nil, err)` aborts on `res.Kvs`; and had the failed fetch
returned an empty non-nil response, the reload would replace the cache by the
empty map, so that `find` no longer returns `orders`. In neither case is the
previous cache retained. (A successful fetch of the pair published for `orders`
rebuilds the entry.) -/
theorem reload_failed_fetch_drops_cache :
    sample.cache.find "orders/create".toList [] = ([sample.orders], true)
      ∧ (reload sample.cache none (some "context deadline exceeded".toList)).isNone = true
      ∧ (reload sample.cache (some { Kvs := [] }) (some "context deadline exceeded".toList)).map
          (fun d => d.find "orders/create".toList []) = some ([], false)
      ∧ (reload { onlineServicesByPath := fun _ => none }
            (some { Kvs := [{ Key := "/rpc-services/orders/orders/create/pod-0".toList,
                              Value := "ns1,28000".toList }] }) none).map
          (fun d => d.find "orders/create".toList []) = some ([sample.orders], true) := by
  refine ⟨by decide, by rfl, by rfl, by decide⟩

/-! ## Port listener dispatch -/

/-- C3 (the code at a request that names its service). After `serve` attached
the handler of `orders` / `orders/create` under `/orders/orders/create`, a
request for that path with `rpc-service-name: orders` is looked up under
`orders//orders/orders/create` and answered 404 with nothing written by the
handler; the same request without the header reaches the handler. -/
theorem serveHTTP_named_request_is_404 :
    (serve sample.config { PodName := "pod-0".toList } (fun _ => { handlers := fun _ => none })
        sample.method (fun _ => sample.handler)).map
      (fun sv =>
        ((sv.srv.handlers "/orders/orders/create".toList).isSome,
          httpServer.ServeHTTP.key sample.requestNamed,
          sv.srv.ServeHTTP http.ResponseWriter.fresh sample.requestNamed,
          sv.srv.ServeHTTP http.ResponseWriter.fresh sample.request))
      = some (true, "orders//orders/orders/create".toList,
          { status := some 404, header := [], body := [] },
          { status := some 200, header := [], body := [1] }) := by
  decide

/-! ## Client call without a candidate -/

/-- C4 (the code at an unadvertised path). `getURL` and `call` return the error
built by `errx.Newf`, whose kind is `internal`, not `not_found`. -/
theorem getURL_missing_path_is_internal :
    getURL sample.cache sample.config sample.missing
        = some (.error { msg := "rpc service orders/cancel not found".toList, code := 0,
                         typ := errx.TypeInternal })
      ∧ (call sample.cache sample.config sample.net sample.errorDetailCodec sample.small
          sample.small sample.missing sample.ctx 3).1
        = some (.error { msg := "rpc service orders/cancel not found".toList, code := 0,
                         typ := errx.TypeInternal })
      ∧ errx.TypeInternal ≠ errx.TypeNotFound
      ∧ errx.NotFound.typ = errx.TypeNotFound := by
  refine ⟨by rfl, by rfl, by decide, by rfl⟩

/-- C5. When discovery has no candidate for the descriptor's path, `call`
returns no response and the error of `getURL`, having taken none of the later
steps: no request body encoded, no HTTP request built, none sent. -/
theorem call_without_candidate_stops_early {α β : Type} (d : discover) (config : Config)
    (net : Transport) (E : Codec ErrorDetail) (I : WireType α) (O : WireType β)
    (o : options) (ctx : ctxx.Metadata) (cmd : α)
    (h : (d.find o.path o.serviceName).2 = false) :
    call d config net E I O o ctx cmd
      = (some (.error (errx.New ("rpc service ".toList ++ o.path ++ " not found".toList))),
          []) := by
  have hg : getURL d config o
      = some (.error (errx.New ("rpc service ".toList ++ o.path ++ " not found".toList))) := by
    unfold getURL
    cases hf : d.find o.path o.serviceName with
    | mk l b =>
      rw [hf] at h
      simp only at h
      subst h
      rfl
  unfold call
  rw [hg]

/-- C5 at the unadvertised path `orders/cancel`. -/
theorem call_without_candidate_stops_early_witness :
    (sample.cache.find sample.missing.path sample.missing.serviceName).2 = false
      ∧ (call sample.cache sample.config sample.net sample.errorDetailCodec sample.small
          sample.small sample.missing sample.ctx 3).2 = [] :=
  ⟨by decide,
   by rw [call_without_candidate_stops_early sample.cache sample.config sample.net
        sample.errorDetailCodec sample.small sample.small sample.missing sample.ctx 3
        (by decide)]⟩

end rpc

namespace rpc

/-! ## Timeouts: server grace over the client -/

/-- C10 (as stated, at the largest duration). For the descriptor timeout
`math.MaxInt64` nanoseconds the client applies that timeout, while on the
server `timeout + 2s` wraps around to a negative value and dispatch applies no
deadline at all, so the server deadline is not the client's plus two seconds. -/
theorem timeout_grace_fails_at_max_duration :
    call.timeout 9223372036854775807 = some 9223372036854775807
      ∧ serve.timeout 9223372036854775807 = -9223372034854775809
      ∧ newHttpHandler.timeout (serve.timeout 9223372036854775807) = none := by
  decide

/-- C10 (amended). For every descriptor timeout `t` with `0 ≤ t` and
`t + 2s` representable as a duration, the client applies a timeout `c`, server
dispatch applies a deadline `s`, and `s = c + 2s`: `t + 2s` against `t` when
`t > 0`, the defaults 10s against 8s when `t = 0`; so `c ≤ s`. -/
theorem timeout_grace (t : Int) (h0 : 0 ≤ t) (hmax : t + 2 * Second ≤ 9223372036854775807) :
    ∃ c s : Int, call.timeout t = some c
      ∧ newHttpHandler.timeout (serve.timeout t) = some s
      ∧ s = c + 2 * Second ∧ c ≤ s
      ∧ (0 < t → c = t ∧ s = t + 2 * Second)
      ∧ (t = 0 → c = 8 * Second ∧ s = 10 * Second) := by
  simp only [Second] at hmax
  by_cases ht : t = 0
  · subst ht
    refine ⟨8 * Second, 10 * Second, by decide, by decide, by decide, by decide, ?_, ?_⟩
    · intro h; exact absurd h (by decide)
    · intro _; exact ⟨rfl, rfl⟩
  · have hpos : 0 < t := lt_of_le_of_ne h0 (Ne.symm ht)
    have hw : wrapInt64 (t + Second * 2) = t + 2000000000 := by
      simp only [wrapInt64, Second]
      omega
    refine ⟨t, t + 2 * Second, ?_, ?_, rfl, ?_, ?_, ?_⟩
    · simp [call.timeout, ht, hpos]
    · have h1 : ¬ (t + 2000000000 = 0) := by omega
      have h2 : t + 2000000000 > 0 := by omega
      have hs : serve.timeout t = t + 2000000000 := by
        simp only [serve.timeout, hpos, if_true, hw]
        simp [h1]
      rw [hs]
      simp [newHttpHandler.timeout, h2, Second]
    · simp only [Second]; omega
    · intro _; exact ⟨rfl, rfl⟩
    · intro h; exact absurd h ht

/-- C10 (amended) at `t = 3s`: client 3s, server 5s. -/
theorem timeout_grace_witness :
    ∃ c s : Int, call.timeout (3 * Second) = some c
      ∧ newHttpHandler.timeout (serve.timeout (3 * Second)) = some s
      ∧ s = c + 2 * Second ∧ c ≤ s
      ∧ (0 < 3 * Second → c = 3 * Second ∧ s = 3 * Second + 2 * Second)
      ∧ (3 * Second = 0 → c = 8 * Second ∧ s = 10 * Second) :=
  timeout_grace (3 * Second) (by decide) (by decide)

end rpc

namespace rpc

open http

/-! ## Wire round trips -/

theorem writeError_status (E : Codec ErrorDetail) (e : errx.impl) :
    ∃ code : Int, 400 ≤ code ∧
      ∀ bs, E.enc { Message := e.msg, Type_ := e.typ, Code := e.code } = .ok bs →
        WriteError E ResponseWriter.fresh e = { status := some code, header := [], body := bs } := by
  by_cases h1 : e.typ = errx.TypeAuthorization
  · refine ⟨403, by decide, fun bs hb => ?_⟩
    unfold WriteError
    simp only [hb, if_pos h1]
    rfl
  · by_cases h2 : e.typ = errx.TypeAuthentication
    · refine ⟨401, by decide, fun bs hb => ?_⟩
      unfold WriteError
      simp only [hb, if_neg h1, if_pos h2]
      rfl
    · by_cases h3 : e.typ = errx.TypeNotFound
      · refine ⟨404, by decide, fun bs hb => ?_⟩
        unfold WriteError
        simp only [hb, if_neg h1, if_neg h2, if_pos h3]
        rfl
      · refine ⟨502, by decide, fun bs hb => ?_⟩
        unfold WriteError
        simp only [hb, if_neg h1, if_neg h2, if_neg h3]
        rfl

/-- C6. Error round trip: for every application error `e` whose detail the wire
codec carries losslessly, the response produced by `WriteError e` is decoded
by `ParseResponse` into no result and an error with the message, numeric code
and kind of `e`. -/
theorem error_round_trip {α : Type} (E : Codec ErrorDetail) (T : WireType α) (e : errx.impl)
    (announced : Bool) (bs : Bytes)
    (henc : E.enc { Message := e.msg, Type_ := e.typ, Code := e.code } = .ok bs)
    (hdec : E.dec bs = .ok { Message := e.msg, Type_ := e.typ, Code := e.code }) :
    ParseResponse E T ((WriteError E ResponseWriter.fresh e).response announced)
      = .error { msg := e.msg, code := e.code, typ := e.typ } := by
  obtain ⟨code, hcode, hw⟩ := writeError_status E e
  rw [hw bs henc]
  simp [ParseResponse, ResponseWriter.response, hcode, hdec, errx.Define, errx.rootError,
    errx.impl.WithMsg, errx.impl.WithType, errx.impl.WithCode, errx.impl.Err]

/-- C6 at a handler's not-found error: the client decodes kind `not_found` and
the original message. -/
theorem error_round_trip_witness :
    ParseResponse sample.errorDetailCodec sample.small
        ((WriteError sample.errorDetailCodec ResponseWriter.fresh sample.notFound).response true)
      = .error { msg := "order 7 not found".toList, code := 0, typ := errx.TypeNotFound } :=
  error_round_trip sample.errorDetailCodec sample.small sample.notFound true
    (17 :: ("order 7 not found".toList.map (fun c => UInt8.ofNat c.toNat))
      ++ 9 :: ("not_found".toList.map (fun c => UInt8.ofNat c.toNat)) ++ [0])
    (by rfl) (by rfl)

/-- C7. Success round trip. For an ordinary (non-marker) output type and a
non-nil handler output `x` whose wire encoding is non-empty and decodes back to
`x`, `WriteSuccess` reports no error and `ParseResponse` applied to the response
it wrote returns `x`; for a marker output type `ParseResponse` returns the zero
marker value whatever the handler returned (nil or not). -/
theorem success_round_trip {α : Type} (E : Codec ErrorDetail) (T : WireType α)
    (announced : Bool) :
    (T.IsNilValue T.zero = false →
      ∀ (x : α) (bs : Bytes), T.codec.enc x = .ok bs → bs ≠ [] → T.codec.dec bs = .ok x →
        (WriteSuccess T ResponseWriter.fresh (some x)).2 = none
        ∧ ParseResponse E T
            ((WriteSuccess T ResponseWriter.fresh (some x)).1.response announced) = .ok x)
    ∧ (T.IsNilValue T.zero = true →
      ∀ data : Option α,
        ParseResponse E T
            ((WriteSuccess T ResponseWriter.fresh data).1.response announced) = .ok T.zero) := by
  constructor
  · intro hn x bs henc hne hdec
    have hlen : ¬ ((bs.length : Int) = 0) := by
      intro h
      exact hne (List.length_eq_zero.mp (by exact_mod_cast h))
    cases announced <;>
      simp [WriteSuccess, henc, ParseResponse, ResponseWriter.response, ResponseWriter.fresh,
        ResponseWriter.WriteHeader, ResponseWriter.Write, StatusOK, hn, hdec, hlen]
  · intro hn data
    have hst : ∀ w : ResponseWriter × Option errx.impl,
        w = WriteSuccess T ResponseWriter.fresh data → w.1.status = some 200 := by
      intro w hw
      subst hw
      cases data with
      | none => rfl
      | some x =>
        simp only [WriteSuccess]
        cases T.codec.enc x <;> rfl
    have h200 := hst _ rfl
    simp [ParseResponse, ResponseWriter.response, h200, hn]

/-- C7 at the one-byte payload `7` and at the marker type. -/
theorem success_round_trip_witness :
    ParseResponse sample.errorDetailCodec sample.small
        ((WriteSuccess sample.small ResponseWriter.fresh (some 7)).1.response true) = .ok 7
      ∧ ParseResponse sample.errorDetailCodec sample.nil
        ((WriteSuccess sample.nil ResponseWriter.fresh none).1.response true) = .ok () :=
  ⟨((success_round_trip sample.errorDetailCodec sample.small true).1 (by rfl) 7 [7]
      (by rfl) (by decide) (by rfl)).2,
   (success_round_trip sample.errorDetailCodec sample.nil true).2 (by rfl) none⟩

end rpc

namespace strconv

/-! ## Decimal formatting and parsing -/

theorem digitChar_isDigit (d : Nat) (h : d < 10) : (digitChar d).isDigit = true := by
  interval_cases d <;> decide

theorem digitChar_toNat (d : Nat) (h : d < 10) : (digitChar d).toNat - 48 = d := by
  interval_cases d <;> decide

theorem fmtNatAux_all (fuel n : Nat) (acc : Str) (hacc : acc.all Char.isDigit = true) :
    (fmtNatAux fuel n acc).all Char.isDigit = true := by
  induction fuel generalizing n acc with
  | zero => simpa [fmtNatAux] using hacc
  | succ k ih =>
    unfold fmtNatAux
    split_ifs with h
    · simp only [List.all_cons, Bool.and_eq_true]
      exact ⟨digitChar_isDigit n h, hacc⟩
    · apply ih
      simp only [List.all_cons, Bool.and_eq_true]
      exact ⟨digitChar_isDigit _ (Nat.mod_lt _ (by decide)), hacc⟩

theorem fmtNatAux_ne_nil (fuel n : Nat) (acc : Str) (h : acc ≠ [] ∨ 0 < fuel) :
    fmtNatAux fuel n acc ≠ [] := by
  induction fuel generalizing n acc with
  | zero =>
    rcases h with h | h
    · simpa [fmtNatAux] using h
    · exact absurd h (by decide)
  | succ k ih =>
    unfold fmtNatAux
    split_ifs with hn
    · simp
    · exact ih _ _ (Or.inl (by simp))

theorem digitsVal_fmtNatAux (fuel n : Nat) (acc : Str) (h : n < fuel) :
    digitsVal 0 (fmtNatAux fuel n acc) = digitsVal n acc := by
  induction fuel generalizing n acc with
  | zero => exact absurd h (by omega)
  | succ k ih =>
    unfold fmtNatAux
    split_ifs with hn
    · simp [digitsVal, digitChar_toNat n hn]
    · rw [ih (n / 10) _ (by omega)]
      simp only [digitsVal, List.foldl_cons, digitChar_toNat _ (Nat.mod_lt n (by decide))]
      congr 1
      omega

theorem fmtNat_all (n : Nat) : (fmtNat n).all Char.isDigit = true :=
  fmtNatAux_all _ _ _ rfl

theorem fmtNat_ne_nil (n : Nat) : fmtNat n ≠ [] :=
  fmtNatAux_ne_nil _ _ _ (Or.inr (Nat.succ_pos n))

theorem digitsVal_fmtNat (n : Nat) : digitsVal 0 (fmtNat n) = n := by
  have h := digitsVal_fmtNatAux (n + 1) n [] (Nat.lt_succ_self n)
  simpa [digitsVal] using h

theorem Atoi_fmtNat (n : Nat) (h : (n : Int) ≤ maxInt) : Atoi (fmtNat n) = some (n : Int) := by
  have hall := fmtNat_all n
  have hval := digitsVal_fmtNat n
  have hne := fmtNat_ne_nil n
  cases hs : fmtNat n with
  | nil => exact absurd hs hne
  | cons c r =>
    rw [hs] at hall hval
    have hc : c.isDigit = true := by
      simp only [List.all_cons, Bool.and_eq_true] at hall
      exact hall.1
    have hm : c ≠ '-' := by
      intro hc'; subst hc'; exact absurd hc (by decide)
    have hp : c ≠ '+' := by
      intro hc'; subst hc'; exact absurd hc (by decide)
    have hlo : minInt ≤ (n : Int) := by
      have : (0 : Int) ≤ (n : Int) := Int.natCast_nonneg n
      simp only [minInt]; omega
    simp [Atoi, hm, hp, hall, hval, hlo, h]

theorem Atoi_Itoa (v : Int) (hlo : minInt ≤ v) (hhi : v ≤ maxInt) : Atoi (Itoa v) = some v := by
  cases v with
  | ofNat n => exact Atoi_fmtNat n hhi
  | negSucc n =>
    have hall := fmtNat_all (n + 1)
    have hval := digitsVal_fmtNat (n + 1)
    have hne := fmtNat_ne_nil (n + 1)
    have hlo' : minInt ≤ -((n + 1 : Nat) : Int) := by
      rw [Int.negSucc_eq] at hlo; push_cast; exact hlo
    have hhi' : -((n + 1 : Nat) : Int) ≤ maxInt := by
      simp only [maxInt]; push_cast; omega
    have hv : Int.negSucc n = -((n + 1 : Nat) : Int) := by
      rw [Int.negSucc_eq]; push_cast; rfl
    simp only [Itoa, Atoi]
    simp only [minInt, maxInt] at hlo' hhi' ⊢
    push_cast at hlo' hhi'
    simp [hne, hall, hval, hv]
    constructor <;> omega

theorem Itoa_no_comma (v : Int) : ',' ∉ Itoa v := by
  have key : ∀ n, ',' ∉ fmtNat n := by
    intro n hmem
    have hall := fmtNat_all n
    rw [List.all_eq_true] at hall
    exact absurd (hall _ hmem) (by decide)
  cases v with
  | ofNat n => exact key n
  | negSucc n =>
    intro hmem
    simp only [Itoa, List.mem_cons] at hmem
    rcases hmem with h | h
    · exact absurd h (by decide)
    · exact key _ h

end strconv

namespace strings

/-! ## Splitting and joining -/

theorem Split_single (a : Str) (sep : Char) (h : sep ∉ a) : Split a sep = [a] := by
  unfold Split List.splitOn
  refine List.splitOnP_eq_single _ _ ?_
  intro y hy hb
  rw [eq_of_beq hb] at hy
  exact h hy

theorem Split_append_sep (a rest : Str) (sep : Char) (h : sep ∉ a) :
    Split (a ++ sep :: rest) sep = a :: Split rest sep := by
  unfold Split List.splitOn
  refine List.splitOnP_first (fun x => x == sep) a ?_ sep (beq_self_eq_true _) rest
  intro y hy hb
  rw [eq_of_beq hb] at hy
  exact h hy

theorem Split_append_sep_last (a b : Str) (sep : Char) (h : sep ∉ b) :
    Split (a ++ sep :: b) sep = Split a sep ++ [b] := by
  induction a with
  | nil =>
    have := Split_append_sep [] b sep (by simp)
    simp only [List.nil_append] at this ⊢
    rw [this, Split_single b sep h]
    rfl
  | cons c cs ih =>
    unfold Split List.splitOn at ih ⊢
    simp only [List.cons_append, List.splitOnP_cons]
    split_ifs with hc
    · rw [ih]; rfl
    · rw [ih]
      cases hs : List.splitOnP (fun x => x == sep) cs with
      | nil => exact absurd hs (List.splitOnP_ne_nil _ _)
      | cons x xs => rfl

theorem Join_Split (s : Str) (sep : Char) : Join (Split s sep) sep = s :=
  List.intercalate_splitOn s sep

theorem Split_ne_nil (s : Str) (sep : Char) : Split s sep ≠ [] :=
  List.splitOnP_ne_nil _ _

theorem Trim_slash (body pod : Str) (c : Char) (hc : c ≠ '/') (hpod : pod ≠ [])
    (hno : '/' ∉ pod) :
    Trim ('/' :: c :: (body ++ pod)) '/' = c :: (body ++ pod) := by
  have hlast : pod = pod.dropLast ++ [pod.getLast hpod] :=
    (List.dropLast_append_getLast hpod).symm
  have hl : pod.getLast hpod ≠ '/' := by
    intro h
    exact hno (h ▸ List.getLast_mem hpod)
  unfold Trim
  have hd : List.dropWhile (fun x => x == '/') ('/' :: c :: (body ++ pod)) = c :: (body ++ pod) := by
    have hcb : (c == '/') = false := by simpa using hc
    simp [List.dropWhile, hcb]
  rw [hd, hlast]
  have : c :: (body ++ (pod.dropLast ++ [pod.getLast hpod]))
      = (c :: (body ++ pod.dropLast)) ++ [pod.getLast hpod] := by simp
  rw [this]
  exact List.rdropWhile_concat_neg _ _ _ (by simpa using hl)

end strings

namespace rpc

/-! ## Registration round trip -/

theorem serve_key_split (serviceName path podName : Str)
    (hsn : '/' ∉ serviceName) (hpod : podName ≠ []) (hpod' : '/' ∉ podName) :
    strings.Split (strings.Trim (serve.key serviceName path podName) '/') '/'
      = "rpc-services".toList :: serviceName :: (strings.Split path '/' ++ [podName]) := by
  have hk : serve.key serviceName path podName
      = '/' :: 'r' :: (("pc-services".toList ++ '/' :: (serviceName ++ '/' :: (path ++ ['/'])))
          ++ podName) := by
    simp [serve.key, serve.path, etcdPrefix]
  rw [hk, strings.Trim_slash _ _ 'r' (by decide) hpod hpod']
  have hb : 'r' :: (("pc-services".toList ++ '/' :: (serviceName ++ '/' :: (path ++ ['/'])))
          ++ podName)
      = "rpc-services".toList ++ '/' :: (serviceName ++ '/' :: (path ++ '/' :: podName)) := by
    simp
  rw [hb, strings.Split_append_sep _ _ '/' (by decide),
    strings.Split_append_sep _ _ '/' hsn, strings.Split_append_sep_last _ _ '/' hpod']

theorem etcd_value_split (ns : Str) (port : Int) (hns : ',' ∉ ns) :
    strings.Split (getMethodEtcdValue ns port) ',' = [ns, strconv.Itoa port] := by
  have hv : getMethodEtcdValue ns port = ns ++ ',' :: strconv.Itoa port := by
    simp [getMethodEtcdValue]
  rw [hv, strings.Split_append_sep _ _ ',' hns,
    strings.Split_single _ ',' (strconv.Itoa_no_comma port)]

/-- C8. Registration round trip: for every non-empty serviceName and podName
without `/`, every non-empty path without leading or trailing `/`, every
namespace without `,` and every port (a Go `int`), `parseEtcdDataItem` applied
to the key `<prefix>/<serviceName>/<path>/<podName>` and the value
`<namespace>,<port>` that `serve` publishes returns exactly
`{serviceName, path, namespace, port}`. -/
theorem parseEtcdDataItem_round_trip (serviceName path podName ns : Str) (port : Int)
    (_hsn : serviceName ≠ []) (hsn' : '/' ∉ serviceName)
    (hpod : podName ≠ []) (hpod' : '/' ∉ podName)
    (_hpath : path ≠ []) (_hhead : path.head? ≠ some '/') (_hlast : path.getLast? ≠ some '/')
    (hns : ',' ∉ ns) (hlo : strconv.minInt ≤ port) (hhi : port ≤ strconv.maxInt) :
    parseEtcdDataItem (serve.key serviceName path podName) (getMethodEtcdValue ns port)
      = some { serviceName := serviceName, path := path, namespace_ := ns, port := port } := by
  unfold parseEtcdDataItem
  rw [serve_key_split serviceName path podName hsn' hpod hpod', etcd_value_split ns port hns]
  have hlen : ¬ (("rpc-services".toList :: serviceName
      :: (strings.Split path '/' ++ [podName])).length < 4) := by
    have := List.length_pos.mpr (strings.Split_ne_nil path '/')
    simp only [List.length_cons, List.length_append, List.length_singleton]
    omega
  have htake : (("rpc-services".toList :: serviceName
        :: (strings.Split path '/' ++ [podName])).take
        (("rpc-services".toList :: serviceName
          :: (strings.Split path '/' ++ [podName])).length - 1)).drop 1
      = serviceName :: strings.Split path '/' := by
    have h1 : ("rpc-services".toList :: serviceName
        :: (strings.Split path '/' ++ [podName]))
        = ("rpc-services".toList :: serviceName :: strings.Split path '/') ++ [podName] := by
      simp
    rw [h1, List.length_append, List.length_singleton, Nat.add_sub_cancel,
      List.take_left']
    · rfl
    · rfl
  simp only [hlen, if_false, htake]
  simp [strconv.Atoi_Itoa port hlo hhi, strings.Join_Split]

/-- C8 at `orders` / `orders/create` published by pod `pod-0` from namespace
`ns1` on port 28000. -/
theorem parseEtcdDataItem_round_trip_witness :
    parseEtcdDataItem
        (serve.key "orders".toList "orders/create".toList "pod-0".toList)
        (getMethodEtcdValue "ns1".toList 28000)
      = some sample.orders :=
  parseEtcdDataItem_round_trip "orders".toList "orders/create".toList "pod-0".toList
    "ns1".toList 28000 (by decide) (by decide) (by decide) (by decide) (by decide) (by decide)
    (by decide) (by decide) (by decide) (by decide)

end rpc

namespace rpc

open http

/-! ## Server dispatch: validation before the handler -/

/-- C11. In server dispatch, whenever a validator exists for the input type and
rejects the decoded request, the typed handler is not invoked and the response
written is exactly `WriteError` of the validator's error (on the writer
carrying the content type); and every input the handler is invoked on was
decoded from the request and passed the validator, if there is one. -/
theorem validator_rejection_skips_handler {α β : Type} (a : ctxx.Ambient)
    (E : Codec ErrorDetail) (I : WireType α) (O : WireType β)
    (validate : Option (α → Option errx.impl)) (handler : Handler α β) (timeout : Int)
    (w : ResponseWriter) (req : Request) :
    (∀ (v : α → Option errx.impl) (input : α) (err : errx.impl),
        validate = some v → ReadRequestBody I req = .ok input → v input = some err →
        newHttpHandler.run a E I O validate handler timeout w req
            = (WriteError E
                (w.HeaderSet "Content-Type".toList "application/msgpack".toList) err, [])
          ∧ newHttpHandler a E I O validate handler timeout w req
            = WriteError E
                (w.HeaderSet "Content-Type".toList "application/msgpack".toList) err)
      ∧ (∀ x ∈ (newHttpHandler.run a E I O validate handler timeout w req).2,
          ReadRequestBody I req = .ok x ∧ ∀ v, validate = some v → v x = none) := by
  constructor
  · intro v input err hv hdec hrej
    subst hv
    simp [newHttpHandler, newHttpHandler.run, hdec, hrej]
  · intro x hx
    unfold newHttpHandler.run at hx
    cases hdec : ReadRequestBody I req with
    | error e => rw [hdec] at hx; simp at hx
    | ok input =>
      rw [hdec] at hx
      cases validate with
      | none =>
        simp only [List.mem_singleton] at hx
        subst hx
        exact ⟨rfl, fun v hv => by cases hv⟩
      | some v =>
        cases hv : v input with
        | some err => simp [hv] at hx
        | none =>
          simp only [hv, List.mem_singleton] at hx
          subst hx
          refine ⟨rfl, fun v' hv' => ?_⟩
          cases hv'
          exact hv

/-- C11 at a request carrying 200 against a validator that allows at most 100:
the handler is not invoked and the response is the 502 validation error. -/
theorem validator_rejection_skips_handler_witness :
    newHttpHandler.run sample.ambient sample.errorDetailCodec sample.small sample.small
        (some sample.validate) sample.echo 0 ResponseWriter.fresh sample.bigRequest
      = (WriteError sample.errorDetailCodec
          (ResponseWriter.fresh.HeaderSet "Content-Type".toList "application/msgpack".toList)
          errx.Validation, []) :=
  ((validator_rejection_skips_handler sample.ambient sample.errorDetailCodec sample.small
      sample.small (some sample.validate) sample.echo 0 ResponseWriter.fresh
      sample.bigRequest).1 sample.validate 200 errx.Validation rfl (by rfl) (by rfl)).1

end rpc

namespace rpc

open http

/-! ## Gateway: the interceptor chain -/

theorem chain_log (r : Request) (m : pathRoute) (l : List Interceptor) (k : Nat)
    (w : ResponseWriter) :
    ∃ j, j ≤ l.length ∧
      (gateway.ServeHTTP.chain r m l k w).2
        = (List.range' k j).map (fun i => GatewayEvent.interceptor i true)
          ++ (if j = l.length then [GatewayEvent.route m.route.path]
              else [GatewayEvent.interceptor (k + j) false]) := by
  induction l generalizing k w with
  | nil => exact ⟨0, le_refl _, by simp [gateway.ServeHTTP.chain]⟩
  | cons i rest ih =>
    cases hi : i w r m.route m.group with
    | mk w1 b =>
      cases b with
      | false =>
        refine ⟨0, Nat.zero_le _, ?_⟩
        simp [gateway.ServeHTTP.chain, hi]
      | true =>
        obtain ⟨j, hj, hlog⟩ := ih (k + 1) w1
        refine ⟨j + 1, Nat.succ_le_succ hj, ?_⟩
        simp only [gateway.ServeHTTP.chain, hi, hlog, List.range'_succ, List.map_cons,
          List.cons_append, List.length_cons, Nat.add_right_cancel_iff]
        have : k + 1 + j = k + (j + 1) := by omega
        rw [this]

/-- C12. For every gateway, matched request and interceptor list,
`ServeHTTP` invokes the interceptors in list order: for some `j`, interceptors
`0 .. j-1` are invoked and return true, and then either `j` is the length of the
list and the matched route's handler is invoked, or interceptor `j` is invoked,
returns false, and nothing is invoked after it. Hence the route's handler is
invoked iff no invoked interceptor returned false. -/
theorem interceptors_veto_in_order (E : Codec ErrorDetail) (g : gateway)
    (w : ResponseWriter) (r : Request) (m : pathRoute)
    (hmatch : g.routeByPath r.URLPath = some m) :
    (∃ j, j ≤ g.interceptors.length ∧
      (gateway.ServeHTTP.run E g w r).2
        = (List.range' 0 j).map (fun i => GatewayEvent.interceptor i true)
          ++ (if j = g.interceptors.length then [GatewayEvent.route m.route.path]
              else [GatewayEvent.interceptor j false]))
      ∧ (GatewayEvent.route m.route.path ∈ (gateway.ServeHTTP.run E g w r).2
          ↔ ∀ i, GatewayEvent.interceptor i false ∉ (gateway.ServeHTTP.run E g w r).2) := by
  have hrun : gateway.ServeHTTP.run E g w r
      = gateway.ServeHTTP.chain r m g.interceptors 0 w := by
    simp [gateway.ServeHTTP.run, hmatch]
  obtain ⟨j, hj, hlog⟩ := chain_log r m g.interceptors 0 w
  rw [hrun]
  refine ⟨⟨j, hj, by simpa using hlog⟩, ?_⟩
  rw [hlog]
  by_cases hjn : j = g.interceptors.length
  · simp [hjn]
  · simp only [hjn, if_false, List.mem_append, List.mem_map, List.mem_singleton, reduceCtorEq,
      and_false, exists_false, or_false, false_iff, not_forall, not_not, zero_add]
    exact ⟨j, Or.inr (by simp)⟩

/-- C12 at the chain pass, deny, pass: the first two are invoked, the third
and the route's handler are not. -/
theorem interceptors_veto_in_order_witness :
    (∃ j, j ≤ 3 ∧
      (gateway.ServeHTTP.run sample.errorDetailCodec
          { groups := [], interceptors := [sample.pass, sample.deny, sample.pass],
            routeByPath := fun _ => some sample.createEntry }
          ResponseWriter.fresh sample.request).2
        = (List.range' 0 j).map (fun i => GatewayEvent.interceptor i true)
          ++ (if j = 3 then [GatewayEvent.route "create".toList]
              else [GatewayEvent.interceptor j false]))
      ∧ (gateway.ServeHTTP.run sample.errorDetailCodec
          { groups := [], interceptors := [sample.pass, sample.deny, sample.pass],
            routeByPath := fun _ => some sample.createEntry }
          ResponseWriter.fresh sample.request).2
        = [GatewayEvent.interceptor 0 true, GatewayEvent.interceptor 1 false] :=
  ⟨(interceptors_veto_in_order sample.errorDetailCodec
      { groups := [], interceptors := [sample.pass, sample.deny, sample.pass],
        routeByPath := fun _ => some sample.createEntry }
      ResponseWriter.fresh sample.request sample.createEntry rfl).1,
   by decide⟩

end rpc

namespace rpc

open http

/-! ## Gateway: construction of the route table -/

theorem insert_fold_none (es : List (Str × pathRoute)) :
    es.foldl spec.insert none = none := by
  induction es with
  | nil => rfl
  | cons e rest ih => simpa [List.foldl, spec.insert] using ih

theorem insert_fold (es : List (Str × pathRoute)) (t : Str → Option pathRoute) :
    (es.foldl spec.insert (some t) = none ↔
        ¬ ((es.map Prod.fst).Nodup ∧ ∀ e ∈ es, t e.1 = none))
      ∧ ∀ t', es.foldl spec.insert (some t) = some t' →
          (∀ e ∈ es, t' e.1 = some e.2) ∧ (∀ q, q ∉ es.map Prod.fst → t' q = t q) := by
  induction es generalizing t with
  | nil =>
    refine ⟨by simp, ?_⟩
    intro t' h
    simp only [List.foldl_nil, Option.some.injEq] at h
    subst h
    simp
  | cons e rest ih =>
    cases ht : t e.1 with
    | some pr =>
      have hins : spec.insert (some t) e = none := by simp [spec.insert, ht]
      rw [List.foldl_cons, hins, insert_fold_none]
      refine ⟨?_, fun t' h => by cases h⟩
      simp only [true_iff, not_and]
      intro _ hall
      have := hall e (List.mem_cons_self _ _)
      rw [ht] at this
      cases this
    | none =>
      have hins : spec.insert (some t) e
          = some (fun q => if q = e.1 then some e.2 else t q) := by
        simp [spec.insert, ht]
      rw [List.foldl_cons, hins]
      obtain ⟨ih1, ih2⟩ := ih (fun q => if q = e.1 then some e.2 else t q)
      have key : (∀ x ∈ rest, (fun q => if q = e.1 then some e.2 else t q) x.1 = none)
          ↔ (e.1 ∉ rest.map Prod.fst ∧ ∀ x ∈ rest, t x.1 = none) := by
        constructor
        · intro h
          refine ⟨?_, ?_⟩
          · intro hmem
            obtain ⟨x, hx, hx1⟩ := List.mem_map.mp hmem
            have := h x hx
            simp [hx1] at this
          · intro x hx
            have := h x hx
            by_cases hq : x.1 = e.1
            · simp [hq] at this
            · simpa [hq] using this
        · rintro ⟨hn, hall⟩ x hx
          have hq : x.1 ≠ e.1 := fun hq => hn (hq ▸ List.mem_map_of_mem Prod.fst hx)
          simpa [hq] using hall x hx
      constructor
      · rw [ih1, key]
        simp only [List.map_cons, List.nodup_cons, List.mem_cons, forall_eq_or_imp, ht, true_and]
        tauto
      · intro t' h
        obtain ⟨h1, h2⟩ := ih2 t' h
        have hok : ¬ (rest.foldl spec.insert
            (some (fun q => if q = e.1 then some e.2 else t q)) = none) := by
          rw [h]; simp
        rw [ih1, not_not, key] at hok
        have he : t' e.1 = some e.2 := by
          rw [h2 e.1 hok.2.1]; simp
        refine ⟨?_, ?_⟩
        · intro x hx
          rcases List.mem_cons.mp hx with hx | hx
          · rw [hx]; exact he
          · exact h1 x hx
        · intro q hq
          simp only [List.map_cons, List.mem_cons, not_or] at hq
          rw [h2 q hq.2]
          simp [hq.1]

theorem store_fold (pathJoin : List Str → Str) (g : Group) (rs : List Route)
    (tbl : Option (Str → Option pathRoute)) :
    rs.foldl (NewGateway.store pathJoin g) tbl
      = (rs.map (fun r => (pathJoin ["/".toList, g.Path, r.path],
          ({ route := r, group := g } : pathRoute)))).foldl spec.insert tbl := by
  induction rs generalizing tbl with
  | nil => rfl
  | cons r rest ih =>
    rw [List.map_cons, List.foldl_cons, List.foldl_cons, ih]
    rfl

theorem groups_fold (pathJoin : List Str → Str) (groups : List Group)
    (tbl : Option (Str → Option pathRoute)) :
    groups.foldl (fun tbl group => group.Routes.foldl (NewGateway.store pathJoin group) tbl) tbl
      = (spec.resolved pathJoin groups).foldl spec.insert tbl := by
  induction groups generalizing tbl with
  | nil => rfl
  | cons g gs ih =>
    rw [List.foldl_cons, ih, store_fold, spec.resolved, List.foldl_append]

end rpc

namespace rpc

open http

/-- C13. `NewGateway` aborts iff two route entries of the given groups resolve
to the same path `path.Join("/", group.Path, route.Path())`; when it does not
abort, the route table maps every resolved path to the route and group that
contributed it, and `ServeHTTP` finds a route iff the request path is one of
the resolved paths (answering the structured not-found error otherwise). -/
theorem NewGateway_aborts_iff_duplicate (pathJoin : List Str → Str) (groups : List Group)
    (interceptors : List Interceptor) :
    (NewGateway pathJoin groups interceptors = none
        ↔ ¬ ((spec.resolved pathJoin groups).map Prod.fst).Nodup)
      ∧ ∀ g, NewGateway pathJoin groups interceptors = some g →
          (∀ e ∈ spec.resolved pathJoin groups, g.routeByPath e.1 = some e.2)
          ∧ ∀ (E : Codec ErrorDetail) (w : ResponseWriter) (r : Request),
              ((g.routeByPath r.URLPath).isSome
                ↔ r.URLPath ∈ (spec.resolved pathJoin groups).map Prod.fst)
              ∧ (r.URLPath ∉ (spec.resolved pathJoin groups).map Prod.fst →
                  gateway.ServeHTTP.run E g w r
                    = (WriteError E w (errx.NotFound.WithMsg
                        ("path [".toList ++ r.URLPath ++ "] not found".toList)).Err, [])) := by
  obtain ⟨h1, h2⟩ := insert_fold (spec.resolved pathJoin groups) (fun _ => none)
  constructor
  · unfold NewGateway
    rw [groups_fold, Option.map_eq_none', h1]
    simp
  · intro g hg
    unfold NewGateway at hg
    rw [groups_fold] at hg
    cases hf : (spec.resolved pathJoin groups).foldl spec.insert (some (fun _ => none)) with
    | none => rw [hf] at hg; cases hg
    | some t =>
      rw [hf] at hg
      simp only [Option.map_some', Option.some.injEq] at hg
      subst hg
      obtain ⟨ha, hb⟩ := h2 t hf
      refine ⟨ha, fun E w r => ?_⟩
      have hiff : (t r.URLPath).isSome
          ↔ r.URLPath ∈ (spec.resolved pathJoin groups).map Prod.fst := by
        constructor
        · intro hs
          by_contra hn
          rw [hb _ hn] at hs
          cases hs
        · intro hmem
          obtain ⟨e, he, he1⟩ := List.mem_map.mp hmem
          rw [← he1, ha e he]
          rfl
      refine ⟨hiff, fun hn => ?_⟩
      have : t r.URLPath = none := hb _ hn
      simp [gateway.ServeHTTP.run, this]

/-- C13 at one group listed twice (its route resolves to `/orders/create` both
times, construction aborts) and listed once (construction succeeds). -/
theorem NewGateway_aborts_iff_duplicate_witness :
    NewGateway sample.pathJoin [sample.ordersGroup, sample.ordersGroup] [] = none
      ∧ (NewGateway sample.pathJoin [sample.ordersGroup] []).isSome = true
      ∧ (spec.resolved sample.pathJoin [sample.ordersGroup]).map Prod.fst
          = ["/orders/create".toList] :=
  ⟨(NewGateway_aborts_iff_duplicate sample.pathJoin [sample.ordersGroup, sample.ordersGroup]
      []).1.mpr (by decide),
   by rfl, by decide⟩

end rpc

namespace rpc

open http

/-! ## Gateway: proxied 5xx responses -/

/-- C14 (the code at upstream 503 and 500). For a proxy route the gateway's
status is the upstream status, written by `w.WriteHeader(res.StatusCode)`
before the 5xx check; the `WriteHeader(502)` inside `WriteError(Internal)`
is then superfluous and ignored. Two upstream 5xx responses with the same
headers thus yield different gateway statuses, neither of them the 502 that
`WriteError(Internal)` produces on its own. Only the body is the generic one. -/
theorem proxy_5xx_keeps_upstream_status :
    (ProxyRoute.handler sample.errorDetailCodec (sample.upstream 503 [9]) sample.url
        ResponseWriter.fresh sample.request).status = some 503
      ∧ (ProxyRoute.handler sample.errorDetailCodec (sample.upstream 500 [9]) sample.url
        ResponseWriter.fresh sample.request).status = some 500
      ∧ (WriteError sample.errorDetailCodec ResponseWriter.fresh errx.Internal.Err).status
        = some 502
      ∧ (ProxyRoute.handler sample.errorDetailCodec (sample.upstream 503 [9]) sample.url
        ResponseWriter.fresh sample.request).body
        = (WriteError sample.errorDetailCodec ResponseWriter.fresh errx.Internal.Err).body
      ∧ (WriteError sample.errorDetailCodec ResponseWriter.fresh errx.Internal.Err).body ≠ [] := by
  refine ⟨by rfl, by rfl, by rfl, by rfl, by decide⟩

/-! ## Port listener: one handler per path -/

/-- C15. For every port listener state and path, `addMethodHandler` succeeds
iff no handler is registered under that path, and then stores the handler
there and changes no other path; when a handler is registered it returns an
error and no new table (the listener keeps the table it had), so a second
registration for a path fails and the path stays bound to the first handler;
`serve` turns that error into a process abort. -/
theorem addMethodHandler_once (s : httpServer) (path : Str) (h : HandlerFunc) :
    ((∃ s', s.addMethodHandler path h = .ok s') ↔ s.handlers path = none)
      ∧ (∀ s', s.addMethodHandler path h = .ok s' →
          s'.handlers path = some h ∧ ∀ p, p ≠ path → s'.handlers p = s.handlers p)
      ∧ (∀ h0, s.handlers path = some h0 →
          s.addMethodHandler path h
            = .error (errx.New ("handler for path ".toList ++ path
                ++ " already exists".toList)))
      ∧ (∀ s' h2, s.addMethodHandler path h = .ok s' →
          (∃ e, s'.addMethodHandler path h2 = .error e) ∧ s'.handlers path = some h)
      ∧ (∀ (config : Config) (baseConfig : BaseConfig) (httpServers : Int → httpServer)
          (o : options) (mk : Int → HandlerFunc),
          o.serviceName ≠ [] → path = serve.path o.serviceName o.path →
          httpServers (if o.port = 0 then config.RpcServerPort else o.port) = s →
          (s.handlers path).isSome → serve config baseConfig httpServers o mk = none) := by
  have hok : ∀ s', s.addMethodHandler path h = .ok s' →
      s.handlers path = none
        ∧ s' = { handlers := fun p => if p = path then some h else s.handlers p } := by
    intro s' hs
    unfold httpServer.addMethodHandler at hs
    cases hp : s.handlers path with
    | some h0 => rw [hp] at hs; cases hs
    | none =>
      rw [hp] at hs
      simp only [Except.ok.injEq] at hs
      exact ⟨rfl, hs.symm⟩
  refine ⟨⟨fun ⟨s', hs⟩ => (hok s' hs).1, fun hn => ?_⟩, ?_, ?_, ?_, ?_⟩
  · exact ⟨{ handlers := fun p => if p = path then some h else s.handlers p },
      by simp [httpServer.addMethodHandler, hn]⟩
  · intro s' hs
    obtain ⟨_, rfl⟩ := hok s' hs
    exact ⟨by simp, fun p hp => by simp [hp]⟩
  · intro h0 hp
    simp [httpServer.addMethodHandler, hp]
  · intro s' h2 hs
    obtain ⟨_, rfl⟩ := hok s' hs
    exact ⟨⟨errx.New ("handler for path ".toList ++ path ++ " already exists".toList),
      by simp [httpServer.addMethodHandler]⟩, by simp⟩
  · intro config baseConfig httpServers o mk hsn hpath hsrv hsome
    unfold serve
    simp only [hsn, if_false]
    by_cases hp : o.path = []
    · simp [hp]
    · simp only [hp, if_false]
      rw [hsrv, ← hpath]
      cases hx : s.handlers path with
      | none => rw [hx] at hsome; cases hsome
      | some h0 => simp [httpServer.addMethodHandler, hx]

/-! ## Wire statuses -/

/-- C16. On a writer whose status line is not yet written, `WriteError` writes
status 403 for kind authorization, 401 for authentication, 404 for not-found
and 502 for every other kind, followed by the encoded payload
`{message, type, code}` of the error; `WriteSuccess` writes status 200. -/
theorem writeError_status_by_kind {α : Type} (E : Codec ErrorDetail) (T : WireType α)
    (w : ResponseWriter) (e : errx.impl) (hw : w.status = none) :
    (WriteError E w e).status
        = some (if e.typ = errx.TypeAuthorization then 403
            else if e.typ = errx.TypeAuthentication then 401
            else if e.typ = errx.TypeNotFound then 404 else 502)
      ∧ (∀ bs, E.enc { Message := e.msg, Type_ := e.typ, Code := e.code } = .ok bs →
          (WriteError E w e).body = w.body ++ bs)
      ∧ ∀ data : Option α, (WriteSuccess T w data).1.status = some 200 := by
  refine ⟨?_, ?_, ?_⟩
  · unfold WriteError
    cases henc : E.enc { Message := e.msg, Type_ := e.typ, Code := e.code } <;>
      split_ifs <;>
      simp [henc, ResponseWriter.WriteHeader, ResponseWriter.Write, hw, StatusForbidden,
        StatusUnauthorized, StatusNotFound, StatusBadGateway]
  · intro bs henc
    unfold WriteError
    simp only [henc]
    split_ifs <;> simp [ResponseWriter.WriteHeader, ResponseWriter.Write, hw]
  · intro data
    unfold WriteSuccess
    cases data with
    | none => simp [ResponseWriter.WriteHeader, hw, StatusOK]
    | some x =>
      cases henc : T.codec.enc x <;>
        simp [henc, ResponseWriter.WriteHeader, ResponseWriter.Write, hw, StatusOK]

/-- C16 at the not-found error of a handler: status 404. -/
theorem writeError_status_by_kind_witness :
    (WriteError sample.errorDetailCodec ResponseWriter.fresh sample.notFound).status = some 404
      ∧ (WriteSuccess sample.small ResponseWriter.fresh (some 7)).1.status = some 200 :=
  ⟨(writeError_status_by_kind sample.errorDetailCodec sample.small ResponseWriter.fresh
      sample.notFound rfl).1.trans (by decide),
   (writeError_status_by_kind sample.errorDetailCodec sample.small ResponseWriter.fresh
      sample.notFound rfl).2.2 (some 7)⟩

end rpc

namespace rpc

open http

/-! ## Bodies of length zero -/

/-- C17. For a body of content length zero, `ReadRequestBody` and `ParseResponse`
(on a status below 400) succeed iff the target type is a no-content marker
type: for a marker type they return the zero value, whatever the body and the
codec, and for every other type they return the content-length error; and
`NewRequestBody` produces no body iff the request value is of a marker type. -/
theorem zero_length_body_needs_marker {α : Type} (E : Codec ErrorDetail) (T : WireType α)
    (r : Request) (resp : Response)
    (hr : r.ContentLength = 0) (hresp : resp.ContentLength = 0) (hst : resp.StatusCode < 400) :
    ((∃ v, ReadRequestBody T r = .ok v) ↔ T.IsNilValue T.zero = true)
      ∧ (T.IsNilValue T.zero = true → ReadRequestBody T r = .ok T.zero)
      ∧ (T.IsNilValue T.zero = false →
          ReadRequestBody T r = .error (errx.New "request content length is zero".toList))
      ∧ ((∃ v, ParseResponse E T resp = .ok v) ↔ T.IsNilValue T.zero = true)
      ∧ (T.IsNilValue T.zero = true → ParseResponse E T resp = .ok T.zero)
      ∧ (T.IsNilValue T.zero = false →
          ParseResponse E T resp = .error (errx.New "response content length is zero".toList))
      ∧ ∀ value : α, (NewRequestBody T value = .ok none ↔ T.IsNilValue value = true) := by
  have hst' : ¬ (resp.StatusCode ≥ 400) := by omega
  cases hm : T.IsNilValue T.zero with
  | true =>
    refine ⟨?_, ?_, ?_, ?_, ?_, ?_, ?_⟩
    · simp [ReadRequestBody, hm]
    · simp [ReadRequestBody, hm]
    · intro h; cases h
    · simp [ParseResponse, hm, hst']
    · simp [ParseResponse, hm, hst']
    · intro h; cases h
    · intro value
      unfold NewRequestBody
      cases hv : T.IsNilValue value with
      | true => simp
      | false => cases henc : T.codec.enc value <;> simp [henc]
  | false =>
    refine ⟨?_, ?_, ?_, ?_, ?_, ?_, ?_⟩
    · simp [ReadRequestBody, hm, hr]
    · intro h; cases h
    · simp [ReadRequestBody, hm, hr]
    · simp [ParseResponse, hm, hst', hresp]
    · intro h; cases h
    · simp [ParseResponse, hm, hst', hresp]
    · intro value
      unfold NewRequestBody
      cases hv : T.IsNilValue value with
      | true => simp
      | false => cases henc : T.codec.enc value <;> simp [henc]

/-- C17 at an empty request and an empty 200 response, for the one-byte payload
type (an error) and the marker type (the zero value). -/
theorem zero_length_body_needs_marker_witness :
    ReadRequestBody sample.small sample.request
        = .error (errx.New "request content length is zero".toList)
      ∧ ParseResponse sample.errorDetailCodec sample.nil
          { StatusCode := 200, ContentLength := 0, Body := [] } = .ok () :=
  ⟨(zero_length_body_needs_marker sample.errorDetailCodec sample.small sample.request
      { StatusCode := 200, ContentLength := 0, Body := [] } rfl rfl (by decide)).2.2.1 rfl,
   (zero_length_body_needs_marker sample.errorDetailCodec sample.nil sample.request
      { StatusCode := 200, ContentLength := 0, Body := [] } rfl rfl (by decide)).2.2.2.2.1 rfl⟩

/-! ## Header propagation -/

theorem Header_Get_filter (h : Header) (key k : Str) (hk : k ≠ key) :
    Header.Get (h.filter (fun kv => decide (kv.1 ≠ key))) k = Header.Get h k := by
  induction h with
  | nil => rfl
  | cons kv rest ih =>
    obtain ⟨k1, v1⟩ := kv
    by_cases h1 : k1 = key
    · have hne : ¬ (k1 = k) := fun hh => hk (hh ▸ h1)
      rw [List.filter_cons_of_neg (by simp [h1]), ih]
      simp only [Header.Get, if_neg hne]
    · rw [List.filter_cons_of_pos (by simp [h1])]
      simp only [Header.Get, ih]

theorem Header_Get_Set_same (h : Header) (key value : Str) :
    Header.Get (h.Set key value) key = value := by
  simp [Header.Set, Header.Get]

theorem Header_Get_Set_other (h : Header) (key value k : Str) (hk : k ≠ key) :
    Header.Get (h.Set key value) k = Header.Get h k := by
  unfold Header.Set
  rw [Header.Get, if_neg (Ne.symm hk)]
  exact Header_Get_filter h key k hk

/-- C18. Header propagation round trip: for every caller context with a
non-zero trace id (a 64-bit id) and non-empty operator and caller, the metadata
the server rebuilds from the headers written by `WriteRequestHeader`
(`readMetadataFromHeaders`, then the defaults of `WithMetadata`) has the trace
id, operator, caller and locale of the caller's context. -/
theorem header_round_trip (a : ctxx.Ambient) (ctx : ctxx.Metadata) (r : Request)
    (hid : ctx.TraceID ≠ 0) (hlo : strconv.minInt ≤ ctx.TraceID)
    (hhi : ctx.TraceID ≤ strconv.maxInt)
    (hop : ctx.Operator ≠ []) (hcaller : ctx.Caller ≠ []) :
    ctxx.WithMetadata a (readMetadataFromHeaders (WriteRequestHeader ctx r).Header) = ctx := by
  have hread : readMetadataFromHeaders (WriteRequestHeader ctx r).Header = ctx := by
    unfold readMetadataFromHeaders WriteRequestHeader
    simp only
    rw [Header_Get_Set_other _ _ _ "rpc-trace-id".toList (by decide),
      Header_Get_Set_other _ _ _ "rpc-trace-id".toList (by decide),
      Header_Get_Set_other _ _ _ "rpc-trace-id".toList (by decide),
      Header_Get_Set_other _ _ _ "rpc-trace-id".toList (by decide),
      Header_Get_Set_same,
      Header_Get_Set_other _ _ _ "rpc-operator".toList (by decide),
      Header_Get_Set_other _ _ _ "rpc-operator".toList (by decide),
      Header_Get_Set_same,
      Header_Get_Set_other _ _ _ "rpc-caller".toList (by decide),
      Header_Get_Set_other _ _ _ "rpc-caller".toList (by decide),
      Header_Get_Set_other _ _ _ "rpc-caller".toList (by decide),
      Header_Get_Set_same,
      Header_Get_Set_other _ _ _ "rpc-locale".toList (by decide),
      Header_Get_Set_same]
    simp [types.NewIDFromString, strconv.ParseInt, strconv.Atoi_Itoa ctx.TraceID hlo hhi]
  rw [hread]
  simp [ctxx.WithMetadata, ctxx.Metadata.FillDefaults, hid, hop, hcaller]

/-- C18 at the sample caller context (trace id 42, operator `system`, caller
`pod-0`). -/
theorem header_round_trip_witness :
    ctxx.WithMetadata sample.ambient
        (readMetadataFromHeaders (WriteRequestHeader sample.ctx sample.request).Header)
      = sample.ctx :=
  header_round_trip sample.ambient sample.ctx sample.request (by decide) (by decide)
    (by decide) (by decide) (by decide)

end rpc

namespace rpc

/-! ## Method descriptors: copy-on-write builders -/

/-- C19. Every builder operation of a method descriptor leaves the receiver as
it was and returns a descriptor whose options are the receiver's with the one
field being set replaced, every other field equal to the receiver's. -/
theorem builders_copy_on_write (s : method) (d p : Int) (c : Option Nat)
    (serviceName description : Str) :
    ((s.WithTimeout d).1 = s
        ∧ (s.WithTimeout d).2.options.timeout = d
        ∧ (s.WithTimeout d).2.options.serviceName = s.options.serviceName
        ∧ (s.WithTimeout d).2.options.path = s.options.path
        ∧ (s.WithTimeout d).2.options.port = s.options.port
        ∧ (s.WithTimeout d).2.options.etcd = s.options.etcd
        ∧ (s.WithTimeout d).2.options.description = s.options.description)
      ∧ ((s.WithPort p).1 = s
        ∧ (s.WithPort p).2.options.port = p
        ∧ (s.WithPort p).2.options.serviceName = s.options.serviceName
        ∧ (s.WithPort p).2.options.path = s.options.path
        ∧ (s.WithPort p).2.options.timeout = s.options.timeout
        ∧ (s.WithPort p).2.options.etcd = s.options.etcd
        ∧ (s.WithPort p).2.options.description = s.options.description)
      ∧ ((s.WithEtcd c).1 = s
        ∧ (s.WithEtcd c).2.options.etcd = c
        ∧ (s.WithEtcd c).2.options.serviceName = s.options.serviceName
        ∧ (s.WithEtcd c).2.options.path = s.options.path
        ∧ (s.WithEtcd c).2.options.port = s.options.port
        ∧ (s.WithEtcd c).2.options.timeout = s.options.timeout
        ∧ (s.WithEtcd c).2.options.description = s.options.description)
      ∧ ((s.WithServiceName serviceName).1 = s
        ∧ (s.WithServiceName serviceName).2.options.serviceName = serviceName
        ∧ (s.WithServiceName serviceName).2.options.path = s.options.path
        ∧ (s.WithServiceName serviceName).2.options.port = s.options.port
        ∧ (s.WithServiceName serviceName).2.options.timeout = s.options.timeout
        ∧ (s.WithServiceName serviceName).2.options.etcd = s.options.etcd
        ∧ (s.WithServiceName serviceName).2.options.description = s.options.description)
      ∧ ((s.WithDescription description).1 = s
        ∧ (s.WithDescription description).2.options.description = description
        ∧ (s.WithDescription description).2.options.serviceName = s.options.serviceName
        ∧ (s.WithDescription description).2.options.path = s.options.path
        ∧ (s.WithDescription description).2.options.port = s.options.port
        ∧ (s.WithDescription description).2.options.timeout = s.options.timeout
        ∧ (s.WithDescription description).2.options.etcd = s.options.etcd) := by
  refine ⟨⟨rfl, rfl, rfl, rfl, rfl, rfl, rfl⟩, ⟨rfl, rfl, rfl, rfl, rfl, rfl, rfl⟩,
    ⟨rfl, rfl, rfl, rfl, rfl, rfl, rfl⟩, ⟨rfl, rfl, rfl, rfl, rfl, rfl, rfl⟩,
    ⟨rfl, rfl, rfl, rfl, rfl, rfl, rfl⟩⟩

end rpc

namespace util

/-! ## Debounced reloads -/

theorem burst_pending (d : debouncer) (a : Int) (ts : List Int)
    (hp : d.timer = some (some (a + d.delay)))
    (hchain : List.Chain (fun x y => x ≤ y ∧ y < x + d.delay) a ts) :
    ((d.burst ts).settle).runs = d.runs ++ [(a :: ts).getLast (List.cons_ne_nil _ _) + d.delay]
      ∧ ((d.burst ts).settle).delay = d.delay := by
  induction ts generalizing d a with
  | nil =>
    simp [debouncer.burst, debouncer.settle, debouncer.elapse, hp]
  | cons t rest ih =>
    rw [List.chain_cons] at hchain
    obtain ⟨⟨_, hlt⟩, hrest⟩ := hchain
    have hel : d.elapse t = d := by
      have : ¬ (a + d.delay ≤ t) := by omega
      simp [debouncer.elapse, hp, this]
    have htr : (d.Trigger t).timer = some (some (t + (d.Trigger t).delay))
        ∧ (d.Trigger t).delay = d.delay ∧ (d.Trigger t).runs = d.runs := by
      simp [debouncer.Trigger, hp]
    simp only [debouncer.burst, hel]
    obtain ⟨h1, h2⟩ := ih (d.Trigger t) t htr.1 (by rw [htr.2.1]; exact hrest)
    rw [h1, h2, htr.2.1, htr.2.2]
    exact ⟨by rw [List.getLast_cons (List.cons_ne_nil _ _)], rfl⟩

/-- C20. For the debouncer that drives discovery reloads, starting with no
timer pending: for every finite burst of `Trigger` calls in which each call
comes less than the delay after the previous one, the function runs exactly
once, one delay after the last `Trigger` of the burst, whatever the number of
calls. -/
theorem debounced_burst_runs_once (d : debouncer) (t0 : Int) (ts : List Int)
    (hidle : d.timer = none ∨ d.timer = some none)
    (hchain : List.Chain (fun x y => x ≤ y ∧ y < x + d.delay) t0 ts) :
    ((d.burst (t0 :: ts)).settle).runs
      = d.runs ++ [(t0 :: ts).getLast (List.cons_ne_nil _ _) + d.delay] := by
  have hel : d.elapse t0 = d := by
    rcases hidle with h | h <;> simp [debouncer.elapse, h]
  have htr : (d.Trigger t0).timer = some (some (t0 + (d.Trigger t0).delay))
      ∧ (d.Trigger t0).delay = d.delay ∧ (d.Trigger t0).runs = d.runs := by
    rcases hidle with h | h <;> simp [debouncer.Trigger, h]
  simp only [debouncer.burst, hel]
  have := (burst_pending (d.Trigger t0) t0 ts htr.1 (by rw [htr.2.1]; exact hchain)).1
  rw [this, htr.2.1, htr.2.2]

/-- C20 at the one-second debouncer of discovery and three watch events at 0s,
0.4s and 0.9s: one reload, at 1.9s. -/
theorem debounced_burst_runs_once_witness :
    (((NewDebouncer 1000000000).burst [0, 400000000, 900000000]).settle).runs = [1900000000] :=
  debounced_burst_runs_once (NewDebouncer 1000000000) 0 [400000000, 900000000]
    (Or.inl rfl)
    (List.Chain.cons (by decide) (List.Chain.cons (by decide) List.Chain.nil))

end util

namespace rpc

/-! ## Discovery: readers during a reload -/

theorem run_next_invariant (pre post : Str → Option (List onlineService)) (s : reload.Run)
    (h : (s.committed = false ∧ s.shared = pre ∧ s.rest.foldl reload.step s.byPath = post)
        ∨ (s.committed = true ∧ s.shared = post)) :
    (s.next.committed = false ∧ s.next.shared = pre
        ∧ s.next.rest.foldl reload.step s.next.byPath = post)
      ∨ (s.next.committed = true ∧ s.next.shared = post) := by
  unfold reload.Run.next
  cases hr : s.rest with
  | cons kv rest =>
    rcases h with ⟨hc, hs, hf⟩ | ⟨hc, hs⟩
    · left
      rw [hr] at hf
      exact ⟨hc, hs, hf⟩
    · right
      exact ⟨hc, hs⟩
  | nil =>
    rcases h with ⟨hc, hs, hf⟩ | ⟨hc, hs⟩
    · right
      rw [hr] at hf
      rw [if_neg (by simp [hc])]
      exact ⟨rfl, hf⟩
    · right
      rw [if_pos hc]
      exact ⟨hc, hs⟩

theorem run_after_invariant (pre post : Str → Option (List onlineService)) (n : Nat)
    (s : reload.Run)
    (h : (s.committed = false ∧ s.shared = pre ∧ s.rest.foldl reload.step s.byPath = post)
        ∨ (s.committed = true ∧ s.shared = post)) :
    (s.after n).shared = pre ∨ (s.after n).shared = post := by
  induction n generalizing s with
  | zero =>
    rcases h with ⟨_, hs, _⟩ | ⟨_, hs⟩
    · exact Or.inl hs
    · exact Or.inr hs
  | succ k ih => exact ih s.next (run_next_invariant pre post s h)

theorem run_ends_committed (l : List KeyValue) (s : reload.Run) (hl : s.rest = l)
    (hc : s.committed = false) :
    (s.after (l.length + 1)).shared = l.foldl reload.step s.byPath := by
  induction l generalizing s with
  | nil => simp [reload.Run.after, reload.Run.next, hl, hc]
  | cons kv rest ih =>
    have hn : s.next = { s with byPath := reload.step s.byPath kv, rest := rest } := by
      simp [reload.Run.next, hl]
    have := ih s.next (by rw [hn]) (by rw [hn]; exact hc)
    have hb : s.next.byPath = reload.step s.byPath kv := by rw [hn]
    rw [hb] at this
    simpa only [List.length_cons, reload.Run.after, List.foldl_cons] using this

/-- C21. A `find` that runs at any point of a reload (between any two of its
steps, each lock-protected section being one step) returns what it returns on
the cache before the reload or what it returns on the cache after it: the map
under construction is local to the reload until the single assignment, and the
run ends with the rebuilt map in place. -/
theorem find_during_reload (d : discover) (res : GetResponse) (err : Option Str) (n : Nat)
    (path serviceName : Str) :
    ∃ d', reload d (some res) err = some d'
      ∧ (((reload.Run.start d res).after n).find path serviceName = d.find path serviceName
          ∨ ((reload.Run.start d res).after n).find path serviceName
            = d'.find path serviceName)
      ∧ ((reload.Run.start d res).after (res.Kvs.length + 1)).shared
          = d'.onlineServicesByPath := by
  refine ⟨{ onlineServicesByPath := res.Kvs.foldl reload.step (fun _ => none) }, rfl, ?_, ?_⟩
  · have h := run_after_invariant d.onlineServicesByPath
      (res.Kvs.foldl reload.step (fun _ => none)) n (reload.Run.start d res)
      (Or.inl ⟨rfl, rfl, rfl⟩)
    unfold reload.Run.find
    rcases h with h | h
    · left; rw [h]
    · right; rw [h]
  · exact run_ends_committed res.Kvs (reload.Run.start d res) rfl rfl

/-! ## Discovery: found lists are non-empty -/

theorem step_nonempty (m : Str → Option (List onlineService)) (kv : KeyValue)
    (hm : ∀ p l, m p = some l → l ≠ []) :
    ∀ p l, reload.step m kv p = some l → l ≠ [] := by
  intro p l hl
  unfold reload.step at hl
  split_ifs at hl with hk
  · cases hp : parseEtcdDataItem kv.Key kv.Value with
    | none => rw [hp] at hl; exact hm p l hl
    | some s =>
      rw [hp] at hl
      simp only at hl
      split_ifs at hl with hps
      · simp only [Option.some.injEq] at hl
        rw [← hl]
        simp
      · exact hm p l hl
  · exact hm p l hl

theorem fold_nonempty (kvs : List KeyValue) (m : Str → Option (List onlineService))
    (hm : ∀ p l, m p = some l → l ≠ []) :
    ∀ p l, kvs.foldl reload.step m p = some l → l ≠ [] := by
  induction kvs generalizing m with
  | nil => exact hm
  | cons kv rest ih => exact ih _ (step_nonempty m kv hm)

/-- C27. On a cache that a reload has stored, whenever `find` reports
found the list it returns is non-empty (every stored list is non-empty, and a
filtered result is reported found only when non-empty), so the access to the
first candidate in `getURL` does not index out of range: `getURL` returns. -/
theorem found_list_nonempty (d0 d : discover) (res : Option GetResponse) (err : Option Str)
    (config : Config) (o : options) (path serviceName : Str)
    (hd : reload d0 res err = some d) :
    ((d.find path serviceName).2 = true → (d.find path serviceName).1 ≠ [])
      ∧ getURL d config o ≠ none := by
  have hstored : ∀ p l, d.onlineServicesByPath p = some l → l ≠ [] := by
    cases res with
    | none => cases hd
    | some r =>
      simp only [reload, Option.some.injEq] at hd
      subst hd
      exact fold_nonempty r.Kvs _ (fun p l h => by cases h)
  have hfind : ∀ p sn, (d.find p sn).2 = true → (d.find p sn).1 ≠ [] := by
    intro p sn
    unfold discover.find
    cases hm : d.onlineServicesByPath p with
    | none => simp
    | some l =>
      by_cases hs : sn = []
      · simp only [hs, ne_eq, not_true_eq_false, if_false]
        intro _
        exact hstored p l hm
      · simp only [hs, ne_eq, not_false_eq_true, if_true]
        intro hpos
        simp only [decide_eq_true_eq] at hpos
        exact List.length_pos.mp hpos
  refine ⟨hfind path serviceName, ?_⟩
  unfold getURL
  cases hf : d.find o.path o.serviceName with
  | mk l b =>
    cases b with
    | false => simp
    | true =>
      have := hfind o.path o.serviceName (by rw [hf])
      rw [hf] at this
      cases l with
      | nil => exact absurd rfl this
      | cons s rest =>
        simp only
        split_ifs <;> simp

end rpc

namespace rpc

/-- C27 at the cache a reload builds from the pair published for `orders`. -/
theorem found_list_nonempty_witness :
    getURL
        { onlineServicesByPath :=
            [({ Key := "/rpc-services/orders/orders/create/pod-0".toList,
                Value := "ns1,28000".toList } : KeyValue)].foldl reload.step (fun _ => none) }
        sample.config sample.method ≠ none :=
  (found_list_nonempty { onlineServicesByPath := fun _ => none }
    { onlineServicesByPath :=
        [({ Key := "/rpc-services/orders/orders/create/pod-0".toList,
            Value := "ns1,28000".toList } : KeyValue)].foldl reload.step (fun _ => none) }
    (some { Kvs := [{ Key := "/rpc-services/orders/orders/create/pod-0".toList,
                      Value := "ns1,28000".toList }] })
    none sample.config sample.method [] [] rfl).2

/-! ## Descriptor construction: the stored path -/

/-- C28 (the code at a path with blanks around its slashes). `NewMethod`
trims `/` before it trims white space, so for ` /orders/create/ ` the slashes
are shielded by the blanks during the first trim and survive the second: the
descriptor is accepted with the path `/orders/create/`, and the handler key
built from it has empty segments. Without the blanks the path is
`orders/create`. -/
theorem NewMethod_keeps_slashes_behind_blanks :
    (NewMethod " /orders/create/ ".toList).map (fun m => m.options.path)
        = some "/orders/create/".toList
      ∧ (NewMethod " /orders/create/ ".toList).map
          (fun m => serve.path "orders".toList m.options.path)
        = some "/orders//orders/create/".toList
      ∧ (NewMethod "/orders/create/".toList).map (fun m => m.options.path)
        = some "orders/create".toList := by
  decide

end rpc

/-! ## Validation: labels of nested fields, unsigned bounds -/

namespace validation

open reflect

/-- C22 (code defect): for `&UserWithAddress{Name: "Zhang", Address: Address{}}`
validated with the label tag `json`, the error message is
`Field 'address': Field 'address.Street': value is required`: the nested field
is named by its Go field name `Street`, and the message does not contain its
json label `street`. -/
theorem nested_required_label_is_field_name :
    ValidateStructWithCache sample.external sample.emptyCache (.ptr sample.UserWithAddress)
        sample.userWithEmptyAddress sample.json
      = some (some (errx.Validation.WithMsg
          "Field 'address': Field 'address.Street': value is required".toList))
    ∧ strings.Contains
        "Field 'address': Field 'address.Street': value is required".toList "street".toList
      = false := by
  constructor
  · rfl
  · decide

/-- C29 (code defect): `intRangeValidatorBuilder` accepts the unsigned type
`uint` with `min=1`, and the validator it builds aborts on every value of that
type, because it reads the value with `Value.Int`; so does validation of a
struct with such a field. -/
theorem intRange_aborts_on_unsigned (ext : External) (n : Nat) :
    intRangeValidatorBuilder sample.uintType (Rule.zero.SetMin "1".toList)
      = some (.intRange (some 1) none)
    ∧ Validator.run ext (.intRange (some 1) none) (.uint .Uint n) = none
    ∧ ValidateStructWithCache ext sample.emptyCache sample.CountTest
        (.struct [.uint .Uint n]) sample.json = none := by
  refine ⟨by decide, rfl, rfl⟩

end validation

/-! ## Validation: the tag grammar -/

namespace validation

theorem lowerRun_key (k tail : Str) (c : Char) (hkl : k.all Char.isLower = true)
    (hc : c.isLower = false) : lowerRun (k ++ c :: tail) = k.length := by
  unfold lowerRun
  induction k with
  | nil => simp [List.takeWhile, hc]
  | cons a k ih =>
    simp only [List.all_cons, Bool.and_eq_true] at hkl
    simp [List.takeWhile, hkl.1, ih hkl.2]

theorem get?_after {α : Type} (k tail : List α) (c : α) :
    (k ++ c :: tail).get? k.length = some c := by
  induction k with
  | nil => rfl
  | cons a k ih => simpa using ih

theorem get?_after_succ {α : Type} (k tail : List α) (c d : α) :
    (k ++ c :: d :: tail).get? (k.length + 1) = some d := by
  induction k with
  | nil => rfl
  | cons a k ih => simpa using ih

theorem drop_after {α : Type} (k tail : List α) (n : Nat) :
    (k ++ tail).drop (k.length + n) = tail.drop n := by
  induction k with
  | nil => simp
  | cons a k ih =>
    rw [List.length_cons, Nat.add_right_comm]
    simp

theorem lastIndexOf_none (c : Char) (w : Str) (h : c ∉ w) : lastIndexOf c w = none := by
  induction w with
  | nil => rfl
  | cons a w ih =>
    simp only [List.mem_cons, not_or] at h
    simp [lastIndexOf, ih h.2, Ne.symm h.1]

theorem lastIndexOf_closing (c : Char) (v w : Str) (hw : c ∉ w) :
    lastIndexOf c (v ++ c :: w) = some v.length := by
  induction v with
  | nil => simp [lastIndexOf, lastIndexOf_none c w hw]
  | cons a v ih => simp [lastIndexOf, ih]

theorem takeWhile_past {α : Type} (p : α → Bool) (v w : List α) (c : α)
    (hv : ∀ a ∈ v, p a = true) (hc : p c = true) :
    (v ++ c :: w).takeWhile p = v ++ c :: w.takeWhile p := by
  induction v with
  | nil => simp [List.takeWhile, hc]
  | cons a v ih =>
    have ha : p a = true := hv a (List.mem_cons_self a v)
    have ih1 := ih (fun b hb => hv b (List.mem_cons_of_mem a hb))
    simp [List.takeWhile, ha, ih1]

theorem mem_of_takeWhile {α : Type} (p : α → Bool) (l : List α) (x : α)
    (h : x ∈ l.takeWhile p) : x ∈ l := by
  induction l with
  | nil => simp at h
  | cons a l ih =>
    by_cases ha : p a = true
    · simp only [List.takeWhile, ha, List.mem_cons] at h
      rcases h with h | h
      · exact h ▸ List.mem_cons_self _ _
      · exact List.mem_cons_of_mem _ (ih h)
    · simp [List.takeWhile, ha] at h

theorem token_quoted (k v tail : Str) (hk : k ≠ []) (hkl : k.all Char.isLower = true)
    (hv : v ≠ []) (hvn : '\n' ∉ v) (htq : '\'' ∉ tail) :
    Rule.Parse.token (k ++ '=' :: '\'' :: (v ++ '\'' :: tail))
      = some (k, v, strings.TrimLeft tail ',') := by
  have hrun : lowerRun (k ++ '=' :: '\'' :: (v ++ '\'' :: tail)) = k.length :=
    lowerRun_key k _ '=' hkl (by decide)
  have hkpos : 0 < k.length := List.length_pos.mpr hk
  have hvpos : 1 ≤ v.length := List.length_pos.mpr hv
  have h1 : re1.MatchString (k ++ '=' :: '\'' :: (v ++ '\'' :: tail)) = false := by
    simp [re1.MatchString]
  have hget0 : (k ++ '=' :: '\'' :: (v ++ '\'' :: tail)).get? k.length = some '=' :=
    get?_after k _ '='
  have hget1 : (k ++ '=' :: '\'' :: (v ++ '\'' :: tail)).get? (k.length + 1) = some '\'' :=
    get?_after_succ k _ '=' '\''
  have h2 : re2.FindStringIndex (k ++ '=' :: '\'' :: (v ++ '\'' :: tail)) = none := by
    unfold re2.FindStringIndex
    rw [hrun, hget0]
    simp
  have hdrop : (k ++ '=' :: '\'' :: (v ++ '\'' :: tail)).drop (k.length + 2)
      = v ++ '\'' :: tail := drop_after k _ 2
  have hlast : lastIndexOf '\'' ((v ++ '\'' :: tail).takeWhile (fun c => c ≠ '\n'))
      = some v.length := by
    rw [takeWhile_past _ v tail '\'' (fun a ha => by
      have : a ≠ '\n' := fun h => hvn (h ▸ ha)
      simpa using this) (by decide)]
    apply lastIndexOf_closing
    intro hmem
    exact htq (mem_of_takeWhile _ _ _ hmem)
  have h3 : re3.FindStringSubmatchIndex (k ++ '=' :: '\'' :: (v ++ '\'' :: tail))
      = some (k.length, k.length + 2, k.length + 2 + v.length) := by
    unfold re3.FindStringSubmatchIndex
    rw [hrun, hget0, hget1, hdrop, hlast]
    simp [hkpos, hvpos]
  have hdrop2 : (k ++ '=' :: '\'' :: (v ++ '\'' :: tail)).drop (k.length + 2 + v.length + 1)
      = tail := by
    rw [Nat.add_assoc, Nat.add_assoc, drop_after k _ (2 + (v.length + 1))]
    have : 2 + (v.length + 1) = (v.length + 1) + 2 := by omega
    rw [this]
    show (v ++ '\'' :: tail).drop (v.length + 1) = tail
    rw [drop_after v _ 1]
    rfl
  unfold Rule.Parse.token
  rw [h1, h2, h3]
  simp only [Bool.false_eq_true, if_false]
  rw [hdrop, hdrop2]
  simp


theorem removeAll_append (a b : Str) (c : Char) :
    strings.removeAll (a ++ b) c = strings.removeAll a c ++ strings.removeAll b c := by
  simp [strings.removeAll]

theorem removeAll_lower (k : Str) (hkl : k.all Char.isLower = true) :
    strings.removeAll k ' ' = k := by
  unfold strings.removeAll
  rw [List.filter_eq_self]
  intro a ha
  have hl : a.isLower = true := by
    rw [List.all_eq_true] at hkl
    exact hkl a ha
  have : a ≠ ' ' := by
    intro h
    rw [h] at hl
    exact absurd hl (by decide)
  simpa using this

theorem removeAll_not_mem (s : Str) (c d : Char) (h : d ∉ s) : d ∉ strings.removeAll s c := by
  intro hm
  exact h (List.mem_of_mem_filter hm)

/-- The text that `Rule.Parse` tokenizes for a tag `k='v'` optionally followed
by `,rest`: the tag without its blanks. -/
theorem removeAll_quoted (k v rest : Str) (hkl : k.all Char.isLower = true) :
    strings.removeAll
        (k ++ "='".toList ++ v ++ "'".toList ++ (if rest = [] then [] else ',' :: rest)) ' '
      = k ++ '=' :: '\'' :: (strings.removeAll v ' ' ++ '\'' ::
          (if rest = [] then [] else ',' :: strings.removeAll rest ' ')) := by
  simp only [removeAll_append]
  rw [removeAll_lower k hkl]
  by_cases hr : rest = []
  · simp [hr, strings.removeAll]
  · simp [hr, strings.removeAll]

theorem TrimLeft_tail (r : Str) (b : Bool) :
    strings.TrimLeft (if b then [] else ',' :: r) ',' = strings.TrimLeft r ',' ∨
      (b = true ∧ strings.TrimLeft (if b then [] else ',' :: r) ',' = []) := by
  cases b
  · left
    simp [strings.TrimLeft, List.dropWhile]
  · right
    simp [strings.TrimLeft]

end validation

namespace validation

/-- C26 (counterexample): in `label='a',pattern='b'` the value `a` is non-empty
and has no single quote, yet the value taken for `label` is `a',pattern='b` and
nothing is left to parse; and for `label='a b'` the value taken is `ab`. -/
theorem quoted_value_is_cut_at_the_last_quote :
    Rule.Parse.token "label='a',pattern='b'".toList
        = some ("label".toList, "a',pattern='b".toList, [])
    ∧ Rule.Parse sample.external Rule.zero "label='a',pattern='b'".toList
        = some (.ok (Rule.zero.SetLabel "a',pattern='b".toList))
    ∧ Rule.Parse sample.external Rule.zero "label='a b'".toList
        = some (.ok (Rule.zero.SetLabel "ab".toList)) := by
  refine ⟨by decide, rfl, rfl⟩

/-- C26 (amended): for a tag `k='v'` optionally followed by `,rest`, with `k` a
non-empty lowercase key, `v` free of line breaks and not blank, and `rest` free
of single quotes, the first step of `Rule.Parse` yields the key `k`, the value
`v` without its blanks (commas and single quotes included) and, as the text
still to parse, `rest` without its blanks and leading commas; for the key
`label` parsing goes on from there with the label set to that value. -/
theorem quoted_value_token (ext : External) (o : Rule) (k v rest : Str) (hk : k ≠ [])
    (hkl : k.all Char.isLower = true) (hv : strings.removeAll v ' ' ≠ []) (hvn : '\n' ∉ v)
    (hrq : '\'' ∉ rest) :
    Rule.Parse.token (strings.removeAll
        (k ++ "='".toList ++ v ++ "'".toList ++ (if rest = [] then [] else ',' :: rest)) ' ')
      = some (k, strings.removeAll v ' ', strings.TrimLeft (strings.removeAll rest ' ') ',')
    ∧ (k = "label".toList →
        Rule.Parse ext o
            (k ++ "='".toList ++ v ++ "'".toList ++ (if rest = [] then [] else ',' :: rest))
          = Rule.Parse.loop ext
              (k ++ "='".toList ++ v ++ "'".toList
                ++ (if rest = [] then [] else ',' :: rest)).length
              (k ++ "='".toList ++ v ++ "'".toList ++ (if rest = [] then [] else ',' :: rest))
              (o.SetLabel (strings.removeAll v ' '))
              (strings.TrimLeft (strings.removeAll rest ' ') ',')) := by
  have htok : Rule.Parse.token (strings.removeAll
        (k ++ "='".toList ++ v ++ "'".toList ++ (if rest = [] then [] else ',' :: rest)) ' ')
      = some (k, strings.removeAll v ' ', strings.TrimLeft (strings.removeAll rest ' ') ',') := by
    rw [removeAll_quoted k v rest hkl,
      token_quoted k (strings.removeAll v ' ') _ hk hkl hv (removeAll_not_mem v ' ' '\n' hvn)]
    · by_cases hr : rest = []
      · simp [hr, strings.removeAll, strings.TrimLeft]
      · simp [hr, strings.TrimLeft, List.dropWhile]
    · by_cases hr : rest = []
      · simp [hr]
      · simp only [hr, if_false, List.mem_cons, not_or]
        exact ⟨by decide, removeAll_not_mem rest ' ' '\'' hrq⟩
  refine ⟨htok, ?_⟩
  intro hkey
  have hne : strings.removeAll
      (k ++ "='".toList ++ v ++ "'".toList ++ (if rest = [] then [] else ',' :: rest)) ' '
      ≠ [] := by
    rw [removeAll_quoted k v rest hkl]
    cases k with
    | nil => exact absurd rfl hk
    | cons a k => simp
  unfold Rule.Parse
  rw [Rule.Parse.loop, if_neg hne, htok]
  subst hkey
  simp [Rule.Parse.keys]

/-- The tag `key='value,v2',waiting` of the tag-grammar test: value `value,v2`,
remainder `waiting`. -/
theorem quoted_value_token_witness :
    Rule.Parse.token "key='value,v2',waiting".toList
        = some ("key".toList, "value,v2".toList, "waiting".toList) :=
  (quoted_value_token sample.external Rule.zero "key".toList "value,v2".toList
    "waiting".toList (by decide) (by decide) (by decide) (by decide) (by decide)).1

end validation

/-! ## Validation: required fields -/

namespace validation

open reflect

theorem firstConfigured_none {α : Type} (f : α → Built (Option Config)) (l : List α)
    (h : ∀ x, f x = some (.ok none)) : firstConfigured (l.map f) = some (.ok none) := by
  induction l with
  | nil => rfl
  | cons a l ih => simp [List.map, h a, firstConfigured, ih]

theorem fieldConfig_unexported (ext : External) (f : StructField) (av : Bool) (tag : Str)
    (h : f.IsExported = false) : CreateStructFieldConfig ext f av tag = some (.ok none) := by
  cases f with
  | mk n e a t ty =>
    simp only [StructField.IsExported] at h
    subst h
    simp [CreateStructFieldConfig]

theorem fields_unexported (ext : External) (fields : List StructField) (i : Nat) (av : Bool)
    (tags : List Str) (h : fields.all (fun f => !f.IsExported) = true) :
    CreateStructConfig.fields ext fields i av tags = some (.ok []) := by
  induction fields generalizing i with
  | nil => simp [CreateStructConfig.fields]
  | cons f rest ih =>
    simp only [List.all_cons, Bool.and_eq_true, Bool.not_eq_true'] at h
    have hf : ∀ tag, CreateStructFieldConfig ext f av tag = some (.ok none) :=
      fun tag => fieldConfig_unexported ext f av tag h.1
    have hrest := ih (i + 1) (by simpa using h.2)
    rw [CreateStructConfig.fields]
    rw [hf [], firstConfigured_none _ _ hf, hrest]
    simp

/-- The rule of a field tagged `required` with the label `label`. -/
theorem defaultValidators_required (ext : External) (typ : RType) (label : Str)
    (he : typ.traits.enum = false) :
    defaultValidators ext typ (.mk (some true) (some label) none none none none none) = [] := by
  simp [defaultValidators, intRangeValidatorBuilder, decimalRangeValidatorBuilder,
    floatRangeValidatorBuilder, timeRangeValidatorBuilder, lengthRangeValidatorBuilder,
    patternValidatorBuilder, enumValidatorBuilder, keptBound, Rule.Min, Rule.Max, Rule.Pattern, he]

theorem createConfig_required : (ext : External) → (typ : RType) → (label : Str) → (av : Bool) →
    (tags : List Str) → spec.contributesNoValidator typ = true →
    CreateConfig ext typ (.mk (some true) (some label) none none none none none) av tags
      = some (.ok (some (.mk true label none none none [] [])))
  | ext, .ptr e, label, av, tags, h => by
    rw [CreateConfig]
    exact createConfig_required ext e label av tags (by simpa [spec.contributesNoValidator] using h)
  | ext, .basic k n t, label, av, tags, h => by
    simp only [spec.contributesNoValidator, Bool.and_eq_true, Bool.not_eq_true'] at h
    rw [CreateConfig, defaultValidators_required ext _ label (by simpa [RType.traits] using h.2)]
    simp [h.1, CreateConfig.finish, Rule.Required, Rule.Label, Config.required]
  | ext, .struct n t fields, label, av, tags, h => by
    simp only [spec.contributesNoValidator, Bool.and_eq_true, Bool.not_eq_true'] at h
    rw [CreateConfig, defaultValidators_required ext _ label (by simpa [RType.traits] using h.1.2),
      fields_unexported ext fields 0 av tags h.2]
    simp [h.1.1, CreateConfig.finish, Rule.Required, Rule.Label, Config.required]
  | _, .slice _, _, _, _, h => by simp [spec.contributesNoValidator] at h
  | _, .array _, _, _, _, h => by simp [spec.contributesNoValidator] at h
  | _, .map _ _, _, _, _, h => by simp [spec.contributesNoValidator] at h

theorem Parse_required (ext : External) (o : Rule) :
    Rule.Parse ext o "required".toList = some (.ok (o.SetRequired true)) := rfl

theorem labelRule_plain (label : Str) (h1 : label ≠ [])
    (h3 : strings.HasSuffix label ",omitempty".toList = false) :
    labelRule label = Rule.zero.SetLabel label := by
  unfold labelRule
  rw [if_pos h1, h3]
  rfl

theorem runValidators_bare (ext : External) (r : Bool) (l : Str) (u : Value) (labels : List Str) :
    Config.runValidators ext (.mk r l none none none [] []) u labels = some none := by
  rw [Config.runValidators]
  simp only [Config.check, runValidators.body, runAll, firstError, Option.isSome_none,
    Bool.or_self, Bool.false_and, Bool.false_eq_true, if_false]
  split
  · split <;> simp [Config.validateFields]
  · rfl


theorem fieldConfig_required (ext : External) (name label : Str) (typ : RType)
    (hT : spec.contributesNoValidator typ = true) (h1 : label ≠ [])
    (h2 : label.head? ≠ some '-')
    (h3 : strings.HasSuffix label ",omitempty".toList = false) :
    CreateStructFieldConfig ext
        (.mk name true false [("validate".toList, "required".toList), ("json".toList, label)] typ)
        false "json".toList
      = some (.ok (some (.mk true label none none none [] []))) := by
  have hv : TagGet [("validate".toList, "required".toList), ("json".toList, label)]
      "validate".toList = "required".toList := by simp [TagGet]
  have hj : TagGet [("validate".toList, "required".toList), ("json".toList, label)]
      "json".toList = label := by simp [TagGet]
  have hjson : ("json".toList ≠ ([] : Str)) := by decide
  unfold CreateStructFieldConfig
  simp only [hv, hj, if_pos hjson, Parse_required, labelRule_plain label h1 h3]
  have hh : ("required".toList.head? = some '-') = False := by decide
  have hp : strings.HasPrefix "required".toList "ignore".toList = false := by decide
  have hn : ("required".toList = ([] : Str)) = False := by decide
  simp only [hh, hp, hn, h2]
  simp [Rule.zero, Rule.SetLabel, Rule.SetRequired, Rule.Label, createConfig_required ext typ label
    false [name] hT]


theorem oneField_config (ext : External) (structName name vTag label : Str) (typ : RType)
    (fc : Config)
    (hfc : CreateStructFieldConfig ext
        (.mk name true false [("validate".toList, vTag), ("json".toList, label)] typ)
        false "json".toList = some (.ok (some fc))) :
    getOrCreateConfig ext sample.emptyCache (spec.oneField structName name vTag label typ)
        sample.json
      = some (.ok (some (.mk true [] none none none [(0, fc)] []))) := by
  have hopts : applyOptions sample.json = { alwaysValidate := false, labelTags := ["json".toList] } :=
    rfl
  have hsort : sortTags ["json".toList] = ["json".toList] := rfl
  have hne : (["json".toList] = ([] : List Str)) = False := by simp
  unfold getOrCreateConfig
  simp only [sample.emptyCache, hopts, spec.oneField, elemType]
  rw [CreateConfig, CreateStructConfig.fields, CreateStructConfig.fields]
  simp only [hne, if_false, hsort, List.map, firstConfigured, hfc]
  simp [CreateConfig.finish, defaultValidators, intRangeValidatorBuilder,
    decimalRangeValidatorBuilder, floatRangeValidatorBuilder, timeRangeValidatorBuilder,
    lengthRangeValidatorBuilder, patternValidatorBuilder, enumValidatorBuilder, keptBound,
    Rule.zero, Rule.Min, Rule.Max, Rule.Pattern, Rule.Required, Rule.Label, RType.traits,
    RType.Kind, Kind.toNat, Config.required]

/-- On a cache whose entry under the key of the type, if there is one, is the
configuration of this type, `getOrCreateConfig` returns what it returns on an
empty cache. -/
theorem getOrCreateConfig_agrees (ext : External)
    (cachedConfig : Str → Option (Option Config)) (typ : RType)
    (opts : List (options → options)) (r : Option Config)
    (hnew : getOrCreateConfig ext sample.emptyCache typ opts = some (.ok r))
    (hc : ∀ res, cachedConfig (cacheKey typ (applyOptions opts)) = some res →
      CreateConfig ext (elemType typ) Rule.zero (applyOptions opts).alwaysValidate
        (applyOptions opts).labelTags = some (.ok res)) :
    getOrCreateConfig ext cachedConfig typ opts = some (.ok r) := by
  have hcreate : CreateConfig ext (elemType typ) Rule.zero (applyOptions opts).alwaysValidate
      (applyOptions opts).labelTags = some (.ok r) := hnew
  unfold getOrCreateConfig
  cases hk : cachedConfig (cacheKey typ (applyOptions opts)) with
  | none => exact hcreate
  | some res =>
    have h := hc res hk
    rw [hcreate] at h
    simp only [Option.some.injEq, Except.ok.injEq] at h
    rw [h]

theorem oneField_validate (ext : External) (fc : Config) (v : Value) :
    Config.Validate ext (.mk true [] none none none [(0, fc)] []) (.struct [v]) []
      = Config.Validate ext fc v [] := by
  have h1 : Config.Validate ext (.mk true [] none none none [(0, fc)] []) (.struct [v]) []
      = Validate.wrap [] (match Config.Validate ext fc v [] with
          | some none => some none
          | r => r) := rfl
  rw [h1]
  rcases Config.Validate ext fc v [] with _ | _ | _ <;> rfl


theorem Validate_body_valid (required : Bool) (label : Str) (hasValidators : Bool)
    (run : Value → List Str → Verdict) (v : Value) (parentLabels : List Str)
    (hv : v ≠ .invalid) :
    Validate.body required label hasValidators run v parentLabels
      = Validate.wrap (labelsOf label parentLabels)
          (if v.Kind = Kind.Ptr then
            if IsNil v then
              if required then
                some (some (errx.Validation.WithMsg "value is required".toList).Err)
              else some none
            else
              match dereference v with
              | .error err => some (some err)
              | .ok v1 => run v1 (labelsOf label parentLabels)
          else if required then
            if hasValidators then run v (labelsOf label parentLabels)
            else if isZero v then
              some (some (errx.Validation.WithMsg "value is required".toList).Err)
            else some none
          else if isZero v then some none
          else run v (labelsOf label parentLabels)) := by
  cases v <;> first | exact absurd rfl hv | rfl

theorem wrap_required (label : Str) (h1 : label ≠ []) :
    Validate.wrap (labelsOf label [])
        (some (some (errx.Validation.WithMsg "value is required".toList).Err))
      = some (some (errx.Validation.WithMsg
          ("Field '".toList ++ label ++ "': value is required".toList))) := by
  simp [Validate.wrap, labelsOf, h1, errx.impl.AppendMsg, errx.impl.Err, errx.impl.WithMsg,
    errx.Validation, List.intercalate]

/-- C23 (amended): a struct with one field tagged `validate:"required"` and
`json:"<label>"` (a label that is not empty, does not start with `-` and does
not end in `,omitempty`), of a type that contributes no validator, holding a
valid value whose pointer chain, if it is a non-nil pointer, ends in a value,
on any configuration cache whose entry under the key of the struct type, if
there is one, is the configuration of this very type: validation with the
label tag `json` fails exactly when the field is a nil pointer, or is not a
pointer and `isZero` holds of it (the `IsZero` method of a `ZeroChecker`, never
for a bool, the zero value otherwise); the error is then
`Field '<label>': value is required`. -/
theorem required_field_fails_iff_zero (ext : External)
    (cachedConfig : Str → Option (Option Config)) (structName name label : Str)
    (typ : RType) (v : Value) (hT : spec.contributesNoValidator typ = true)
    (h1 : label ≠ []) (h2 : label.head? ≠ some '-')
    (h3 : strings.HasSuffix label ",omitempty".toList = false) (hv : v ≠ .invalid)
    (hd : v.Kind = Kind.Ptr → IsNil v = false → ∃ u, dereference v = .ok u)
    (hc : ∀ res,
      cachedConfig (cacheKey (spec.oneField structName name "required".toList label typ)
        (applyOptions sample.json)) = some res →
      CreateConfig ext (spec.oneField structName name "required".toList label typ) Rule.zero
        false ["json".toList] = some (.ok res)) :
    ValidateStructWithCache ext cachedConfig
        (spec.oneField structName name "required".toList label typ) (.struct [v]) sample.json
      = if (v.Kind = Kind.Ptr ∧ IsNil v = true) ∨ (v.Kind ≠ Kind.Ptr ∧ isZero v = true) then
          some (some (errx.Validation.WithMsg
            ("Field '".toList ++ label ++ "': value is required".toList)))
        else some none := by
  unfold ValidateStructWithCache
  rw [getOrCreateConfig_agrees ext cachedConfig _ sample.json _
    (oneField_config ext structName name _ label typ _
      (fieldConfig_required ext name label typ hT h1 h2 h3)) hc]
  simp only []
  rw [oneField_validate]
  unfold Config.Validate
  rw [Validate_body_valid _ _ _ _ v [] hv]
  simp only [Config.required, Config.label, Config.hasValidators, Config.validators,
    Config.mapKey, Config.mapValue, Config.arrayConfig, Config.structFieldsConfig,
    runValidators_bare, if_true]
  by_cases hk : v.Kind = Kind.Ptr
  · by_cases hn : IsNil v = true
    · rw [if_pos hk, if_pos hn, if_pos (Or.inl ⟨hk, hn⟩)]
      exact wrap_required label h1
    · obtain ⟨u, hu⟩ := hd hk (by simpa using hn)
      have hcond : ¬((v.Kind = Kind.Ptr ∧ IsNil v = true)
          ∨ (v.Kind ≠ Kind.Ptr ∧ isZero v = true)) := by
        rintro (h | h)
        · exact hn h.2
        · exact h.1 hk
      rw [if_pos hk, if_neg hn, hu, if_neg hcond]
      rfl
  · by_cases hz : isZero v = true
    · rw [if_neg hk, if_pos (Or.inr ⟨hk, hz⟩)]
      simp only [List.isEmpty, Option.isSome, Bool.not_true, Bool.or_self, Bool.false_eq_true,
        if_false, hz, if_true]
      exact wrap_required label h1
    · have hcond : ¬((v.Kind = Kind.Ptr ∧ IsNil v = true)
          ∨ (v.Kind ≠ Kind.Ptr ∧ isZero v = true)) := by
        rintro (h | h)
        · exact hk h.1
        · exact hz h.2
      rw [if_neg hk, if_neg hcond]
      simp only [List.isEmpty, Option.isSome, Bool.not_true, Bool.or_self, Bool.false_eq_true,
        if_false, hz]
      rfl

/-- The zero `time.Time` in a field labelled `start_time`, on the cache left by
an earlier validation of the same type. -/
theorem required_field_fails_iff_zero_witness :
    ValidateStructWithCache sample.external
        (getOrCreateConfig.cache sample.external sample.emptyCache
          (spec.oneField "TimeTest".toList "StartTime".toList "required".toList
            "start_time".toList sample.timeType) sample.json)
        (spec.oneField "TimeTest".toList "StartTime".toList "required".toList
          "start_time".toList sample.timeType)
        (.struct [sample.zeroTime]) sample.json
      = some (some (errx.Validation.WithMsg
          "Field 'start_time': value is required".toList)) :=
  required_field_fails_iff_zero sample.external
    (getOrCreateConfig.cache sample.external sample.emptyCache
      (spec.oneField "TimeTest".toList "StartTime".toList "required".toList
        "start_time".toList sample.timeType) sample.json)
    "TimeTest".toList "StartTime".toList
    "start_time".toList sample.timeType sample.zeroTime (by decide) (by decide) (by decide)
    (by decide) (fun h => by cases h) (fun h => absurd h (by decide))
    (fun res h => by
      cases h
      rfl)

/-- C23 (counterexample): a bool field tagged `validate:"required"` and
`json:"flag"` holding `false`, the zero value of a type that contributes no
validator, passes validation. And once another struct type named `TimeTest`
(one without fields) has been validated, the zero `time.Time` in the field
`StartTime` labelled `start_time` of the test's `TimeTest` fails with the
message `value is required`, which does not name the field: the cached
configuration of the namesake is used. -/
theorem required_false_bool_passes :
    ValidateStructWithCache sample.external sample.emptyCache sample.FlagTest
        (.struct [.bool false]) sample.json = some none
    ∧ (Value.bool false).IsZero = true
    ∧ spec.contributesNoValidator sample.boolType = true
    ∧ ValidateStructWithCache sample.external sample.cacheAfterBare
        (spec.oneField "TimeTest".toList "StartTime".toList "required".toList
          "start_time".toList sample.timeType)
        (.struct [sample.zeroTime]) sample.json
      = some (some (errx.Validation.WithMsg "value is required".toList)) := by
  refine ⟨rfl, rfl, rfl, rfl⟩

end validation

/-! ## Validation: integer bounds -/

namespace strconv

theorem fmtNat_chars (n : Nat) (c : Char) (h : c ∈ fmtNat n) : c.isDigit = true := by
  have := fmtNat_all n
  rw [List.all_eq_true] at this
  exact this c h

theorem Itoa_chars (v : Int) (c : Char) (h : c ∈ Itoa v) : c = '-' ∨ c.isDigit = true := by
  cases v with
  | ofNat n => exact Or.inr (fmtNat_chars n c h)
  | negSucc n =>
    simp only [Itoa, List.mem_cons] at h
    rcases h with h | h
    · exact Or.inl h
    · exact Or.inr (fmtNat_chars _ c h)

theorem Itoa_ne_nil (v : Int) : Itoa v ≠ [] := by
  cases v with
  | ofNat n => exact fmtNat_ne_nil n
  | negSucc n => simp [Itoa]

theorem Itoa_not_mem (v : Int) (c : Char) (h1 : c ≠ '-') (h2 : c.isDigit = false) :
    c ∉ Itoa v := by
  intro h
  rcases Itoa_chars v c h with h | h
  · exact h1 h
  · rw [h2] at h
    exact absurd h (by decide)

end strconv

namespace validation

open reflect

theorem re4Option_none (s : Str) (h : ',' ∉ s) : re4Option.FindStringIndex s = none := by
  induction s with
  | nil => rfl
  | cons c s ih =>
    simp only [List.mem_cons, not_or] at h
    cases s with
    | nil => rfl
    | cons d rest =>
      rw [re4Option.FindStringIndex, if_neg (fun hc => h.1 hc.1.symm), ih h.2]
      rfl

theorem re4Option_first (s rest : Str) (c : Char) (h : ',' ∉ s) (hc : c.isLower = true) :
    re4Option.FindStringIndex (s ++ ',' :: c :: rest) = some s.length := by
  induction s with
  | nil => simp [re4Option.FindStringIndex, hc]
  | cons a s ih =>
    simp only [List.mem_cons, not_or] at h
    have ih1 := ih h.2
    cases s with
    | nil =>
      simp only [List.nil_append] at ih1 ⊢
      show re4Option.FindStringIndex (a :: ',' :: c :: rest) = _
      rw [re4Option.FindStringIndex, if_neg (fun hc => h.1 hc.1.symm), ih1]
      rfl
    | cons d s1 =>
      show re4Option.FindStringIndex (a :: d :: (s1 ++ ',' :: c :: rest)) = _
      rw [re4Option.FindStringIndex, if_neg (fun hc => h.1 hc.1.symm)]
      rw [show d :: (s1 ++ ',' :: c :: rest) = (d :: s1) ++ ',' :: c :: rest from rfl, ih1]
      rfl

/-- The first step of `Rule.Parse` on `k=val` followed by nothing or by
`,c...` with `c` a lowercase letter, for a value of digits and minus signs. -/
theorem token_plain (k val tail : Str) (hk : k ≠ []) (hkl : k.all Char.isLower = true)
    (hval : val ≠ []) (hchars : ∀ c ∈ val, c = '-' ∨ c.isDigit = true)
    (htail : tail = [] ∨ ∃ c rest, tail = ',' :: c :: rest ∧ c.isLower = true
      ∧ '\n' ∉ rest) :
    Rule.Parse.token (k ++ '=' :: (val ++ tail)) = some (k, val, tail.drop 1) := by
  have hnot : ∀ c : Char, c ≠ '-' → c.isDigit = false → c ∉ val := by
    intro c h1 h2 hmem
    rcases hchars c hmem with h | h
    · exact h1 h
    · rw [h2] at h
      exact absurd h (by decide)
  have hrun : lowerRun (k ++ '=' :: (val ++ tail)) = k.length :=
    lowerRun_key k _ '=' hkl (by decide)
  have hkpos : 0 < k.length := List.length_pos.mpr hk
  have h1 : re1.MatchString (k ++ '=' :: (val ++ tail)) = false := by
    simp [re1.MatchString]
  have hget0 : (k ++ '=' :: (val ++ tail)).get? k.length = some '=' := get?_after k _ '='
  have h2 : re2.FindStringIndex (k ++ '=' :: (val ++ tail)) = none := by
    unfold re2.FindStringIndex
    rw [hrun, hget0]
    simp
  obtain ⟨d, val1, hd⟩ : ∃ d val1, val = d :: val1 := by
    cases val with
    | nil => exact absurd rfl hval
    | cons d val1 => exact ⟨d, val1, rfl⟩
  have hdq : d ≠ '\'' := by
    intro h
    exact hnot '\'' (by decide) (by decide) (by rw [hd, h]; exact List.mem_cons_self _ _)
  have hget1 : (k ++ '=' :: (val ++ tail)).get? (k.length + 1) = some d := by
    rw [hd]
    exact get?_after_succ k _ '=' d
  have h3 : re3.FindStringSubmatchIndex (k ++ '=' :: (val ++ tail)) = none := by
    unfold re3.FindStringSubmatchIndex
    rw [hrun, hget0, hget1]
    simp [hdq]
  have hdrop : (k ++ '=' :: (val ++ tail)).drop (k.length + 1) = val ++ tail :=
    drop_after k _ 1
  have hline : (val ++ tail).all (fun c => c ≠ '\n') = true := by
    rw [List.all_eq_true]
    intro c hc
    have hne : c ≠ '\n' := by
      intro h
      rw [h] at hc
      rcases List.mem_append.mp hc with hc | hc
      · exact hnot '\n' (by decide) (by decide) hc
      · rcases htail with ht | ⟨c1, rest, ht, hl, hr⟩
        · rw [ht] at hc
          exact absurd hc (List.not_mem_nil _)
        · rw [ht] at hc
          simp only [List.mem_cons] at hc
          rcases hc with hc | hc | hc
          · exact absurd hc (by decide)
          · rw [← hc] at hl
            exact absurd hl (by decide)
          · exact hr hc
    simpa using hne
  have h4 : re4.FindStringSubmatch (k ++ '=' :: (val ++ tail))
      = some (k, val ++ tail) := by
    unfold re4.FindStringSubmatch
    rw [hrun, hget0, hdrop, hline]
    have : val ++ tail ≠ [] := by simp [hval]
    simp [hkpos, this]
  have hcomma : ',' ∉ val := hnot ',' (by decide) (by decide)
  unfold Rule.Parse.token
  rw [h1, h2, h3, h4]
  simp only [Bool.false_eq_true, if_false]
  rcases htail with ht | ⟨c1, rest, ht, hl, _⟩
  · rw [ht, List.append_nil, re4Option_none val hcomma]
    rfl
  · rw [ht, re4Option_first val rest c1 hcomma hl]
    simp only [List.take_left', List.drop_one, List.tail_cons]
    rw [show val.length + 1 = val.length + 1 from rfl, drop_after val _ 1]
    simp


theorem loop_nil (ext : External) (fuel : Nat) (tag : Str) (o : Rule) :
    Rule.Parse.loop ext (fuel + 1) tag o [] = some (.ok o) := by
  rw [Rule.Parse.loop]
  simp

theorem loop_required (ext : External) (fuel : Nat) (tag : Str) (o : Rule) (rest : Str) :
    Rule.Parse.loop ext (fuel + 1) tag o ("required,".toList ++ rest)
      = Rule.Parse.loop ext fuel tag (o.SetRequired true) rest := by
  have htok : Rule.Parse.token ("required,".toList ++ rest)
      = some ("required".toList, [], rest) := by
    have hrun : lowerRun ("required,".toList ++ rest) = 8 :=
      lowerRun_key "required".toList rest ',' (by decide) (by decide)
    have h1 : re1.MatchString ("required,".toList ++ rest) = false := by
      simp [re1.MatchString]
    have h2 : re2.FindStringIndex ("required,".toList ++ rest) = some 9 := by
      unfold re2.FindStringIndex
      rw [hrun]
      rfl
    unfold Rule.Parse.token
    rw [h1, h2]
    rfl
  rw [Rule.Parse.loop, if_neg (by simp), htok]
  simp [Rule.Parse.keys]

theorem loop_bound (ext : External) (fuel : Nat) (tag : Str) (o : Rule) (k : Str) (x : Int)
    (tail : Str) (hk : k = "min".toList ∨ k = "max".toList)
    (htail : tail = [] ∨ ∃ c rest, tail = ',' :: c :: rest ∧ c.isLower = true
      ∧ '\n' ∉ rest) :
    Rule.Parse.loop ext (fuel + 1) tag o (k ++ '=' :: (strconv.Itoa x ++ tail))
      = Rule.Parse.loop ext fuel tag
          (if k = "min".toList then o.SetMin (strconv.Itoa x) else o.SetMax (strconv.Itoa x))
          (tail.drop 1) := by
  have htok := token_plain k (strconv.Itoa x) tail
    (by rcases hk with h | h <;> rw [h] <;> decide)
    (by rcases hk with h | h <;> rw [h] <;> decide)
    (strconv.Itoa_ne_nil x) (strconv.Itoa_chars x) htail
  have hne : k ++ '=' :: (strconv.Itoa x ++ tail) ≠ [] := by simp
  rw [Rule.Parse.loop, if_neg hne, htok]
  rcases hk with h | h <;> subst h <;> simp [Rule.Parse.keys]

theorem Itoa_no_newline (x : Int) : '\n' ∉ strconv.Itoa x :=
  strconv.Itoa_not_mem x '\n' (by decide) (by decide)

theorem Itoa_no_blank (x : Int) : ' ' ∉ strconv.Itoa x :=
  strconv.Itoa_not_mem x ' ' (by decide) (by decide)

theorem removeAll_Itoa (x : Int) : strings.removeAll (strconv.Itoa x) ' ' = strconv.Itoa x := by
  unfold strings.removeAll
  rw [List.filter_eq_self]
  intro a ha
  have : a ≠ ' ' := fun h => Itoa_no_blank x (h ▸ ha)
  simpa using this

theorem removeAll_rangeTag (req : Bool) (mn mx : Option Int) :
    strings.removeAll (spec.rangeTag req mn mx) ' ' = spec.rangeTag req mn mx := by
  unfold spec.rangeTag
  cases req <;> cases mn <;> cases mx <;>
    simp only [removeAll_append, removeAll_Itoa, if_true, if_false, Bool.false_eq_true] <;> rfl

theorem rangeTag_shape (req : Bool) (mn mx : Option Int) :
    spec.rangeTag req mn mx
      = (if req then "required,".toList else [])
        ++ (match mn, mx with
            | some a, some b =>
              "min".toList ++ '=' :: (strconv.Itoa a
                ++ ',' :: 'm' :: ("ax=".toList ++ strconv.Itoa b))
            | some a, none => "min".toList ++ '=' :: (strconv.Itoa a ++ [])
            | none, some b => "max".toList ++ '=' :: (strconv.Itoa b ++ [])
            | none, none => []) := by
  unfold spec.rangeTag
  cases mn <;> cases mx <;> simp

theorem loop_rangeTag (ext : External) (label : Str) (req : Bool) (mn mx : Option Int)
    (hb : mn.isSome = true ∨ mx.isSome = true) (m : Nat) (tag : Str) :
    Rule.Parse.loop ext (m + 4) tag (.mk none (some label) none none none none none)
        (spec.rangeTag req mn mx)
      = some (.ok (.mk (if req then some true else none) (some label)
          (mn.map strconv.Itoa) (mx.map strconv.Itoa) none none none)) := by
  have hmore : ∀ b : Int, ∃ c rest, ',' :: 'm' :: ("ax=".toList ++ strconv.Itoa b)
      = ',' :: c :: rest ∧ c.isLower = true ∧ '\n' ∉ rest := by
    intro b
    refine ⟨'m', "ax=".toList ++ strconv.Itoa b, rfl, by decide, ?_⟩
    intro h
    rcases List.mem_append.mp h with h | h
    · exact absurd h (by decide)
    · exact Itoa_no_newline b h
  have hmax : ∀ b : Int, ("ax=".toList ++ strconv.Itoa b)
      = "ax".toList ++ '=' :: (strconv.Itoa b ++ []) := by
    intro b
    simp
  rw [rangeTag_shape]
  cases req <;> cases mn <;> cases mx
  all_goals first
    | (simp at hb; done)
    | skip
  · rename_i b
    simp only [Bool.false_eq_true, if_false, List.nil_append]
    rw [loop_bound ext _ tag _ "max".toList b [] (Or.inr rfl) (Or.inl rfl)]
    simp only [List.drop_nil]
    rw [loop_nil]
    rfl
  · rename_i a
    simp only [Bool.false_eq_true, if_false, List.nil_append]
    rw [loop_bound ext _ tag _ "min".toList a [] (Or.inl rfl) (Or.inl rfl)]
    simp only [List.drop_nil]
    rw [loop_nil]
    rfl
  · rename_i a b
    simp only [Bool.false_eq_true, if_false, List.nil_append]
    rw [loop_bound ext _ tag _ "min".toList a _ (Or.inl rfl) (Or.inr (hmore b))]
    simp only [List.drop_one, List.tail_cons]
    rw [show 'm' :: ("ax=".toList ++ strconv.Itoa b)
        = "max".toList ++ '=' :: (strconv.Itoa b ++ []) by simp]
    rw [loop_bound ext _ tag _ "max".toList b [] (Or.inr rfl) (Or.inl rfl)]
    simp only [List.drop_nil]
    rw [loop_nil]
    rfl
  · rename_i b
    simp only [if_true]
    rw [loop_required, loop_bound ext _ tag _ "max".toList b [] (Or.inr rfl) (Or.inl rfl)]
    simp only [List.drop_nil]
    rw [loop_nil]
    rfl
  · rename_i a
    simp only [if_true]
    rw [loop_required, loop_bound ext _ tag _ "min".toList a [] (Or.inl rfl) (Or.inl rfl)]
    simp only [List.drop_nil]
    rw [loop_nil]
    rfl
  · rename_i a b
    simp only [if_true]
    rw [loop_required,
      loop_bound ext _ tag _ "min".toList a _ (Or.inl rfl) (Or.inr (hmore b))]
    simp only [List.drop_one, List.tail_cons]
    rw [show 'm' :: ("ax=".toList ++ strconv.Itoa b)
        = "max".toList ++ '=' :: (strconv.Itoa b ++ []) by simp]
    rw [loop_bound ext _ tag _ "max".toList b [] (Or.inr rfl) (Or.inl rfl)]
    simp only [List.drop_nil]
    rw [loop_nil]
    rfl

/-- The rule that `Rule.Parse` reads from a range tag. -/
theorem Parse_rangeTag (ext : External) (label : Str) (req : Bool) (mn mx : Option Int)
    (hb : mn.isSome = true ∨ mx.isSome = true) :
    Rule.Parse ext (.mk none (some label) none none none none none) (spec.rangeTag req mn mx)
      = some (.ok (.mk (if req then some true else none) (some label)
          (mn.map strconv.Itoa) (mx.map strconv.Itoa) none none none)) := by
  have hlen : ∃ m, (spec.rangeTag req mn mx).length + 1 = m + 4 := by
    have h3 : 3 ≤ (spec.rangeTag req mn mx).length := by
      unfold spec.rangeTag
      cases mn <;> cases mx
      · simp at hb
      all_goals simp only [List.length_append]
      all_goals simp
      all_goals omega
    exact ⟨(spec.rangeTag req mn mx).length - 3, by omega⟩
  obtain ⟨m, hm⟩ := hlen
  unfold Rule.Parse
  rw [removeAll_rangeTag, hm]
  exact loop_rangeTag ext label req mn mx hb m _


theorem outside_iff (mn mx : Option Int) (v : Int) :
    outside mn mx v = false ↔ (∀ a ∈ mn, a ≤ v) ∧ (∀ b ∈ mx, v ≤ b) := by
  cases mn <;> cases mx <;> simp [outside]

theorem intRange_built (ext : External) (kind : Kind) (tname label : Str) (r : Option Bool)
    (mn mx : Option Int)
    (hk : kind ∈ [Kind.Int, Kind.Int8, Kind.Int16, Kind.Int32, Kind.Int64])
    (hb : mn.isSome = true ∨ mx.isSome = true)
    (hmn : ∀ a ∈ mn, strconv.minInt ≤ a ∧ a ≤ strconv.maxInt)
    (hmx : ∀ b ∈ mx, strconv.minInt ≤ b ∧ b ≤ strconv.maxInt) :
    defaultValidators ext (.basic kind tname {})
        (.mk r (some label) (mn.map strconv.Itoa) (mx.map strconv.Itoa) none none none)
      = [.intRange mn mx] := by
  have hint : intRangeValidatorBuilder (.basic kind tname {})
      (.mk r (some label) (mn.map strconv.Itoa) (mx.map strconv.Itoa) none none none)
      = some (.intRange mn mx) := by
    have hkind : ¬((RType.basic kind tname {}).Kind.toNat < Kind.Int.toNat
        ∨ (RType.basic kind tname {}).Kind.toNat > Kind.Uint64.toNat) := by
      simp only [List.mem_cons, List.mem_singleton, List.not_mem_nil, or_false] at hk
      rcases hk with h | h | h | h | h <;> subst h <;> simp [RType.Kind, Kind.toNat]
    unfold intRangeValidatorBuilder
    rw [if_neg hkind]
    cases mn with
    | none =>
      cases mx with
      | none => simp at hb
      | some b =>
        have hb1 := hmx b rfl
        simp [Rule.Min, Rule.Max, strconv.ParseInt, strconv.Atoi_Itoa b hb1.1 hb1.2]
    | some a =>
      have ha1 := hmn a rfl
      cases mx with
      | none => simp [Rule.Min, Rule.Max, strconv.ParseInt, strconv.Atoi_Itoa a ha1.1 ha1.2]
      | some b =>
        have hb1 := hmx b rfl
        simp [Rule.Min, Rule.Max, strconv.ParseInt, strconv.Atoi_Itoa a ha1.1 ha1.2,
          strconv.Atoi_Itoa b hb1.1 hb1.2]
  have hothers : decimalRangeValidatorBuilder ext (.basic kind tname {})
        (.mk r (some label) (mn.map strconv.Itoa) (mx.map strconv.Itoa) none none none) = none
      ∧ floatRangeValidatorBuilder ext (.basic kind tname {})
        (.mk r (some label) (mn.map strconv.Itoa) (mx.map strconv.Itoa) none none none) = none
      ∧ timeRangeValidatorBuilder ext (.basic kind tname {})
        (.mk r (some label) (mn.map strconv.Itoa) (mx.map strconv.Itoa) none none none) = none
      ∧ lengthRangeValidatorBuilder (.basic kind tname {})
        (.mk r (some label) (mn.map strconv.Itoa) (mx.map strconv.Itoa) none none none) = none
      ∧ patternValidatorBuilder (.basic kind tname {})
        (.mk r (some label) (mn.map strconv.Itoa) (mx.map strconv.Itoa) none none none) = none
      ∧ enumValidatorBuilder (.basic kind tname {})
        (.mk r (some label) (mn.map strconv.Itoa) (mx.map strconv.Itoa) none none none)
          = none := by
    simp only [List.mem_cons, List.mem_singleton, List.not_mem_nil, or_false] at hk
    rcases hk with h | h | h | h | h <;> subst h <;>
      simp [decimalRangeValidatorBuilder, floatRangeValidatorBuilder, timeRangeValidatorBuilder,
        lengthRangeValidatorBuilder, patternValidatorBuilder, enumValidatorBuilder,
        RType.traits, RType.Kind, Rule.Pattern]
  unfold defaultValidators
  rw [hint, hothers.1, hothers.2.1, hothers.2.2.1, hothers.2.2.2.1, hothers.2.2.2.2.1,
    hothers.2.2.2.2.2]
  rfl

theorem rangeTag_head (req : Bool) (mn mx : Option Int)
    (hb : mn.isSome = true ∨ mx.isSome = true) :
    (spec.rangeTag req mn mx).head? ≠ some '-'
      ∧ strings.HasPrefix (spec.rangeTag req mn mx) "ignore".toList = false
      ∧ spec.rangeTag req mn mx ≠ [] := by
  rw [rangeTag_shape]
  cases req <;> cases mn <;> cases mx
  all_goals first
    | (simp at hb; done)
    | (refine ⟨by simp, ?_, by simp⟩; rfl)

theorem fieldConfig_range (ext : External) (name label tname : Str) (kind : Kind) (req : Bool)
    (mn mx : Option Int)
    (hk : kind ∈ [Kind.Int, Kind.Int8, Kind.Int16, Kind.Int32, Kind.Int64])
    (hb : mn.isSome = true ∨ mx.isSome = true)
    (hmn : ∀ a ∈ mn, strconv.minInt ≤ a ∧ a ≤ strconv.maxInt)
    (hmx : ∀ b ∈ mx, strconv.minInt ≤ b ∧ b ≤ strconv.maxInt)
    (h1 : label ≠ []) (h2 : label.head? ≠ some '-')
    (h3 : strings.HasSuffix label ",omitempty".toList = false) :
    CreateStructFieldConfig ext
        (.mk name true false
          [("validate".toList, spec.rangeTag req mn mx), ("json".toList, label)]
          (.basic kind tname {}))
        false "json".toList
      = some (.ok (some (.mk true label none none none [] [.intRange mn mx]))) := by
  have hv : TagGet [("validate".toList, spec.rangeTag req mn mx), ("json".toList, label)]
      "validate".toList = spec.rangeTag req mn mx := by simp [TagGet]
  have hj : TagGet [("validate".toList, spec.rangeTag req mn mx), ("json".toList, label)]
      "json".toList = label := by simp [TagGet]
  have hjson : ("json".toList ≠ ([] : Str)) := by decide
  obtain ⟨hh, hp, hn⟩ := rangeTag_head req mn mx hb
  have hrule : labelRule label = .mk none (some label) none none none none none :=
    labelRule_plain label h1 h3
  unfold CreateStructFieldConfig
  simp only [hv, hj, if_pos hjson, hrule, Parse_rangeTag ext label req mn mx hb]
  simp only [eq_false hh, hp, eq_false hn, eq_false h2, not_false_eq_true, if_true, if_false,
    false_or, Bool.false_eq_true, Bool.not_false, Bool.not_true, true_and, false_and]
  simp only [Rule.Label, Option.isNone, Bool.false_eq_true, if_false]
  rw [if_pos hn]
  simp only [Bool.false_eq_true, if_false]
  rw [CreateConfig, intRange_built ext kind tname label _ mn mx hk hb hmn hmx]
  cases req <;> rfl


theorem intRange_validate (ext : External) (label : Str) (kind : Kind) (mn mx : Option Int)
    (v : Int) (hk : kind ∈ [Kind.Int, Kind.Int8, Kind.Int16, Kind.Int32, Kind.Int64]) :
    Config.Validate ext (.mk true label none none none [] [.intRange mn mx]) (.int kind v) []
      = Validate.wrap (labelsOf label [])
          (if outside mn mx v then
            some (some (errx.Validation.WithMsg (rangeMsg "value".toList mn mx)).Err)
          else some none) := by
  have hptr : kind ≠ Kind.Ptr := by
    simp only [List.mem_cons, List.mem_singleton, List.not_mem_nil, or_false] at hk
    rcases hk with h | h | h | h | h <;> subst h <;> decide
  have hstruct : kind ≠ Kind.Struct := by
    simp only [List.mem_cons, List.mem_singleton, List.not_mem_nil, or_false] at hk
    rcases hk with h | h | h | h | h <;> subst h <;> decide
  unfold Config.Validate
  rw [Validate_body_valid _ _ _ _ _ _ (fun h => by cases h)]
  simp only [Value.Kind, if_neg hptr, Config.required, Config.hasValidators, Config.validators,
    List.isEmpty, Bool.not_false, Bool.true_or, if_true]
  rw [Config.runValidators]
  simp only [runValidators.body, runAll, firstError, Validator.run, Value.Int, Config.check,
    Option.isSome, Bool.or_self, Bool.false_and, Bool.false_eq_true, if_false, Value.Kind,
    if_neg hstruct]
  cases outside mn mx v <;> rfl

/-- C24 (amended): a struct with one signed-integer field tagged `min=a`,
`max=b` or `min=a,max=b`, with or without a leading `required,` (bounds within
int64, rendered in decimal), and `json:"<label>"` (a label that is not empty,
does not start with `-` and does not end in `,omitempty`), on any configuration
cache whose entry under the key of the struct type, if there is one, is the
configuration of this very type: validation with the label tag `json` returns
a verdict for every value `v`, and the verdict is a nil error exactly when `v`
is not below the lower bound and not above the upper bound. -/
theorem int_field_accepts_iff_in_range (ext : External)
    (cachedConfig : Str → Option (Option Config)) (structName name label tname : Str)
    (kind : Kind) (req : Bool) (mn mx : Option Int) (v : Int)
    (hk : kind ∈ [Kind.Int, Kind.Int8, Kind.Int16, Kind.Int32, Kind.Int64])
    (hb : mn.isSome = true ∨ mx.isSome = true)
    (hmn : ∀ a ∈ mn, strconv.minInt ≤ a ∧ a ≤ strconv.maxInt)
    (hmx : ∀ b ∈ mx, strconv.minInt ≤ b ∧ b ≤ strconv.maxInt)
    (h1 : label ≠ []) (h2 : label.head? ≠ some '-')
    (h3 : strings.HasSuffix label ",omitempty".toList = false)
    (hc : ∀ res,
      cachedConfig (cacheKey
        (spec.oneField structName name (spec.rangeTag req mn mx) label (.basic kind tname {}))
        (applyOptions sample.json)) = some res →
      CreateConfig ext
        (spec.oneField structName name (spec.rangeTag req mn mx) label (.basic kind tname {}))
        Rule.zero false ["json".toList] = some (.ok res)) :
    ∃ r, ValidateStructWithCache ext cachedConfig
          (spec.oneField structName name (spec.rangeTag req mn mx) label (.basic kind tname {}))
          (.struct [.int kind v]) sample.json = some r
      ∧ (r = none ↔ (∀ a ∈ mn, a ≤ v) ∧ (∀ b ∈ mx, v ≤ b)) := by
  unfold ValidateStructWithCache
  rw [getOrCreateConfig_agrees ext cachedConfig _ sample.json _
    (oneField_config ext structName name _ label _ _
      (fieldConfig_range ext name label tname kind req mn mx hk hb hmn hmx h1 h2 h3)) hc]
  simp only []
  rw [oneField_validate, intRange_validate ext label kind mn mx v hk]
  rw [← outside_iff]
  cases ho : outside mn mx v
  · exact ⟨none, rfl, by simp⟩
  · simp only [if_true, Validate.wrap, labelsOf, h1, ne_eq, not_false_eq_true,
      List.cons_ne_self, List.nil_append]
    refine ⟨_, rfl, by simp⟩

/-- The two examples of the tests: `0` passes under `min=0` on an empty cache,
and fails under `required,min=1,max=100` on the cache left by the test before
it, which validated a type of the same name tagged `min=1,max=100`. -/
theorem int_field_accepts_iff_in_range_witness :
    ValidateStructWithCache sample.external sample.emptyCache
        (spec.oneField "ZeroTest".toList "Age".toList "min=0".toList "age".toList
          sample.intType)
        (.struct [.int .Int 0]) sample.json = some none
    ∧ ValidateStructWithCache sample.external
        (getOrCreateConfig.cache sample.external sample.emptyCache
          (spec.oneField "NumberTest".toList "IntNum".toList "min=1,max=100".toList
            "int_num".toList sample.intType) sample.json)
        (spec.oneField "NumberTest".toList "IntNum".toList "required,min=1,max=100".toList
          "int_num".toList sample.intType)
        (.struct [.int .Int 0]) sample.json ≠ some none := by
  constructor
  · obtain ⟨r, hr, hiff⟩ := int_field_accepts_iff_in_range sample.external sample.emptyCache
      "ZeroTest".toList "Age".toList "age".toList "int".toList Kind.Int false (some 0) none 0
      (by decide) (by decide) (by decide) (by decide) (by decide) (by decide) (by decide)
      (fun res h => by cases h)
    have hr1 : ValidateStructWithCache sample.external sample.emptyCache
        (spec.oneField "ZeroTest".toList "Age".toList "min=0".toList "age".toList
          sample.intType)
        (.struct [.int .Int 0]) sample.json = some r := hr
    rw [hr1, hiff.mpr (by simp)]
  · obtain ⟨r, hr, hiff⟩ := int_field_accepts_iff_in_range sample.external
      (getOrCreateConfig.cache sample.external sample.emptyCache
        (spec.oneField "NumberTest".toList "IntNum".toList "min=1,max=100".toList
          "int_num".toList sample.intType) sample.json)
      "NumberTest".toList "IntNum".toList "int_num".toList "int".toList Kind.Int true (some 1)
      (some 100) 0 (by decide) (by decide) (by decide) (by decide) (by decide) (by decide)
      (by decide)
      (fun res h => by
        cases h
        rfl)
    have hr1 : ValidateStructWithCache sample.external
        (getOrCreateConfig.cache sample.external sample.emptyCache
          (spec.oneField "NumberTest".toList "IntNum".toList "min=1,max=100".toList
            "int_num".toList sample.intType) sample.json)
        (spec.oneField "NumberTest".toList "IntNum".toList "required,min=1,max=100".toList
          "int_num".toList sample.intType)
        (.struct [.int .Int 0]) sample.json = some r := hr
    rw [hr1]
    intro h
    have := hiff.mp (Option.some.inj h)
    simp at this

/-- C24 (counterexample): once another struct type named `ZeroTest`, whose
field `Age` is tagged `min=5`, has been validated with the label tag `json`,
validating the test's `ZeroTest` (field `Age int` tagged `min=0`) at `0` fails
with `Field 'age': value must be greater than or equal to 5.`, although
`0 <= 0`: the cache is keyed by kind and type name and returns the
configuration of the namesake. On an empty cache the same call passes. -/
theorem cached_namesake_decides_the_bounds :
    ValidateStructWithCache sample.external sample.cacheAfterMin5
        (spec.oneField "ZeroTest".toList "Age".toList "min=0".toList "age".toList
          sample.intType)
        (.struct [.int .Int 0]) sample.json
      = some (some (errx.Validation.WithMsg
          "Field 'age': value must be greater than or equal to 5.".toList))
    ∧ ValidateStructWithCache sample.external sample.emptyCache
        (spec.oneField "ZeroTest".toList "Age".toList "min=0".toList "age".toList
          sample.intType)
        (.struct [.int .Int 0]) sample.json = some none
    ∧ ValidateStructWithCache sample.external sample.emptyCache sample.ZeroTestMin5
        (.struct [.int .Int 7]) sample.json = some none := by
  refine ⟨rfl, rfl, rfl⟩

end validation

/-! ## Validation: errors of container elements -/

set_option maxRecDepth 4096

namespace validation

open reflect

theorem firstError_first {α : Type} (f : α → Verdict) (l : List α) (i : Nat) (x : α)
    (r : Verdict) (hx : l.get? i = some x)
    (hprev : ∀ j y, j < i → l.get? j = some y → f y = some none)
    (hr : f x = r) (hne : r ≠ some none) : firstError f l = r := by
  induction l generalizing i with
  | nil => simp at hx
  | cons a l ih =>
    cases i with
    | zero =>
      simp only [List.get?, Option.some.injEq] at hx
      subst hx
      unfold firstError
      rw [hr]
      rcases r with _ | _ | _
      · rfl
      · exact absurd rfl hne
      · rfl
    | succ i =>
      have ha : f a = some none := hprev 0 a (Nat.succ_pos i) rfl
      unfold firstError
      rw [ha]
      exact ih i hx (fun j y hj hy => hprev (j + 1) y (Nat.succ_lt_succ hj) hy)

theorem firstError_map {α β : Type} (f : β → Verdict) (g : α → β) (l : List α) :
    firstError f (l.map g) = firstError (fun a => f (g a)) l := by
  induction l with
  | nil => rfl
  | cons a l ih =>
    simp only [List.map, firstError, ih]

theorem wrap_msg (labels : List Str) (r : Verdict) (e : errx.impl)
    (h : Validate.wrap labels r = some (some e)) (hl : labels ≠ []) :
    ∃ rest, e.msg = "Field '".toList ++ [ '.' ].intercalate labels ++ "'".toList ++ rest := by
  rcases r with _ | _ | err
  · simp [Validate.wrap] at h
  · simp [Validate.wrap] at h
  · simp only [Validate.wrap, if_pos hl, Option.some.injEq] at h
    subst h
    by_cases hm : err.msg = []
    · exact ⟨[], by simp [errx.impl.AppendMsg, errx.impl.Err, hm]⟩
    · exact ⟨": ".toList ++ err.msg, by simp [errx.impl.AppendMsg, errx.impl.Err, hm]⟩

theorem Validate_msg (ext : External) (c : Config) (v : Value) (labels : List Str)
    (e : errx.impl) (h : c.Validate ext v labels = some (some e))
    (hl : labelsOf c.label labels ≠ []) :
    ∃ rest, e.msg = "Field '".toList ++ [ '.' ].intercalate (labelsOf c.label labels)
      ++ "'".toList ++ rest := by
  unfold Config.Validate Validate.body at h
  exact wrap_msg _ _ e h hl

/-- What `runValidators` of a container comes to once the container's own
validators have passed: the first verdict, over the elements in order, of the
key check followed by the element check. -/
theorem container_run (ext : External) (required : Bool) (label : Str)
    (validators : List Validator) (ec : Config) (k : spec.Container) (labels : List Str)
    (hrun : runAll ext validators k.value = some none) :
    Config.runValidators ext (k.config required label validators ec) k.value labels
      = firstError (fun (kx : Str × Value) =>
          match (match k.keyConfig with
                 | some kc => kc.Validate ext (.string kx.1) (labels ++ [kx.1])
                 | none => some none) with
          | some none => ec.Validate ext kx.2 (labels ++ [kx.1])
          | r => r) k.entries := by
  cases k with
  | slice elems =>
    simp only [spec.Container.config, spec.Container.value, spec.Container.entries,
      spec.Container.keyConfig] at hrun ⊢
    rw [Config.runValidators]
    simp only [runValidators.body, hrun, Config.check, Option.isSome, Bool.or_self,
      Bool.false_and, Bool.false_eq_true, if_false, Value.Kind, Value.under, true_or, if_true]
    rw [firstError_map]
    simp only [Config.Validate]
    generalize firstError _ (indexed 0 elems) = r
    rcases r with _ | _ | _ <;> rfl
  | map kc entries =>
    simp only [spec.Container.config, spec.Container.value, spec.Container.entries,
      spec.Container.keyConfig] at hrun ⊢
    rw [Config.runValidators]
    simp only [runValidators.body, hrun, Config.check, Option.isSome, Bool.or_true,
      Bool.true_and, decide_True, Value.Kind, Value.under, if_true]
    rw [firstError_map]
    have hf : (fun (a : Str × Value) =>
        match dereference (Value.string a.1, a.2).1 with
        | .error e => some (some e)
        | .ok k1 =>
          match
            (match Config.check ext kc with
             | some validate => validate (Value.string a.1, a.2).1 (labels ++ [k1.Sprint])
             | none => some none) with
          | some none =>
            Validate.body ec.required ec.label ec.hasValidators (Config.runValidators ext ec)
              (Value.string a.1, a.2).2 (labels ++ [k1.Sprint])
          | r => r)
        = (fun (kx : Str × Value) =>
          match (match kc with
                 | some kc => kc.Validate ext (.string kx.1) (labels ++ [kx.1])
                 | none => some none) with
          | some none => ec.Validate ext kx.2 (labels ++ [kx.1])
          | r => r) := by
      funext a
      cases kc <;> rfl
    rw [hf]
    generalize firstError _ entries = r
    rcases r with _ | _ | _ <;> rfl


theorem container_valid (k : spec.Container) :
    k.value ≠ .invalid ∧ k.value.Kind ≠ Kind.Ptr ∧ isZero k.value = false := by
  cases k <;> exact ⟨(fun h => by cases h), (fun h => by cases h), rfl⟩

/-- C25 (amended): for a non-nil slice, or a non-nil map with string keys,
whose own validators pass, whose elements before the `i`-th pass, whose keys up
to the `i`-th pass and whose `i`-th element fails under `dive`: `Validate` of
the container returns an error whose message is `Field '<path>': ` (absent when
the container has neither a label nor enclosing labels) followed by
`Field '<path>.<index or key>'`, or `Field '<path>.<index or key>.<element
label>'` when the dive rule sets a label, and the rest of the element's error;
`<path>` is the labels of the enclosing fields and the label of the container,
joined by `.`. -/
theorem element_error_names_label_path (ext : External) (required : Bool) (label : Str)
    (validators : List Validator) (ec : Config) (k : spec.Container) (parent : List Str)
    (i : Nat) (key : Str) (x : Value) (e : errx.impl)
    (hrun : runAll ext validators k.value = some none)
    (hent : k.entries.get? i = some (key, x))
    (hkeys : ∀ kc, k.keyConfig = some kc → ∀ j kj y, j ≤ i → k.entries.get? j = some (kj, y) →
      kc.Validate ext (.string kj) (labelsOf label parent ++ [kj]) = some none)
    (hprev : ∀ j kj y, j < i → k.entries.get? j = some (kj, y) →
      ec.Validate ext y (labelsOf label parent ++ [kj]) = some none)
    (hfail : ec.Validate ext x (labelsOf label parent ++ [key]) = some (some e)) :
    ∃ e1 rest,
      (k.config required label validators ec).Validate ext k.value parent = some (some e1)
      ∧ e1.msg
        = (if labelsOf label parent = [] then []
           else "Field '".toList ++ [ '.' ].intercalate (labelsOf label parent) ++ "': ".toList)
          ++ "Field '".toList
          ++ [ '.' ].intercalate
              (labelsOf label parent ++ [key] ++ (if ec.label = [] then [] else [ec.label]))
          ++ "'".toList ++ rest := by
  obtain ⟨hvalid, hptr, hzero⟩ := container_valid k
  have hkeypass : ∀ j kj y, j ≤ i → k.entries.get? j = some (kj, y) →
      (match k.keyConfig with
       | some kc => kc.Validate ext (.string kj) (labelsOf label parent ++ [kj])
       | none => some none) = some none := by
    intro j kj y hj hy
    cases hk : k.keyConfig with
    | none => rfl
    | some kc => exact hkeys kc hk j kj y hj hy
  have hfirst : Config.runValidators ext (k.config required label validators ec) k.value
      (labelsOf label parent) = some (some e) := by
    rw [container_run ext required label validators ec k _ hrun]
    apply firstError_first _ _ i (key, x) _ hent
    · intro j y hj hy
      obtain ⟨kj, yj⟩ := y
      simp only [hkeypass j kj yj (Nat.le_of_lt hj) hy]
      exact hprev j kj yj hj hy
    · simp only [hkeypass i key x (Nat.le_refl i) hent]
      exact hfail
    · intro h
      cases h
  have hhas : (k.config required label validators ec).hasValidators = true := by
    cases k <;> simp [spec.Container.config, Config.hasValidators, Config.arrayConfig,
      Config.mapValue]
  have hlabel : (k.config required label validators ec).label = label := by
    cases k <;> rfl
  have hbody : (k.config required label validators ec).Validate ext k.value parent
      = Validate.wrap (labelsOf label parent) (some (some e)) := by
    unfold Config.Validate
    rw [Validate_body_valid _ _ _ _ _ _ hvalid, if_neg hptr, hhas, hzero, hlabel, hfirst]
    cases (k.config required label validators ec).required <;> rfl
  have hel : labelsOf ec.label (labelsOf label parent ++ [key])
      = labelsOf label parent ++ [key] ++ (if ec.label = [] then [] else [ec.label]) := by
    unfold labelsOf
    by_cases h : ec.label = []
    · simp [h]
    · simp [h]
  obtain ⟨rest, hrest⟩ := Validate_msg ext ec x _ e hfail (by
    rw [hel]
    simp)
  rw [hel] at hrest
  by_cases hL : labelsOf label parent = []
  · refine ⟨e, rest, ?_, ?_⟩
    · rw [hbody, hL]
      rfl
    · rw [if_pos hL, hrest]
      simp
  · have hne : e.msg ≠ [] := by
      rw [hrest]
      simp
    refine ⟨(e.AppendMsg ("Field '".toList ++ [ '.' ].intercalate (labelsOf label parent)
      ++ "'".toList)).Err, rest, ?_, ?_⟩
    · rw [hbody]
      simp only [Validate.wrap, if_pos hL]
    · rw [if_neg hL]
      simp only [errx.impl.Err, errx.impl.AppendMsg, if_neg hne, hrest]
      simp


/-- The failing cases of the slice test and of the map test: the element `t`
of `tags` and the value under `key1` of `settings`, with the configurations
that `SliceTest` and `Cfg` give these fields. -/
theorem element_error_names_label_path_witness :
    (∃ e1 rest,
      ((spec.Container.slice [.string "t".toList, .string "tag2".toList]).config true
          "tags".toList [] sample.tagConfig).Validate sample.external
        (.slice (some [.string "t".toList, .string "tag2".toList])) [] = some (some e1)
      ∧ e1.msg = "Field 'tags': Field 'tags.0'".toList ++ rest)
    ∧ (∃ e1 rest,
      ((spec.Container.map (some sample.requiredConfig)
          [("key1".toList, .string []), ("key2".toList, .string "value2".toList)]).config true
          "settings".toList [] sample.requiredConfig).Validate sample.external
        (.map (some [(.string "key1".toList, .string []),
          (.string "key2".toList, .string "value2".toList)])) [] = some (some e1)
      ∧ e1.msg = "Field 'settings': Field 'settings.key1'".toList ++ rest)
    ∧ getOrCreateConfig sample.external sample.emptyCache sample.SliceTest sample.json
      = some (.ok (some (.mk true [] none none none
          [(0, (spec.Container.slice []).config true "tags".toList [] sample.tagConfig)] [])))
    ∧ getOrCreateConfig sample.external sample.emptyCache sample.Cfg sample.json
      = some (.ok (some (.mk true [] none none none
          [(0, (spec.Container.map (some sample.requiredConfig) []).config true
            "settings".toList [] sample.requiredConfig)] []))) := by
  refine ⟨?_, ?_, rfl, rfl⟩
  · exact element_error_names_label_path sample.external true "tags".toList []
      sample.tagConfig (.slice [.string "t".toList, .string "tag2".toList]) [] 0 "0".toList
      (.string "t".toList)
      (errx.Validation.WithMsg
        "Field 'tags.0': value length must be greater than or equal to 2.".toList)
      rfl rfl (fun kc h => by cases h) (fun j kj y hj => absurd hj (Nat.not_lt_zero j)) rfl
  · exact element_error_names_label_path sample.external true "settings".toList []
      sample.requiredConfig
      (.map (some sample.requiredConfig)
        [("key1".toList, .string []), ("key2".toList, .string "value2".toList)])
      [] 0 "key1".toList (.string [])
      (errx.Validation.WithMsg "Field 'settings.key1': value is required".toList)
      rfl rfl
      (fun kc h j kj y hj hy => by
        have hj0 : j = 0 := Nat.le_zero.mp hj
        subst hj0
        cases h
        cases hy
        rfl)
      (fun j kj y hj => absurd hj (Nat.not_lt_zero j)) rfl

/-- C25 (counterexample): with `validate:"dive,label=item,required"` on
`Tags []string` labelled `tags`, an empty first element gives the message
`Field 'tags': Field 'tags.0.item': value is required`; and for the same kind
of slice in a struct field labelled `inner`, a short first element gives
`Field 'inner': Field 'inner.Tags': Field 'inner.Tags.0': ...`. Neither message
contains `Field 'tags.0'`, and the second has no `Field 'Tags.0'` either. -/
theorem element_label_and_enclosing_labels_enter_the_path :
    ValidateStructWithCache sample.external sample.emptyCache sample.ItemsTest
        (.struct [.slice (some [.string [], .string "tag2".toList])]) sample.json
      = some (some (errx.Validation.WithMsg
          "Field 'tags': Field 'tags.0.item': value is required".toList))
    ∧ strings.Contains "Field 'tags': Field 'tags.0.item': value is required".toList
        "Field 'tags.0'".toList = false
    ∧ ValidateStructWithCache sample.external sample.emptyCache sample.NestedTest
        (.struct [.struct [.slice (some [.string "t".toList, .string "tag2".toList])]])
        sample.json
      = some (some (errx.Validation.WithMsg
          ("Field 'inner': Field 'inner.Tags': Field 'inner.Tags.0': ".toList
            ++ "value length must be greater than or equal to 2.".toList)))
    ∧ strings.Contains
        ("Field 'inner': Field 'inner.Tags': Field 'inner.Tags.0': ".toList
          ++ "value length must be greater than or equal to 2.".toList)
        "Field 'tags.0'".toList = false
    ∧ strings.Contains
        ("Field 'inner': Field 'inner.Tags': Field 'inner.Tags.0': ".toList
          ++ "value length must be greater than or equal to 2.".toList)
        "Field 'Tags.0'".toList = false := by
  refine ⟨rfl, rfl, rfl, rfl, rfl⟩

end validation

/-! ## REST groups: matching a registered route -/

namespace api

theorem Extends_refl (t : Trie) : Trie.Extends t t :=
  fun _ n h => ⟨n, h, rfl, fun _ hx => hx⟩

theorem Extends_trans (t2 t1 t : Trie) (h21 : Trie.Extends t2 t1) (h10 : Trie.Extends t1 t) :
    Trie.Extends t2 t := by
  intro π n h
  obtain ⟨n1, h1, hp1, hr1⟩ := h10 π n h
  obtain ⟨n2, h2, hp2, hr2⟩ := h21 π n1 h1
  exact ⟨n2, h2, hp2.trans hp1, fun x hx => hr2 x (hr1 x hx)⟩

theorem Holds_mono (t1 t : Trie) (r : route) (hext : Trie.Extends t1 t) :
    ∀ (chain π : List Str), Trie.Holds t r chain π → Trie.Holds t1 r chain π := by
  intro chain
  induction chain with
  | nil =>
    intro π h
    obtain ⟨n, hn, hr⟩ := h
    obtain ⟨n1, h1, _, hr1⟩ := hext π n hn
    exact ⟨n1, h1, hr1 r hr⟩
  | cons p rest ih =>
    intro π h
    unfold Trie.Holds at h ⊢
    by_cases hp : p = []
    · rw [if_pos hp] at h ⊢
      exact ih π h
    · rw [if_neg hp] at h ⊢
      obtain ⟨⟨n, hn, hk⟩, hrest⟩ := h
      obtain ⟨n1, h1, hp1, _⟩ := hext _ n hn
      exact ⟨⟨n1, h1, hp1.trans hk⟩, ih _ hrest⟩

theorem Extends_set_new (t : Trie) (π : List Str) (n : pathTrieNode) (h : t π = none) :
    Trie.Extends (t.set π n) t := by
  intro q m hq
  have hne : q ≠ π := by
    intro heq
    rw [heq, h] at hq
    cases hq
  exact ⟨m, by simp [Trie.set, hne, hq], rfl, fun _ hx => hx⟩

theorem insert_ok (r : route) :
    ∀ (chain π : List Str) (t t1 : Trie), resetTrie.insert r chain π t = some t1 →
      (∃ n, t π = some n) →
      Trie.Holds t1 r chain π ∧ Trie.Extends t1 t
        ∧ ∀ S : Str → Prop, Trie.KeysIn t S → (∀ k ∈ π, S k) →
            (∀ p ∈ chain, p ≠ [] → S (resetTrie.key p)) → Trie.KeysIn t1 S := by
  intro chain
  induction chain with
  | nil =>
    intro π t t1 h hπ
    obtain ⟨cur, hcur⟩ := hπ
    unfold resetTrie.insert at h
    rw [hcur] at h
    simp only at h
    by_cases hr : cur.route.isSome = true
    · rw [if_pos hr] at h
      cases h
    · rw [if_neg hr, Option.some.injEq] at h
      subst h
      refine ⟨⟨{ cur with route := some r }, by simp [Trie.set], rfl⟩, ?_, ?_⟩
      · intro q m hq
        by_cases hqπ : q = π
        · subst hqπ
          rw [hcur, Option.some.injEq] at hq
          subst hq
          refine ⟨{ cur with route := some r }, by simp [Trie.set], rfl, ?_⟩
          intro x hx
          rw [hx] at hr
          exact absurd rfl hr
        · exact ⟨m, by simp [Trie.set, hqπ, hq], rfl, fun _ hx => hx⟩
      · intro S hS hπS _ q m hq
        by_cases hqπ : q = π
        · subst hqπ
          exact hπS
        · simp only [Trie.set, if_neg hqπ] at hq
          exact hS q m hq
  | cons p rest ih =>
    intro π t t1 h hπ
    unfold resetTrie.insert at h
    by_cases hp : p = []
    · rw [if_pos hp] at h
      obtain ⟨hH, hE, hK⟩ := ih π t t1 h hπ
      refine ⟨?_, hE, ?_⟩
      · unfold Trie.Holds
        rw [if_pos hp]
        exact hH
      · intro S hS hπS hchain
        exact hK S hS hπS (fun q hq hne => hchain q (List.mem_cons_of_mem _ hq) hne)
    · rw [if_neg hp] at h
      by_cases hbad : strings.HasPrefix p "\x7b".toList = true ∧ p.length < 2
      · rw [if_pos hbad] at h
        cases h
      · rw [if_neg hbad] at h
        cases hchild : t (π ++ [resetTrie.key p]) with
        | none =>
          rw [hchild] at h
          simp only at h
          obtain ⟨hH, hE, hK⟩ := ih _ _ t1 h
            ⟨{ paramKey := resetTrie.paramKey p, route := none }, by simp [Trie.set]⟩
          have hE0 : Trie.Extends t1 t :=
            Extends_trans t1 _ t hE (Extends_set_new t _ _ hchild)
          refine ⟨?_, hE0, ?_⟩
          · unfold Trie.Holds
            rw [if_neg hp]
            refine ⟨?_, hH⟩
            obtain ⟨n1, h1, hp1, _⟩ := hE (π ++ [resetTrie.key p])
              { paramKey := resetTrie.paramKey p, route := none } (by simp [Trie.set])
            exact ⟨n1, h1, hp1⟩
          · intro S hS hπS hchain
            have hkey : S (resetTrie.key p) := hchain p (List.mem_cons_self _ _) hp
            apply hK S
            · intro q m hq
              by_cases hqπ : q = π ++ [resetTrie.key p]
              · subst hqπ
                intro k hk
                rcases List.mem_append.mp hk with hk | hk
                · exact hπS k hk
                · rw [List.mem_singleton.mp hk]
                  exact hkey
              · simp only [Trie.set, if_neg hqπ] at hq
                exact hS q m hq
            · intro k hk
              rcases List.mem_append.mp hk with hk | hk
              · exact hπS k hk
              · rw [List.mem_singleton.mp hk]
                exact hkey
            · exact fun q hq hne => hchain q (List.mem_cons_of_mem _ hq) hne
        | some child =>
          rw [hchild] at h
          simp only at h
          by_cases hpk : child.paramKey ≠ resetTrie.paramKey p
          · rw [if_pos hpk] at h
            cases h
          · rw [if_neg hpk] at h
            have hpk1 : child.paramKey = resetTrie.paramKey p := not_not.mp hpk
            obtain ⟨hH, hE, hK⟩ := ih _ t t1 h ⟨child, hchild⟩
            refine ⟨?_, hE, ?_⟩
            · unfold Trie.Holds
              rw [if_neg hp]
              refine ⟨?_, hH⟩
              obtain ⟨n1, h1, hp1, _⟩ := hE _ child hchild
              exact ⟨n1, h1, hp1.trans hpk1⟩
            · intro S hS hπS hchain
              have hkey : S (resetTrie.key p) := hchain p (List.mem_cons_self _ _) hp
              apply hK S hS
              · intro k hk
                rcases List.mem_append.mp hk with hk | hk
                · exact hπS k hk
                · rw [List.mem_singleton.mp hk]
                  exact hkey
              · exact fun q hq hne => hchain q (List.mem_cons_of_mem _ hq) hne


theorem key_cases (p : Str) :
    (strings.HasPrefix p "\x7b".toList = true ∧ resetTrie.key p = "$".toList)
      ∨ (strings.HasPrefix p "\x7b".toList = false ∧ resetTrie.key p = p) := by
  unfold resetTrie.key
  cases h : strings.HasPrefix p "\x7b".toList
  · right
    exact ⟨rfl, by simp⟩
  · left
    exact ⟨rfl, by simp⟩

theorem add_ok (all : List route) (mt mt1 : Method → Option Trie) (r : route)
    (D : route → Prop) (hadd : resetTrie.add mt r = some mt1) (hr : r ∈ all)
    (hnodes : ∀ m t, mt m = some t → (∃ n, t [] = some n)
      ∧ Trie.KeysIn t (fun k => k = "$".toList
          ∨ ∃ r1 ∈ all, r1.endpoint.method = m ∧ k ∈ r1.pathChain))
    (hheld : ∀ r0, D r0 → ∃ t, mt r0.endpoint.method = some t ∧ Trie.Holds t r0 r0.pathChain []) :
    (∀ m t, mt1 m = some t → (∃ n, t [] = some n)
      ∧ Trie.KeysIn t (fun k => k = "$".toList
          ∨ ∃ r1 ∈ all, r1.endpoint.method = m ∧ k ∈ r1.pathChain))
    ∧ ∀ r0, (D r0 ∨ r0 = r) →
        ∃ t, mt1 r0.endpoint.method = some t ∧ Trie.Holds t r0 r0.pathChain [] := by
  unfold resetTrie.add at hadd
  cases hins : resetTrie.insert r r.pathChain [] ((mt r.endpoint.method).getD Trie.root) with
  | none =>
    rw [hins] at hadd
    cases hadd
  | some t1 =>
    rw [hins] at hadd
    simp only [Option.some.injEq] at hadd
    subst hadd
    have h0 : (∃ n, ((mt r.endpoint.method).getD Trie.root) [] = some n)
        ∧ Trie.KeysIn ((mt r.endpoint.method).getD Trie.root) (fun k => k = "$".toList
          ∨ ∃ r1 ∈ all, r1.endpoint.method = r.endpoint.method ∧ k ∈ r1.pathChain) := by
      cases hm : mt r.endpoint.method with
      | none =>
        refine ⟨⟨_, rfl⟩, ?_⟩
        intro q n hq k hk
        simp only [Option.getD, Trie.root] at hq
        by_cases hq0 : q = []
        · subst hq0
          cases hk
        · rw [if_neg hq0] at hq
          cases hq
      | some t => exact hnodes _ t hm
    obtain ⟨hH, hE, hK⟩ := insert_ok r r.pathChain [] _ t1 hins h0.1
    have hK1 := hK _ h0.2 (fun k hk => by cases hk) (by
      intro p hp _
      rcases key_cases p with ⟨_, hk⟩ | ⟨_, hk⟩
      · exact Or.inl hk
      · exact Or.inr ⟨r, hr, rfl, by rw [hk]; exact hp⟩)
    constructor
    · intro m t hmt
      by_cases hm : m = r.endpoint.method
      · simp only [if_pos hm, Option.some.injEq] at hmt
        subst hmt
        subst hm
        obtain ⟨n, hn⟩ := h0.1
        obtain ⟨n1, hn1, _, _⟩ := hE [] n hn
        exact ⟨⟨n1, hn1⟩, hK1⟩
      · simp only [if_neg hm] at hmt
        exact hnodes m t hmt
    · intro r0 hr0
      rcases hr0 with hD | heq
      · obtain ⟨t, ht, hh⟩ := hheld r0 hD
        by_cases hm : r0.endpoint.method = r.endpoint.method
        · refine ⟨t1, by simp [hm], ?_⟩
          rw [hm] at ht
          rw [ht] at hE
          exact Holds_mono t1 t r0 hE _ _ hh
        · exact ⟨t, by simp [hm, ht], hh⟩
      · subst heq
        exact ⟨t1, by simp, hH⟩

theorem build_ok (all : List route) :
    ∀ (rest : List route) (mt mt1 : Method → Option Trie) (D : route → Prop),
      resetTrie.build rest mt = some mt1 → (∀ r ∈ rest, r ∈ all) →
      (∀ m t, mt m = some t → (∃ n, t [] = some n)
        ∧ Trie.KeysIn t (fun k => k = "$".toList
            ∨ ∃ r1 ∈ all, r1.endpoint.method = m ∧ k ∈ r1.pathChain)) →
      (∀ r0, D r0 →
        ∃ t, mt r0.endpoint.method = some t ∧ Trie.Holds t r0 r0.pathChain []) →
      (∀ m t, mt1 m = some t → (∃ n, t [] = some n)
        ∧ Trie.KeysIn t (fun k => k = "$".toList
            ∨ ∃ r1 ∈ all, r1.endpoint.method = m ∧ k ∈ r1.pathChain))
      ∧ ∀ r0, (D r0 ∨ r0 ∈ rest) →
          ∃ t, mt1 r0.endpoint.method = some t ∧ Trie.Holds t r0 r0.pathChain [] := by
  intro rest
  induction rest with
  | nil =>
    intro mt mt1 D h _ hnodes hheld
    simp only [resetTrie.build, Option.some.injEq] at h
    subst h
    refine ⟨hnodes, ?_⟩
    intro r0 hr0
    rcases hr0 with hD | hmem
    · exact hheld r0 hD
    · cases hmem
  | cons r rest ih =>
    intro mt mt1 D h hall hnodes hheld
    unfold resetTrie.build at h
    cases hadd : resetTrie.add mt r with
    | none =>
      rw [hadd] at h
      cases h
    | some next =>
      rw [hadd] at h
      simp only at h
      obtain ⟨hn1, hh1⟩ := add_ok all mt next r D hadd (hall r (List.mem_cons_self _ _))
        hnodes hheld
      obtain ⟨hn2, hh2⟩ := ih next mt1 (fun r0 => D r0 ∨ r0 = r) h
        (fun q hq => hall q (List.mem_cons_of_mem _ hq)) hn1 hh1
      refine ⟨hn2, ?_⟩
      intro r0 hr0
      apply hh2
      rcases hr0 with hD | hmem
      · exact Or.inl (Or.inl hD)
      · rcases List.mem_cons.mp hmem with heq | hmem
        · exact Or.inl (Or.inr heq)
        · exact Or.inr hmem

end api

namespace strings

theorem splitOnP_clean (p : Char → Bool) :
    ∀ (l : Str) (x : Str), x ∈ l.splitOnP p → ∀ c ∈ x, p c = false := by
  intro l
  induction l with
  | nil =>
    intro x hx c hc
    rw [List.splitOnP_nil, List.mem_singleton] at hx
    rw [hx] at hc
    cases hc
  | cons a l ih =>
    intro x hx c hc
    rw [List.splitOnP_cons] at hx
    by_cases ha : p a = true
    · rw [if_pos ha] at hx
      rcases List.mem_cons.mp hx with hx | hx
      · rw [hx] at hc
        cases hc
      · exact ih x hx c hc
    · rw [if_neg ha] at hx
      cases hs : List.splitOnP p l with
      | nil => exact absurd hs (List.splitOnP_ne_nil _ _)
      | cons y ys =>
        rw [hs] at hx ih
        simp only [List.modifyHead, List.mem_cons] at hx
        rcases hx with hx | hx
        · rw [hx] at hc
          rcases List.mem_cons.mp hc with hc | hc
          · rw [hc]
            simpa using ha
          · exact ih y (List.mem_cons_self _ _) c hc
        · exact ih x (List.mem_cons_of_mem _ hx) c hc

theorem Split_clean (s : Str) (sep : Char) (x : Str) (hx : x ∈ Split s sep) : sep ∉ x := by
  intro hmem
  have := splitOnP_clean (fun c => c == sep) s x hx sep hmem
  simp at this

theorem Split_Join (segs : List Str) (sep : Char) (h : ∀ s ∈ segs, sep ∉ s)
    (hne : segs ≠ []) : Split (Join segs sep) sep = segs :=
  List.splitOn_intercalate segs sep h hne

end strings

namespace api

theorem chain_clean (p : Option Str) (pathChain : List Str)
    (h : ∀ s ∈ pathChain, '/' ∉ s) : ∀ s ∈ parseRoutes.chain p pathChain, '/' ∉ s := by
  intro s hs
  unfold parseRoutes.chain at hs
  cases p with
  | none => exact h s hs
  | some q =>
    simp only at hs
    by_cases hq : q ≠ []
    · rw [if_pos hq] at hs
      rcases List.mem_append.mp hs with hs | hs
      · exact h s hs
      · exact strings.Split_clean q '/' s (List.mem_of_mem_filter hs)
    · rw [if_neg hq] at hs
      exact h s hs

mutual
theorem parseRoutes_clean : (node : Node) → (pathChain : List Str) →
    (∀ s ∈ pathChain, '/' ∉ s) → ∀ r ∈ parseRoutes node pathChain, ∀ s ∈ r.pathChain, '/' ∉ s
  | .endpoint e, pathChain, h => by
    intro r hr
    rw [parseRoutes, List.mem_singleton] at hr
    subst hr
    exact chain_clean e.path pathChain h
  | .group p children, pathChain, h => by
    intro r hr
    rw [parseRoutes] at hr
    exact parseRoutes_children_clean children _ (chain_clean p pathChain h) r hr
theorem parseRoutes_children_clean : (children : List Node) → (pathChain : List Str) →
    (∀ s ∈ pathChain, '/' ∉ s) →
    ∀ r ∈ parseRoutes.children children pathChain, ∀ s ∈ r.pathChain, '/' ∉ s
  | [], _, _ => by
    intro r hr
    rw [parseRoutes.children] at hr
    cases hr
  | child :: rest, pathChain, h => by
    intro r hr
    rw [parseRoutes.children] at hr
    rcases List.mem_append.mp hr with hr | hr
    · exact parseRoutes_clean child pathChain h r hr
    · exact parseRoutes_children_clean rest pathChain h r hr
end

theorem loop_skip (t : Trie) (l π : List Str) (params : Str → Option Str) :
    Match.loop t ([] :: l) π params = Match.loop t l π params := by
  rw [Match.loop, if_pos rfl]

theorem loop_path (t : Trie) (segs π : List Str) (params : Str → Option Str)
    (h : ∀ s ∈ segs, '/' ∉ s) :
    Match.loop t (strings.Split ('/' :: strings.Join segs '/') '/') π params
      = Match.loop t segs π params := by
  have h1 : strings.Split ('/' :: strings.Join segs '/') '/'
      = [] :: strings.Split (strings.Join segs '/') '/' :=
    strings.Split_append_sep [] _ '/' (by simp)
  rw [h1, loop_skip]
  by_cases hne : segs = []
  · subst hne
    have h2 : strings.Split (strings.Join [] '/') '/' = [[]] := rfl
    rw [h2, loop_skip]
  · rw [strings.Split_Join segs '/' h hne]

theorem loop_holds (t : Trie) (r : route) (σ : Str → Str) (S : Str → Prop)
    (hK : Trie.KeysIn t S) :
    ∀ (chain π : List Str) (params : Str → Option Str), Trie.Holds t r chain π →
      (∀ p ∈ chain, strings.HasPrefix p "\x7b".toList = true →
        σ (resetTrie.paramKey p) ≠ [] ∧ ¬ S (σ (resetTrie.paramKey p))) →
      ∃ params1,
        Match.loop t
            (chain.map (fun p =>
              if strings.HasPrefix p "\x7b".toList then σ (resetTrie.paramKey p) else p))
            π params = some (r, params1)
        ∧ (∀ p ∈ chain, strings.HasPrefix p "\x7b".toList = true →
            params1 (resetTrie.paramKey p) = some (σ (resetTrie.paramKey p)))
        ∧ ∀ x, params x = some (σ x) → params1 x = some (σ x) := by
  intro chain
  induction chain with
  | nil =>
    intro π params hH _
    obtain ⟨n, hn, hr⟩ := hH
    refine ⟨params, ?_, ?_, fun _ hx => hx⟩
    · simp only [List.map, Match.loop, hn, hr, Option.map]
    · intro p hp
      cases hp
  | cons p rest ih =>
    intro π params hH hσ
    unfold Trie.Holds at hH
    have hσrest : ∀ q ∈ rest, strings.HasPrefix q "\x7b".toList = true →
        σ (resetTrie.paramKey q) ≠ [] ∧ ¬ S (σ (resetTrie.paramKey q)) :=
      fun q hq => hσ q (List.mem_cons_of_mem _ hq)
    by_cases hp : p = []
    · rw [if_pos hp] at hH
      obtain ⟨params1, hloop, hpar, hkeep⟩ := ih π params hH hσrest
      refine ⟨params1, ?_, ?_, hkeep⟩
      · subst hp
        simp only [List.map]
        rw [show (if strings.HasPrefix [] "\x7b".toList = true then σ (resetTrie.paramKey [])
          else ([] : Str)) = [] from rfl, loop_skip]
        exact hloop
      · intro q hq hpre
        rcases List.mem_cons.mp hq with heq | hq
        · subst heq
          subst hp
          exact absurd hpre (by decide)
        · exact hpar q hq hpre
    · rw [if_neg hp] at hH
      obtain ⟨⟨n, hn, hnk⟩, hrest⟩ := hH
      rcases key_cases p with ⟨hpre, hkey⟩ | ⟨hpre, hkey⟩
      · obtain ⟨hne, hfresh⟩ := hσ p (List.mem_cons_self _ _) hpre
        have hnone : t (π ++ [σ (resetTrie.paramKey p)]) = none := by
          cases hq : t (π ++ [σ (resetTrie.paramKey p)]) with
          | none => rfl
          | some m =>
            exact absurd (hK _ m hq _ (by simp)) hfresh
        rw [hkey] at hn hrest
        obtain ⟨params1, hloop, hpar, hkeep⟩ := ih (π ++ ["$".toList])
          (setParam params n.paramKey (σ (resetTrie.paramKey p))) hrest hσrest
        have hset : params1 (resetTrie.paramKey p) = some (σ (resetTrie.paramKey p)) := by
          apply hkeep
          simp [setParam, hnk]
        refine ⟨params1, ?_, ?_, ?_⟩
        · simp only [List.map, hpre, if_true]
          rw [Match.loop, if_neg hne, hnone]
          simp only [hn]
          exact hloop
        · intro q hq hqpre
          rcases List.mem_cons.mp hq with heq | hq
          · subst heq
            exact hset
          · exact hpar q hq hqpre
        · intro x hx
          apply hkeep
          by_cases hxk : x = n.paramKey
          · simp only [setParam, if_pos hxk]
            rw [hxk, hnk]
          · simp only [setParam, if_neg hxk]
            exact hx
      · rw [hkey] at hn hrest
        obtain ⟨params1, hloop, hpar, hkeep⟩ := ih (π ++ [p]) params hrest hσrest
        refine ⟨params1, ?_, ?_, hkeep⟩
        · simp only [List.map, hpre, Bool.false_eq_true, if_false]
          rw [Match.loop, if_neg hp, hn]
          exact hloop
        · intro q hq hqpre
          rcases List.mem_cons.mp hq with heq | hq
          · subst heq
            rw [hpre] at hqpre
            cases hqpre
          · exact hpar q hq hqpre


theorem resetTrie_built (g g1 : group) (r : route) (hbuild : g.resetTrie = some g1)
    (hr : r ∈ g1.routes) :
    g1.routes = parseRoutes (.group g.path g.children) []
      ∧ ∃ methodTrie, g1.methodTrie = some methodTrie
          ∧ resetTrie.build g1.routes (fun _ => none) = some methodTrie := by
  unfold group.resetTrie at hbuild
  by_cases h1 : g.children.isEmpty = true
  · rw [if_pos h1, Option.some.injEq] at hbuild
    subst hbuild
    cases hr
  · rw [if_neg h1] at hbuild
    by_cases h2 : (parseRoutes (.group g.path g.children) []).isEmpty = true
    · rw [if_pos h2, Option.some.injEq] at hbuild
      subst hbuild
      cases hr
    · rw [if_neg h2] at hbuild
      cases hb : resetTrie.build (parseRoutes (.group g.path g.children) []) (fun _ => none) with
      | none =>
        rw [hb] at hbuild
        cases hbuild
      | some methodTrie =>
        rw [hb, Option.some.injEq] at hbuild
        subst hbuild
        exact ⟨rfl, methodTrie, rfl, hb⟩

/-- C30 (amended): for a group built without an abort, a route `r` registered
in it, and a choice `σ` of a segment for each parameter name such that every
segment put in place of a `{name}` segment of `r` is not empty, has no `/`, is
not `$` and is not a segment of any route of the group with the method of `r`:
`Match` on the method of `r` and the path with the segments substituted returns
`r`, and the path parameters map each parameter name of `r` to its segment. -/
theorem match_instantiated_route (g g1 : group) (r : route) (σ : Str → Str)
    (hbuild : g.resetTrie = some g1) (hr : r ∈ g1.routes)
    (hσ : ∀ p ∈ r.pathChain, strings.HasPrefix p "\x7b".toList = true →
      σ (resetTrie.paramKey p) ≠ [] ∧ '/' ∉ σ (resetTrie.paramKey p)
        ∧ σ (resetTrie.paramKey p) ≠ "$".toList
        ∧ ∀ r1 ∈ g1.routes, r1.endpoint.method = r.endpoint.method →
            σ (resetTrie.paramKey p) ∉ r1.pathChain) :
    ∃ pathParams,
      g1.Match r.endpoint.method (spec.requestPath r.pathChain σ) = some (r, pathParams)
      ∧ ∀ p ∈ r.pathChain, strings.HasPrefix p "\x7b".toList = true →
          pathParams (resetTrie.paramKey p) = some (σ (resetTrie.paramKey p)) := by
  obtain ⟨hroutes, methodTrie, hmt, hb⟩ := resetTrie_built g g1 r hbuild hr
  obtain ⟨hnodes, hheld⟩ := build_ok g1.routes g1.routes (fun _ => none) methodTrie
    (fun _ => False) hb (fun _ h => h) (fun m t h => by cases h) (fun _ h => h.elim)
  obtain ⟨t, ht, hH⟩ := hheld r (Or.inr hr)
  obtain ⟨_, hK⟩ := hnodes _ t ht
  obtain ⟨params1, hloop, hpar, _⟩ := loop_holds t r σ _ hK r.pathChain [] (fun _ => none) hH
    (by
      intro p hp hpre
      obtain ⟨h1, _, h3, h4⟩ := hσ p hp hpre
      refine ⟨h1, ?_⟩
      rintro (h | ⟨r1, hr1, hm, hk⟩)
      · exact h3 h
      · exact h4 r1 hr1 hm hk)
  have hclean : ∀ s ∈ r.pathChain, '/' ∉ s := by
    rw [hroutes] at hr
    exact parseRoutes_clean _ [] (fun _ h => by cases h) r hr
  refine ⟨params1, ?_, hpar⟩
  unfold group.Match spec.requestPath
  rw [hmt]
  simp only [ht]
  rw [loop_path]
  · exact hloop
  · intro s hs
    obtain ⟨p, hp, hps⟩ := List.mem_map.mp hs
    by_cases hpre : strings.HasPrefix p "\x7b".toList = true
    · rw [if_pos hpre] at hps
      rw [← hps]
      exact (hσ p hp hpre).2.1
    · rw [if_neg hpre] at hps
      rw [← hps]
      exact hclean p hp

/-- The request `GET /users/42/profile` against the group `/users`. -/
theorem match_instantiated_route_witness :
    ∃ pathParams,
      (sample.users.getD NewGroup).Match "GET".toList "/users/42/profile".toList
        = some (sample.profileRoute, pathParams)
      ∧ pathParams "id".toList = some "42".toList := by
  obtain ⟨pathParams, h1, h2⟩ := match_instantiated_route
    { path := some "/users".toList,
      children := [.group (some "\x7bid\x7d".toList) [sample.profile], sample.me],
      methodTrie := none, routes := [] }
    (sample.users.getD NewGroup) sample.profileRoute (fun _ => "42".toList) rfl (by decide)
    (by decide)
  exact ⟨pathParams, h1, h2 "\x7bid\x7d".toList (by decide) (by decide)⟩

/-- C30 (counterexample): the group `/users` with the routes
`GET /users/{id}/profile` and `GET /users/me` is built without an abort, and
`/users/me/profile` is the path of the first route with `me` in place of
`{id}`, yet `Match` finds no route for it: the segment `me` takes the literal
child and there is no way back. With `$` in place of `{id}` the route is
found and the path parameters hold nothing under `id`. -/
theorem match_prefers_literal_sibling :
    sample.users.isSome = true
    ∧ sample.profileRoute ∈ (sample.users.getD NewGroup).routes
    ∧ spec.requestPath sample.profileRoute.pathChain (fun _ => "me".toList)
        = "/users/me/profile".toList
    ∧ ((sample.users.getD NewGroup).Match "GET".toList "/users/me/profile".toList).isNone
        = true
    ∧ spec.requestPath sample.profileRoute.pathChain (fun _ => "$".toList)
        = "/users/$/profile".toList
    ∧ ((sample.users.getD NewGroup).Match "GET".toList "/users/$/profile".toList).map
        (fun m => (m.1, m.2 "id".toList)) = some (sample.profileRoute, none) := by
  refine ⟨rfl, by decide, rfl, rfl, rfl, rfl⟩

end api
